import Mathlib

/-!
Verification development for the AI prompt website builder
(Spec validation / repair / code-generation pipeline).

JavaScript strings are modelled as `List Char` (`Str`); JS objects and
untyped JSON-like data as the inductive `Val`; fallible code as `Except`.
Each definition is a shallow embedding of the corresponding TypeScript
function, named after it where Lean allows.
-/

set_option maxRecDepth 10000

abbrev Str := List Char

namespace JsStr

/-- ASCII fragment of the JavaScript `\s` class (space, tab, LF, CR, VT, FF),
used by `String.prototype.trim` and the `\s` regex class. -/
def isJsSpace (c : Char) : Bool :=
  c = ' ' || c = '\t' || c = '\n' || c = '\r' || c = '\x0b' || c = '\x0c'

/-- `String.prototype.trim()`: drop leading and trailing whitespace. -/
def jsTrim (s : Str) : Str :=
  ((s.dropWhile isJsSpace).reverse.dropWhile isJsSpace).reverse

/-- `String.prototype.toLowerCase()` on an ASCII character. -/
def jsToLower (c : Char) : Char :=
  if 'A' ≤ c && c ≤ 'Z' then Char.ofNat (c.toNat + 32) else c

/-- `String.prototype.toUpperCase()` on an ASCII character. -/
def jsToUpper (c : Char) : Char :=
  if 'a' ≤ c && c ≤ 'z' then Char.ofNat (c.toNat - 32) else c

/-- JS `\w` class: `[A-Za-z0-9_]`. -/
def isWordChar (c : Char) : Bool :=
  ('a' ≤ c && c ≤ 'z') || ('A' ≤ c && c ≤ 'Z') || ('0' ≤ c && c ≤ '9') || c = '_'

/-- Helper for `str.replace(/X+/g, r)` where `X` is a character class `p`:
replaces each maximal nonempty run of `p`-characters by the single
character `r`.  `inRun` records whether the previous character was in a run. -/
def collapseRunsAux (p : Char → Bool) (r : Char) : Bool → Str → Str
  | _, [] => []
  | inRun, c :: rest =>
    if p c then
      if inRun then collapseRunsAux p r true rest
      else r :: collapseRunsAux p r true rest
    else c :: collapseRunsAux p r false rest

def collapseRuns (p : Char → Bool) (r : Char) (s : Str) : Str :=
  collapseRunsAux p r false s

/-- `str.replace(/^c+|c+$/g, "")`: strip leading and trailing runs of `c`. -/
def stripEnds (c : Char) (s : Str) : Str :=
  ((s.dropWhile (· = c)).reverse.dropWhile (· = c)).reverse

end JsStr

namespace Slug

open JsStr

/-- The regex class `[\s\W-]` from `repair.ts` / `project-generator.ts`:
whitespace, non-word characters, and the hyphen. -/
def isSlugSep (c : Char) : Bool :=
  isJsSpace c || !isWordChar c || c = '-'

/-- `generateSlug` from `src/engine/specs/repair.ts`:
`name.toString().trim().toLowerCase().replace(/[\s\W-]+/g, "-").replace(/^-+|-+$/g, "")`. -/
def generateSlug (name : Str) : Str :=
  stripEnds '-' (collapseRuns isSlugSep '-' ((jsTrim name).map jsToLower))

/-- The inline slug derivation in `generate` of
`src/engine/generators/project-generator.ts` (same call chain, duplicated
there): `project.name.toString().trim().toLowerCase()
.replace(/[\s\W-]+/g, "-").replace(/^-+|-+$/g, "")`. -/
def projectGeneratorSlug (name : Str) : Str :=
  stripEnds '-' (collapseRuns isSlugSep '-' ((jsTrim name).map jsToLower))

/-- The claimed character class: whitespace or any character outside `a-z0-9`
(this is what the spec sentence describes; note it puts `_` in the
separator class, unlike the code). -/
def isClaimedSep (c : Char) : Bool :=
  isJsSpace c || !(('a' ≤ c && c ≤ 'z') || ('0' ≤ c && c ≤ '9'))

/-- Slugify as the claim words it: trim, lowercase, collapse every run of
whitespace or non-alphanumeric (outside `a-z0-9`) characters to a single
hyphen, strip leading/trailing hyphens. -/
def claimedSlugify (name : Str) : Str :=
  stripEnds '-' (collapseRuns isClaimedSep '-' ((jsTrim name).map jsToLower))

/-- The amended character class: whitespace, hyphen, or any character
outside the word class `A-Za-z0-9_` — so underscores (and, before
lowercasing, letters) are preserved, unlike the class the claim words
describe. -/
def isAmendedSep (c : Char) : Bool :=
  isJsSpace c || c = '-' || !isWordChar c

/-- Slugify as amended: like `claimedSlugify` but with the word class
`A-Za-z0-9_` preserved (in particular underscores are kept). -/
def amendedSlugify (name : Str) : Str :=
  stripEnds '-' (collapseRuns isAmendedSep '-' ((jsTrim name).map jsToLower))

end Slug

example : Slug.generateSlug "My Cool Site!".data = "my-cool-site".data := by decide
example : Slug.generateSlug "a_b".data = "a_b".data := by decide
example : Slug.claimedSlugify "a_b".data = "a-b".data := by decide
example : Slug.amendedSlugify "a_b".data = "a_b".data := by decide
example : Slug.generateSlug "!!!".data = [] := by decide

/-! ## The untyped JS value model -/

/-- JSON-like JavaScript values, as received by `validate` (its input type
is `unknown`) and by `repair` (a `Partial<WebsiteSpec>`, structurally
untrusted).  Numbers are modelled as integers: no claim in this
development depends on non-integral or NaN numerics. -/
inductive Val where
  | undef
  | null
  | bool (b : Bool)
  | num (n : Int)
  | str (s : Str)
  | arr (elems : List Val)
  | obj (fields : List (Str × Val))

namespace Val

/-- JS truthiness. Arrays and objects are always truthy. -/
def truthy : Val → Bool
  | .undef => false
  | .null => false
  | .bool b => b
  | .num n => n ≠ 0
  | .str s => s ≠ []
  | .arr _ => true
  | .obj _ => true

/-- JS `typeof`. `typeof null` and `typeof []` are both `"object"`. -/
def jsTypeof : Val → Str
  | .undef => "undefined".data
  | .null => "object".data
  | .bool _ => "boolean".data
  | .num _ => "number".data
  | .str _ => "string".data
  | .arr _ => "object".data
  | .obj _ => "object".data

def isUndef : Val → Bool
  | .undef => true
  | _ => false

def isNull : Val → Bool
  | .null => true
  | _ => false

def isArray : Val → Bool
  | .arr _ => true
  | _ => false

/-- Property read `v[k]`, TOTAL variant: only used at places where the
source has already guarded the receiver against `null`/`undefined` (JS
would throw there otherwise — see `getProp` for the throwing variant).
Property reads on primitives yield `undefined`, as in JS. -/
def getF (v : Val) (k : Str) : Val :=
  match v with
  | .obj fields =>
    match fields.find? (fun f => f.1 = k) with
    | some f => f.2
    | none => .undef
  | _ => Val.undef

/-- Property read `v[k]` as executed by JS: reading a property of
`null`/`undefined` throws a `TypeError` (`none`). -/
def getProp (v : Val) (k : Str) : Option Val :=
  match v with
  | .undef => none
  | .null => none
  | _ => some (getF v k)

/-- Projection used to model `x.trim()` on a value already known to be a
string (total; non-strings map to the empty string but are never reached
on those paths). -/
def strOf : Val → Str
  | .str s => s
  | _ => []

end Val

/-! ## `validate` — src/engine/specs/validate.ts -/

namespace Validate

open Val JsStr

structure ValidationResult where
  valid : Bool
  errors : List String
deriving DecidableEq

/-- The `!x || typeof x !== "string" || x.trim().length === 0` test the
validator applies to every required string field. -/
def strFieldInvalid (x : Val) : Bool :=
  !truthy x || jsTypeof x ≠ "string".data || jsTrim (strOf x) = []

/-- `validArchitectures.includes(s.architecture)` — strict-equality
membership in `["landing", "ecommerce", "marketplace"]`. -/
def archIncluded (a : Val) : Bool :=
  match a with
  | .str s => s = "landing".data || s = "ecommerce".data || s = "marketplace".data
  | _ => false

/-- Per-section error accumulation of `validate` (the inner `forEach`
callback), push-style in source order. -/
def validateSection (i j : Nat) (sec : Val) : List String :=
  if !truthy sec || jsTypeof sec ≠ "object".data then
    ["Page at index " ++ toString i ++ ", section at index " ++ toString j ++
      " must be an object"]
  else
    let errs : List String := []
    let errs := if strFieldInvalid (getF sec "id".data) then
        errs ++ ["Page at index " ++ toString i ++ ", section at index " ++
          toString j ++ " is missing or has invalid id"] else errs
    let errs := if strFieldInvalid (getF sec "kind".data) then
        errs ++ ["Page at index " ++ toString i ++ ", section at index " ++
          toString j ++ " is missing or has invalid kind"] else errs
    let errs := if !isUndef (getF sec "variant".data) &&
        jsTypeof (getF sec "variant".data) ≠ "string".data then
        errs ++ ["Page at index " ++ toString i ++ ", section at index " ++
          toString j ++ " variant must be a string if provided"] else errs
    let errs := if !isUndef (getF sec "content".data) &&
        jsTypeof (getF sec "content".data) ≠ "object".data then
        errs ++ ["Page at index " ++ toString i ++ ", section at index " ++
          toString j ++ " content must be an object if provided"] else errs
    errs

/-- Per-page error accumulation of `validate` (the outer `forEach`
callback), push-style in source order. -/
def validatePage (i : Nat) (page : Val) : List String :=
  if !truthy page || jsTypeof page ≠ "object".data then
    ["Page at index " ++ toString i ++ " must be an object"]
  else
    let errs : List String := []
    let errs := if strFieldInvalid (getF page "id".data) then
        errs ++ ["Page at index " ++ toString i ++ " is missing or has invalid id"]
      else errs
    let errs := if strFieldInvalid (getF page "name".data) then
        errs ++ ["Page at index " ++ toString i ++ " is missing or has invalid name"]
      else errs
    let errs := if strFieldInvalid (getF page "route".data) then
        errs ++ ["Page at index " ++ toString i ++ " is missing or has invalid route"]
      else errs
    let sv := getF page "sections".data
    let errs := errs ++
      (if !truthy sv then
        ["Page at index " ++ toString i ++ " is missing sections field"]
      else match sv with
        | .arr xs => (xs.enum.map (fun p => validateSection i p.1 p.2)).flatten
        | _ => ["Page at index " ++ toString i ++ " sections must be an array"])
    errs

/-- `validate` from `src/engine/specs/validate.ts`, transliterated:
sequential `errors.push(...)` calls become appends to an accumulator, in
source order; the early `return` for a non-object input is the first
branch. -/
def validate (v : Val) : ValidationResult :=
  if !truthy v || jsTypeof v ≠ "object".data then
    { valid := false, errors := ["Spec must be a valid object"] }
  else
    let errs : List String := []
    let errs := if strFieldInvalid (getF v "name".data) then
        errs ++ ["Missing or invalid name field (must be a non-empty string)"]
      else errs
    let errs := if strFieldInvalid (getF v "slug".data) then
        errs ++ ["Missing or invalid slug field (must be a non-empty string)"]
      else errs
    let errs := if !isUndef (getF v "description".data) &&
        jsTypeof (getF v "description".data) ≠ "string".data then
        errs ++ ["description must be a string if provided"] else errs
    let errs := if !isUndef (getF v "architecture".data) &&
        !archIncluded (getF v "architecture".data) then
        errs ++ ["Invalid architecture value. Must be one of: landing, ecommerce, marketplace"]
      else errs
    let t := getF v "theme".data
    let errs := errs ++
      (if !isUndef t then
        if jsTypeof t ≠ "object".data || isNull t then
          ["theme must be an object if provided"]
        else
          (if !truthy (getF t "primaryColor".data) ||
              jsTypeof (getF t "primaryColor".data) ≠ "string".data then
            ["theme.primaryColor is required and must be a string"] else []) ++
          (if !truthy (getF t "font".data) ||
              jsTypeof (getF t "font".data) ≠ "string".data then
            ["theme.font is required and must be a string"] else [])
      else [])
    let pv := getF v "pages".data
    let errs := errs ++
      (if !truthy pv then ["Missing required pages field"]
      else match pv with
        | .arr xs =>
          if xs.length = 0 then ["pages array must not be empty"]
          else (xs.enum.map (fun p => validatePage p.1 p.2)).flatten
        | _ => ["pages must be an array"])
    { valid := errs.length = 0, errors := errs }

end Validate

/-! ### Declarative reading of the schema rules (for claim C6)

An independent enumeration of the validation rules, one entry per violated
rule, derived from the schema description rather than transliterated from
the accumulator loop.  Claim C6 is settled by proving `validate` returns
exactly this enumeration. -/

namespace Validate

open Val JsStr

/-- Rule: the value is a non-empty (after trim) string. -/
def strRuleOk (x : Val) : Bool :=
  match x with
  | .str s => jsTrim s ≠ []
  | _ => false

/-- Rule: the optional value, when present, is a string. -/
def optStrRuleOk (x : Val) : Bool :=
  match x with
  | .undef => true
  | .str _ => true
  | _ => false

/-- Rule: a required theme field is a truthy string (the validator does
not trim these). -/
def strRuleOkLoose (x : Val) : Bool :=
  match x with
  | .str s => s ≠ []
  | _ => false

/-- Rule: the optional value, when present, satisfies `typeof x === "object"`. -/
def optObjRuleOk (x : Val) : Bool :=
  match x with
  | .undef => true
  | .null => true
  | .arr _ => true
  | .obj _ => true
  | _ => false

/-- Declarative per-section rules. -/
def sectionRules (i j : Nat) (sec : Val) : List String :=
  if !truthy sec || jsTypeof sec ≠ "object".data then
    ["Page at index " ++ toString i ++ ", section at index " ++ toString j ++
      " must be an object"]
  else
    (if strRuleOk (getF sec "id".data) then [] else
      ["Page at index " ++ toString i ++ ", section at index " ++ toString j ++
        " is missing or has invalid id"]) ++
    (if strRuleOk (getF sec "kind".data) then [] else
      ["Page at index " ++ toString i ++ ", section at index " ++ toString j ++
        " is missing or has invalid kind"]) ++
    (if optStrRuleOk (getF sec "variant".data) then [] else
      ["Page at index " ++ toString i ++ ", section at index " ++ toString j ++
        " variant must be a string if provided"]) ++
    (if optObjRuleOk (getF sec "content".data) then [] else
      ["Page at index " ++ toString i ++ ", section at index " ++ toString j ++
        " content must be an object if provided"])

/-- Declarative per-page rules. -/
def pageRules (i : Nat) (page : Val) : List String :=
  if !truthy page || jsTypeof page ≠ "object".data then
    ["Page at index " ++ toString i ++ " must be an object"]
  else
    (if strRuleOk (getF page "id".data) then [] else
      ["Page at index " ++ toString i ++ " is missing or has invalid id"]) ++
    (if strRuleOk (getF page "name".data) then [] else
      ["Page at index " ++ toString i ++ " is missing or has invalid name"]) ++
    (if strRuleOk (getF page "route".data) then [] else
      ["Page at index " ++ toString i ++ " is missing or has invalid route"]) ++
    (match getF page "sections".data with
      | .arr xs => (xs.enum.map (fun p => sectionRules i p.1 p.2)).flatten
      | sv =>
        if !truthy sv then
          ["Page at index " ++ toString i ++ " is missing sections field"]
        else ["Page at index " ++ toString i ++ " sections must be an array"])

/-- Declarative top-level rule enumeration: every violated schema rule in
order, one entry each. -/
def ruleViolations (v : Val) : List String :=
  if !truthy v || jsTypeof v ≠ "object".data then
    ["Spec must be a valid object"]
  else
    (if strRuleOk (getF v "name".data) then [] else
      ["Missing or invalid name field (must be a non-empty string)"]) ++
    (if strRuleOk (getF v "slug".data) then [] else
      ["Missing or invalid slug field (must be a non-empty string)"]) ++
    (if optStrRuleOk (getF v "description".data) then [] else
      ["description must be a string if provided"]) ++
    (if isUndef (getF v "architecture".data) || archIncluded (getF v "architecture".data)
      then [] else
      ["Invalid architecture value. Must be one of: landing, ecommerce, marketplace"]) ++
    (match getF v "theme".data with
      | .undef => []
      | .arr t =>
        (if strRuleOkLoose (getF (.arr t) "primaryColor".data) then [] else
          ["theme.primaryColor is required and must be a string"]) ++
        (if strRuleOkLoose (getF (.arr t) "font".data) then [] else
          ["theme.font is required and must be a string"])
      | .obj t =>
        (if strRuleOkLoose (getF (.obj t) "primaryColor".data) then [] else
          ["theme.primaryColor is required and must be a string"]) ++
        (if strRuleOkLoose (getF (.obj t) "font".data) then [] else
          ["theme.font is required and must be a string"])
      | _ => ["theme must be an object if provided"]) ++
    (match getF v "pages".data with
      | .arr [] => ["pages array must not be empty"]
      | .arr xs => (xs.enum.map (fun p => pageRules p.1 p.2)).flatten
      | pv =>
        if !truthy pv then ["Missing required pages field"]
        else ["pages must be an array"])

end Validate

/-! ## `repair` — src/engine/specs/repair.ts -/

namespace Repair

open Val JsStr Slug

/-- The distinct ways `repair` can throw.  The first four are the
`Error(...)` throws of `repair.ts` (identified by their messages); 
`typeError` is the JS `TypeError` raised by a property read on a
`null`/`undefined` receiver (a page or section entry, or the spec itself). -/
inductive RepairError where
  | missingName
  | emptyName
  | missingPages
  | missingKind (pageIdx secIdx : Nat)
  | typeError
deriving DecidableEq

structure SectionConfig where
  id : Str
  kind : Str
  variant : Option Str
  content : Option (List (Str × Val))

structure PageConfig where
  id : Str
  name : Str
  route : Str
  sections : List SectionConfig

/-- The repaired `WebsiteSpec` built by `repair`.  `architecture` is spread
through untouched (`...(spec.architecture && { architecture })`), so it can
carry any truthy value; `theme` is rebuilt from its two string fields. -/
structure WebsiteSpec where
  name : Str
  slug : Str
  description : Option Str
  architecture : Option Val
  theme : Option (Str × Str)
  pages : List PageConfig

/-- `generateId(pfx, index)` = `` pfx + "_" + (index + 1) ``. -/
def generateId (pfx : Str) (index : Nat) : Str :=
  pfx ++ "_".data ++ (toString (index + 1)).data

/-- The `!x || typeof x !== "string" || x.trim().length === 0` test `repair`
applies before backfilling a string field. -/
def strMissing (x : Val) : Bool :=
  !truthy x || jsTypeof x ≠ "string".data || jsTrim (strOf x) = []

/-- `part.charAt(0).toUpperCase() + part.slice(1)`. -/
def capitalize (part : Str) : Str :=
  match part with
  | [] => []
  | c :: rest => jsToUpper c :: rest

/-- Monadic `Array.prototype.map` with the element index, short-circuiting
on a thrown error (the callback of `spec.pages.map` / `page.sections.map`
can throw). -/
def mapIdxM {E α : Type} (f : Nat → Val → Except E α) : Nat → List Val → Except E (List α)
  | _, [] => .ok []
  | k, x :: xs => do
    let y ← f k x
    let ys ← mapIdxM f (k + 1) xs
    .ok (y :: ys)

/-- The `page.sections.map` callback of `repair`.  The first property read
`section.id` throws a `TypeError` when the array entry is `null`/`undefined`. -/
def repairSection (pageIdx : Nat) (pageId : Str) (secIdx : Nat) (sec : Val) :
    Except RepairError SectionConfig :=
  match getProp sec "id".data with
  | none => .error .typeError
  | some idRaw =>
    let sectionId :=
      if strMissing idRaw then generateId ("sec_".data ++ pageId) secIdx
      else jsTrim (strOf idRaw)
    if strMissing (getF sec "kind".data) then .error (.missingKind pageIdx secIdx)
    else
      let kind := jsTrim (strOf (getF sec "kind".data))
      -- `const variant = section.variant && typeof section.variant === "string"
      --    ? section.variant.trim() : undefined;`
      let variant0 : Option Str :=
        if truthy (getF sec "variant".data) &&
            jsTypeof (getF sec "variant".data) = "string".data then
          some (jsTrim (strOf (getF sec "variant".data)))
        else none
      -- `...(variant && { variant })`: an empty trimmed string is falsy and
      -- is therefore dropped from the result object.
      let variant : Option Str :=
        match variant0 with
        | some t => if t = [] then none else some t
        | none => none
      -- `section.content && typeof section.content === "object" &&
      --  section.content !== null && !Array.isArray(section.content)`
      -- keeps exactly plain objects; `...(content && { content })` always
      -- spreads those (objects are truthy).
      let content : Option (List (Str × Val)) :=
        match getF sec "content".data with
        | .obj fs => some fs
        | _ => none
      .ok { id := sectionId, kind := kind, variant := variant, content := content }

/-- The `spec.pages.map` callback of `repair`.  The first property read
`page.id` throws a `TypeError` when the entry is `null`/`undefined`. -/
def repairPage (index : Nat) (page : Val) : Except RepairError PageConfig :=
  match getProp page "id".data with
  | none => .error .typeError
  | some idRaw =>
    let pageId :=
      if strMissing idRaw then generateId "page".data index
      else jsTrim (strOf idRaw)
    let pageName :=
      if strMissing (getF page "name".data) then
        List.intercalate " ".data ((pageId.splitOn '_').map capitalize)
      else jsTrim (strOf (getF page "name".data))
    let route :=
      if strMissing (getF page "route".data) then
        if index = 0 then "/".data else "/".data ++ pageId
      else jsTrim (strOf (getF page "route".data))
    do
      -- `if (page.sections && Array.isArray(page.sections))` — arrays are
      -- always truthy, any non-array (or falsy) value yields `[]`.
      let sections ←
        match getF page "sections".data with
        | .arr xs => mapIdxM (fun j sv => repairSection index pageId j sv) 0 xs
        | _ => .ok ([] : List SectionConfig)
      .ok { id := pageId, name := pageName, route := route, sections := sections }

/-- `repair` from `src/engine/specs/repair.ts`. -/
def repair (spec : Val) : Except RepairError WebsiteSpec :=
  match getProp spec "name".data with
  | none => .error .typeError
  | some nameRaw =>
    if !truthy nameRaw || jsTypeof nameRaw ≠ "string".data then .error .missingName
    else
      let name := jsTrim (strOf nameRaw)
      if name = [] then .error .emptyName
      else
        -- slug: `!slug || typeof slug !== "string" || slug.trim().length === 0`
        let slugRaw := getF spec "slug".data
        let slug :=
          if !truthy slugRaw || jsTypeof slugRaw ≠ "string".data ||
              jsTrim (strOf slugRaw) = [] then
            generateSlug name
          else jsTrim (strOf slugRaw)
        do
          -- `if (spec.pages && Array.isArray(spec.pages) && spec.pages.length > 0)`
          let pages ←
            match getF spec "pages".data with
            | .arr xs =>
              if xs.length > 0 then mapIdxM repairPage 0 xs
              else .error RepairError.missingPages
            | _ => .error RepairError.missingPages
          -- `...(spec.description && typeof spec.description === "string" && {...})`
          let description : Option Str :=
            if truthy (getF spec "description".data) &&
                jsTypeof (getF spec "description".data) = "string".data then
              some (jsTrim (strOf (getF spec "description".data)))
            else none
          -- `...(spec.architecture && { architecture: spec.architecture })`
          let architecture : Option Val :=
            if truthy (getF spec "architecture".data) then
              some (getF spec "architecture".data)
            else none
          -- `...(spec.theme && typeof spec.theme === "object" && spec.theme !== null
          --   && spec.theme.primaryColor && typeof ... === "string"
          --   && spec.theme.font && typeof ... === "string" && { theme: {...} })`
          let tv := getF spec "theme".data
          let theme : Option (Str × Str) :=
            if truthy tv && jsTypeof tv = "object".data && !isNull tv &&
                truthy (getF tv "primaryColor".data) &&
                jsTypeof (getF tv "primaryColor".data) = "string".data &&
                truthy (getF tv "font".data) &&
                jsTypeof (getF tv "font".data) = "string".data then
              some (jsTrim (strOf (getF tv "primaryColor".data)),
                    jsTrim (strOf (getF tv "font".data)))
            else none
          .ok { name := name, slug := slug, description := description,
                architecture := architecture, theme := theme, pages := pages }

/-- Re-inject a repaired spec as the JS object literal `repair` returns,
fields in insertion order with the conditional spreads. -/
def sectionToVal (s : SectionConfig) : Val :=
  .obj ([("id".data, .str s.id), ("kind".data, .str s.kind)] ++
    (match s.variant with
      | some v => [("variant".data, .str v)]
      | none => []) ++
    (match s.content with
      | some fs => [("content".data, .obj fs)]
      | none => []))

def pageToVal (p : PageConfig) : Val :=
  .obj [("id".data, .str p.id), ("name".data, .str p.name),
        ("route".data, .str p.route),
        ("sections".data, .arr (p.sections.map sectionToVal))]

def specToVal (s : WebsiteSpec) : Val :=
  .obj ([("name".data, .str s.name), ("slug".data, .str s.slug)] ++
    (match s.description with
      | some d => [("description".data, .str d)]
      | none => []) ++
    (match s.architecture with
      | some a => [("architecture".data, a)]
      | none => []) ++
    (match s.theme with
      | some pf => [("theme".data,
          .obj [("primaryColor".data, .str pf.1), ("font".data, .str pf.2)])]
      | none => []) ++
    [("pages".data, .arr (s.pages.map pageToVal))])

end Repair

/-! ## Page generator — the variant-aware `generate`
(`page-generator`, with `SECTION_COMPONENTS` from
`src/engine/config/components.ts` and `ARCHITECTURE_STRATEGIES` from
`engine/config/architectures.ts`).

File reads (`detectComponentExportStyle`) are modelled by an oracle
`styleOf : Str → ExportStyle` mapping a template path to the export style
detected from the (immutable) scaffold file at that path. -/

namespace PageGen

open Val JsStr

inductive ExportStyle where
  | default
  | named
deriving DecidableEq

inductive ArchitecturePreset where
  | landing
  | ecommerce
  | marketplace
deriving DecidableEq

/-- `ARCHITECTURE_STRATEGIES[arch].folder`. -/
def folderOf : ArchitecturePreset → Str
  | .landing => "sections".data
  | .ecommerce => "home".data
  | .marketplace => "layout".data

/-- `ARCHITECTURE_STRATEGIES[arch].importPath(component)`. -/
def importPathOf : ArchitecturePreset → Str → Str
  | .landing, c => "@/components/sections/".data ++ c
  | .ecommerce, c => "@/components/home/".data ++ c
  | .marketplace, c => "@/components/layout/".data ++ c

/-- Association-list read, mirroring JS string-keyed object access. -/
def lookupStr {α : Type} (xs : List (Str × α)) (k : Str) : Option α :=
  (xs.find? (fun p => p.1 = k)).map Prod.snd

/-- `SECTION_COMPONENTS` from `src/engine/config/components.ts`. -/
def SECTION_COMPONENTS : List (Str × List (Str × Str)) :=
  [("hero".data, [("default".data, "HeroDefault".data),
                  ("split".data, "HeroSplit".data)]),
   ("features".data, [("default".data, "Features".data)]),
   ("pricing".data, [("default".data, "Pricing".data)]),
   ("footer".data, [("default".data, "Footer".data)])]

/-- How page generation can throw.  `unknownKind` and `unknownVariant` are
the two `Error(...)` throws of `getSectionComponentName` (the structured
fields carry exactly what their messages interpolate — see
`renderGenError`); `typeError` is the JS `TypeError` from
`spec.pages[0].sections` when `pages` is empty. -/
inductive GenError where
  | unknownKind (kind : Str)
  | unknownVariant (kind variantKey : Str) (supported : List Str)
  | typeError
deriving DecidableEq

/-- The exact message text of each generator throw. -/
def renderGenError : GenError → Str
  | .unknownKind kind =>
    "Encountered unsupported section component kind: \"".data ++ kind ++
    "\". Please ensure that \"".data ++ kind ++
    "\" is registered in SECTION_COMPONENTS configuration.".data
  | .unknownVariant kind variantKey supported =>
    "The variant \"".data ++ variantKey ++
    "\" specified for section kind \"".data ++ kind ++
    "\" is not recognized. Please ensure you are using one of the supported variants: ".data ++
    List.intercalate ", ".data supported ++ ".".data
  | .typeError => "TypeError".data

/-- `getSectionComponentName(kind, variant)`: registry lookup with
`variant || "default"` defaulting; throws on unknown kind or variant. -/
def getSectionComponentName (kind : Str) (variant : Option Str) :
    Except GenError Str :=
  match lookupStr SECTION_COMPONENTS kind with
  | none => .error (.unknownKind kind)
  | some component =>
    let variantKey :=
      match variant with
      | some v => if v = [] then "default".data else v
      | none => "default".data
    match lookupStr component variantKey with
    | none => .error (.unknownVariant kind variantKey (component.map Prod.fst))
    | some componentName => .ok componentName

/-- `str.replace(/c/g, repl)` for a single character `c`. -/
def replaceAllChar (c : Char) (repl : Str) (s : Str) : Str :=
  (s.map (fun x => if x = c then repl else [x])).flatten

/-- JSON string quoting used by `JSON.stringify`. -/
def jsonQuoteChar (c : Char) : Str :=
  if c = '"' then ['\\', '"']
  else if c = '\\' then ['\\', '\\']
  else if c = '\n' then ['\\', 'n']
  else if c = '\r' then ['\\', 'r']
  else if c = '\t' then ['\\', 't']
  else if c = '\x08' then ['\\', 'b']
  else if c = '\x0c' then ['\\', 'f']
  else [c]

def jsonQuote (s : Str) : Str :=
  '"' :: (s.map jsonQuoteChar).flatten ++ ['"']

mutual

/-- `JSON.stringify`.  `none` models the `undefined` result: `undefined`
array elements serialize as `null`, `undefined` object members are
omitted. -/
def jsonStringify : Val → Option Str
  | .undef => none
  | .null => some "null".data
  | .bool b => some (if b then "true".data else "false".data)
  | .num n => some (toString n).data
  | .str s => some (jsonQuote s)
  | .arr xs => some ('[' :: List.intercalate ",".data (jsonArrItems xs) ++ [']'])
  | .obj fs => some ("\x7b".data ++ List.intercalate ",".data (jsonObjItems fs) ++
      "\x7d".data)

def jsonArrItems : List Val → List Str
  | [] => []
  | x :: xs => ((jsonStringify x).getD "null".data) :: jsonArrItems xs

def jsonObjItems : List (Str × Val) → List Str
  | [] => []
  | kv :: fs =>
    match jsonStringify kv.2 with
    | some s => (jsonQuote kv.1 ++ ":".data ++ s) :: jsonObjItems fs
    | none => jsonObjItems fs

end

/-- `serializeJsxPropValue` from the page generator. -/
def serializeJsxPropValue (v : Val) : Str :=
  match v with
  | .null => []
  | .undef => []
  | .str s =>
    -- `value.replace(/\\/g, "\\\\").replace(/"/g, '\\"')`, then quoted.
    '"' :: replaceAllChar '"' ['\\', '"'] (replaceAllChar '\\' ['\\', '\\'] s) ++ ['"']
  | .num n => "\x7b".data ++ (toString n).data ++ "\x7d".data
  | .bool b => "\x7b".data ++ (if b then "true".data else "false".data) ++ "\x7d".data
  | .arr xs => "\x7b".data ++ ((jsonStringify (.arr xs)).getD []) ++ "\x7d".data
  | .obj fs => "\x7b".data ++ ((jsonStringify (.obj fs)).getD []) ++ "\x7d".data

/-- `contentToJsxProps`: serialize each entry, drop empties, join by a
space. -/
def contentToJsxProps (content : List (Str × Val)) : Str :=
  List.intercalate " ".data
    ((content.map (fun kv =>
      let serialized := serializeJsxPropValue kv.2
      if serialized = [] then [] else [kv.1 ++ "=".data ++ serialized])).flatten)

/-- `generateComponentImportStatement`. -/
def generateComponentImportStatement (componentName componentPath : Str)
    (exportStyle : ExportStyle) : Str :=
  let importPath := (componentPath.map (fun c => if c = '\\' then '/' else c))
  match exportStyle with
  | .default => "import ".data ++ componentName ++ " from \"".data ++ importPath ++ "\";".data
  | .named => "import \x7b ".data ++ componentName ++ " \x7d from \"".data ++
      importPath ++ "\";".data

/-- Literal-prefix matcher (returns the rest after the literal). -/
def dropLit : Str → Str → Option Str
  | [], s => some s
  | _ :: _, [] => none
  | c :: cs, x :: xs => if c = x then dropLit cs xs else none

/-- The sort key extraction `a.match(/import\s+(?:\{?\s*)?(\w+)/)?.[1] || ""`
applied to a generated import statement (which always begins with
`import` + space + optional brace). -/
def extractImportName (stmt : Str) : Str :=
  match dropLit "import".data stmt with
  | none => []
  | some r0 =>
    let r1 := r0.dropWhile isJsSpace
    if r1.length = r0.length then []
    else
      let r2 := match r1 with
        | '\x7b' :: t => t.dropWhile isJsSpace
        | _ => r1
      r2.takeWhile isWordChar

/-- Code-point lexicographic comparison modelling `localeCompare` on the
ASCII identifiers in the component registry (where the two orders agree). -/
def lexLe : Str → Str → Bool
  | [], _ => true
  | _ :: _, [] => false
  | a :: as, b :: bs => if a < b then true else if a = b then lexLe as bs else false

def insertSorted {α : Type} (le : α → α → Bool) (x : α) : List α → List α
  | [] => [x]
  | y :: ys => if le x y then x :: y :: ys else y :: insertSorted le x ys

/-- `Array.prototype.sort` with a comparator: on the pairwise-distinct keys
produced here any comparison sort yields the unique sorted order, so an
insertion sort is a faithful model. -/
def sortBy {α : Type} (le : α → α → Bool) (xs : List α) : List α :=
  xs.foldr (insertSorted le) []

/-- The comparator `(a, b) => nameA.localeCompare(nameB)` over import
statements. -/
def importLe (a b : Str) : Bool :=
  lexLe (extractImportName a) (extractImportName b)

/-- The `page.sections.forEach` loop filling `importsMap` (a `Map` keyed by
component name: insertion order, first occurrence wins). -/
def importsFold (styleOf : Str → ExportStyle) (arch : ArchitecturePreset) :
    List Repair.SectionConfig → List (Str × Str) → Except GenError (List (Str × Str))
  | [], acc => .ok acc
  | sec :: rest, acc => do
    let componentName ← getSectionComponentName sec.kind sec.variant
    if (lookupStr acc componentName).isSome then
      importsFold styleOf arch rest acc
    else
      let templateComponentPath :=
        "templates/next-js/components/".data ++ folderOf arch ++ "/".data ++
          componentName ++ ".tsx".data
      let exportStyle := styleOf templateComponentPath
      let importPath := importPathOf arch componentName
      importsFold styleOf arch rest
        (acc ++ [(componentName,
          generateComponentImportStatement componentName importPath exportStyle)])

/-- Monadic `Array.prototype.map` whose callback can throw. -/
def mapExceptM {E α β : Type} (f : α → Except E β) : List α → Except E (List β)
  | [] => .ok []
  | x :: xs => do
    let y ← f x
    let ys ← mapExceptM f xs
    .ok (y :: ys)

/-- One line of the page body for a resolved section. -/
def renderSection (componentName : Str) (content : Option (List (Str × Val))) : Str :=
  let props := match content with
    | some c => contentToJsxProps c
    | none => []
  if props = [] then "<".data ++ componentName ++ " />".data
  else "<".data ++ componentName ++ " ".data ++ props ++ " />".data

/-- The generator input: the typed `WebsiteSpec` of the generator module
(`architecture?: ArchitecturePreset`, plus the pages it consumes). -/
structure GenSpec where
  architecture : Option ArchitecturePreset
  pages : List Repair.PageConfig

structure PageOutput where
  imports : List Str
  body : List Str
  source : Str
  path : Str
deriving DecidableEq

def pageSourceHeader : Str :=
  "// AUTO-GENERATED FILE — DO NOT EDIT\n// Generated from WebsiteSpec\n\n".data

def pageSourceMid : Str :=
  "\n\nexport default function Page() \x7b\n  return (\n    <main>\n      ".data

def pageSourceTail : Str :=
  "\n    </main>\n  );\n\x7d\n".data

/-- `generate` of the page generator: first page only; dedup imports by
component name; sort imports by extracted component name; render body in
spec order; assemble and write `app/page.tsx`.  Throwing before the write
means no output is produced (`Except.error`). -/
def generate (spec : GenSpec) (styleOf : Str → ExportStyle) :
    Except GenError PageOutput :=
  match spec.pages with
  | [] => .error .typeError
  | page :: _ => do
    let arch := spec.architecture.getD .landing
    let importPairs ← importsFold styleOf arch page.sections []
    let imports := sortBy importLe (importPairs.map Prod.snd)
    let body ← mapExceptM (fun sec => do
      let componentName ← getSectionComponentName sec.kind sec.variant
      .ok (renderSection componentName sec.content)) page.sections
    let source := pageSourceHeader ++ List.intercalate "\n".data imports ++
      pageSourceMid ++ List.intercalate "\n      ".data body ++ pageSourceTail
    .ok { imports := imports, body := body, source := source,
          path := "app/page.tsx".data }

end PageGen

/-! ## Theme generator — src/engine/generators/theme-generator.ts

The color mathematics of `hexToOklch` runs on JS floating point; it is
modelled over the reals (`ℝ`), with `toFixed`/`parseFloat` round-trips
modelled as exact rounding to the printed number of decimals. -/

namespace ThemeGen

open JsStr

/-- `hex.replace("#", "")` — removes the first occurrence of `#`. -/
def removeFirstHash : Str → Str
  | [] => []
  | c :: rest => if c = '#' then rest else c :: removeFirstHash rest

/-- `parseInt(d, 16)` for one hex digit (malformed digits are outside the
scope of every claim; they yield NaN in JS and are mapped to 0 here). -/
def hexDigitVal (c : Char) : ℕ :=
  if '0' ≤ c && c ≤ '9' then c.toNat - 48
  else if 'a' ≤ c && c ≤ 'f' then c.toNat - 87
  else if 'A' ≤ c && c ≤ 'F' then c.toNat - 55
  else 0

/-- `(c + 0.055) / 1.055) ** 2.4` branch of the sRGB gamma decoding. -/
noncomputable def toLinear (c : ℝ) : ℝ :=
  if c ≤ 0.04045 then c / 12.92 else ((c + 0.055) / 1.055) ^ (2.4 : ℝ)

/-- The XYZ→Lab helper `f` of `hexToOklch`. -/
noncomputable def labF (t : ℝ) : ℝ :=
  if t > 0.008856 then t ^ ((1 : ℝ) / 3) else 7.787 * t + 16 / 116

/-- `Math.atan2(y, x)` via the complex argument. -/
noncomputable def jsAtan2 (y x : ℝ) : ℝ :=
  Complex.arg ⟨x, y⟩

/-- The numeric core of `hexToOklch` on the three parsed byte values:
returns the `(L, C, H)` triple before `toFixed` formatting, with the
lightness already clamped to `[0, 1]` (`Math.max(0, Math.min(1, okL))`). -/
noncomputable def oklchOfRgb (rB gB bB : ℕ) : ℝ × ℝ × ℝ :=
  let r := (rB : ℝ) / 255
  let g := (gB : ℝ) / 255
  let b := (bB : ℝ) / 255
  let rLinear := toLinear r
  let gLinear := toLinear g
  let bLinear := toLinear b
  let x := rLinear * 0.4124564 + gLinear * 0.3575761 + bLinear * 0.1804375
  let y := rLinear * 0.2126729 + gLinear * 0.7151522 + bLinear * 0.072175
  let z := rLinear * 0.0193339 + gLinear * 0.119192 + bLinear * 0.9503041
  let xn := x / 0.95047
  let yn := y / 1.0
  let zn := z / 1.08883
  let fx := labF xn
  let fy := labF yn
  let fz := labF zn
  let l := 116 * fy - 16
  let a := 500 * (fx - fy)
  let bLab := 200 * (fy - fz)
  let okL := (l + 16) / 116
  let okA := a / 100
  let okB := bLab / 100
  let c := Real.sqrt (okA * okA + okB * okB)
  let h :=
    if c > 0.001 then
      let h0 := jsAtan2 okB okA * 180 / Real.pi
      if h0 < 0 then h0 + 360 else h0
    else 0
  let normalizedL := max 0 (min 1 okL)
  (normalizedL, c, h)

/-- `hexToOklch` up to formatting: the `(L, C, H)` triple for a hex color
string.  Inputs shorter than six digits after `#`-removal make
`parseInt` return NaN in JS; they are outside the scope of every claim
and are mapped to the zero triple. -/
noncomputable def hexToOklchTriple (hex : Str) : ℝ × ℝ × ℝ :=
  match removeFirstHash hex with
  | c1 :: c2 :: c3 :: c4 :: c5 :: c6 :: _ =>
    oklchOfRgb (16 * hexDigitVal c1 + hexDigitVal c2)
      (16 * hexDigitVal c3 + hexDigitVal c4)
      (16 * hexDigitVal c5 + hexDigitVal c6)
  | _ => (0, 0, 0)

/-- The lightness component (the first number of the produced
`oklch(L C H)` triple, before 3-decimal formatting). -/
noncomputable def hexToOklchL (hex : Str) : ℝ :=
  (hexToOklchTriple hex).1

/-- Exact value of rounding to `digits` decimals (`toFixed` followed by
`parseFloat`, half-up — JS double quirks are outside claim scope). -/
noncomputable def dispRound (digits : ℕ) (x : ℝ) : ℝ :=
  (⌊x * (10 : ℝ) ^ digits + 1 / 2⌋ : ℝ) / (10 : ℝ) ^ digits

def natDecimalPad (len : ℕ) (n : ℕ) : Str :=
  let s := (toString n).data
  List.replicate (len - s.length) '0' ++ s

/-- `x.toFixed(digits)` for the nonnegative values formatted here. -/
noncomputable def toFixed (digits : ℕ) (x : ℝ) : Str :=
  let m := (⌊x * (10 : ℝ) ^ digits + 1 / 2⌋).toNat
  (toString (m / 10 ^ digits)).data ++
    (if digits = 0 then [] else '.' :: natDecimalPad digits (m % 10 ^ digits))

/-- `hexToOklch`: the formatted
`` `oklch(${l.toFixed(3)} ${c.toFixed(3)} ${h.toFixed(1)})` `` string. -/
noncomputable def hexToOklch (hex : Str) : Str :=
  let t := hexToOklchTriple hex
  "oklch(".data ++ toFixed 3 t.1 ++ " ".data ++ toFixed 3 t.2.1 ++ " ".data ++
    toFixed 1 t.2.2 ++ ")".data

/-- `generateForegroundColor` as a function of the lightness parsed back
out of the formatted oklch string (the regex always matches the strings
built by `hexToOklch`; `parseFloat(l.toFixed(3))` is the 3-decimal
rounding of `l`). -/
noncomputable def generateForegroundColorOfL (parsedL : ℝ) : Str :=
  let foregroundL : ℝ := if parsedL < 0.5 then 0.985 else 0.145
  "oklch(".data ++ toFixed 3 foregroundL ++ " 0 0)".data

/-- Literal-prefix matcher (shared with the page generator). -/
def dropLit : Str → Str → Option Str
  | [], s => some s
  | _ :: _, [] => none
  | c :: cs, x :: xs => if c = x then dropLit cs xs else none

/-- One-position matcher for the regex `--X:` + `\s*` + `oklch(` + `[^)]+`
+ `);` at the head of the string; returns the rest after the match. -/
def matchVarDeclAfter (varName : Str) (s : Str) : Option Str :=
  match dropLit varName s with
  | none => none
  | some r0 =>
    let r1 := r0.dropWhile isJsSpace
    match dropLit "oklch(".data r1 with
    | none => none
    | some r2 =>
      let inner := r2.takeWhile (fun c => c ≠ ')')
      if inner = [] then none
      else
        match r2.drop inner.length with
        | ')' :: ';' :: rest => some rest
        | _ => none

/-- `str.replace(/pat/g, repl)` driven by a head-matcher: scan left to
right, emit `repl` at every match and continue after it.  The fuel is the
string length, which always suffices (every step consumes at least one
character). -/
def replaceAllWith (tryM : Str → Option Str) (repl : Str) : Nat → Str → Str
  | 0, s => s
  | _ + 1, [] => []
  | fuel + 1, c :: rest =>
    match tryM (c :: rest) with
    | some after => repl ++ replaceAllWith tryM repl fuel after
    | none => c :: replaceAllWith tryM repl fuel rest

/-- The global regex replace rewriting every `--X: oklch(...);` declaration
to `--X: VALUE;`. -/
def replaceVarDecl (varName newVal : Str) (content : Str) : Str :=
  replaceAllWith (matchVarDeclAfter varName)
    (varName ++ " ".data ++ newVal ++ ";".data) content.length content

/-- First match of the dark-section regex `.dark` + `\s*` + brace +
`[^}]+` + brace (dotall): `(prefix, inner, suffix)`. -/
def findDarkSection : Str → Option (Str × Str × Str)
  | [] => none
  | c :: rest =>
    match
      (match dropLit ".dark".data (c :: rest) with
       | none => none
       | some r0 =>
         match r0.dropWhile isJsSpace with
         | '\x7b' :: r2 =>
           let inner := r2.takeWhile (fun ch => ch ≠ '\x7d')
           if inner = [] then none
           else
             match r2.drop inner.length with
             | '\x7d' :: post => some (inner, post)
             | _ => none
         | _ => none) with
    | some ip => some ([], ip.1, ip.2)
    | none =>
      match findDarkSection rest with
      | some pip => some (c :: pip.1, pip.2.1, pip.2.2)
      | none => none

/-- `updateGlobalsCss` as a content transform: rewrite the `--primary` and
`--primary-foreground` declarations globally, then rewrite the first
`.dark { ... }` block with the lightness-boosted variant
(`darkL = Math.min(0.923, l + 0.3)`), reusing the already-formatted
chroma/hue substrings. -/
noncomputable def updateGlobalsCss (primaryColor : Str) (content : Str) : Str :=
  let t := hexToOklchTriple primaryColor
  let primaryOklch := hexToOklch primaryColor
  let lDisp := dispRound 3 t.1
  let primaryForegroundOklch := generateForegroundColorOfL lDisp
  let content1 := replaceVarDecl "--primary:".data primaryOklch content
  let content2 :=
    replaceVarDecl "--primary-foreground:".data primaryForegroundOklch content1
  let darkL := min 0.923 (lDisp + 0.3)
  let darkPrimaryOklch := "oklch(".data ++ toFixed 3 darkL ++ " ".data ++
    toFixed 3 t.2.1 ++ " ".data ++ toFixed 1 t.2.2 ++ ")".data
  let darkPrimaryForegroundOklch := generateForegroundColorOfL (dispRound 3 darkL)
  match findDarkSection content2 with
  | some pip =>
    let inner1 := replaceVarDecl "--primary:".data darkPrimaryOklch pip.2.1
    let inner2 :=
      replaceVarDecl "--primary-foreground:".data darkPrimaryForegroundOklch inner1
    pip.1 ++ ".dark \x7b".data ++ inner2 ++ "\x7d".data ++ pip.2.2
  | none => content2

end ThemeGen

/-! ### `updateLayout` — the font rewrite of the layout source

Each regex of the source is modelled by a hand-written head-matcher over
`Str`; a matcher returns the rest of the string after a match at the
current position, and the matched text is recovered from the lengths. -/

namespace ThemeGen

open JsStr

def backquoteChar : Char := Char.ofNat 96

def isQuoteChar (c : Char) : Bool := c = '"' || c = Char.ofNat 39

def matchedText (s rest : Str) : Str := s.take (s.length - rest.length)

/-- `\s+`: at least one whitespace character. -/
def matchWs1 (s : Str) : Option Str :=
  let r := s.dropWhile isJsSpace
  if r.length = s.length then none else some r

/-- Global replace with a callback on the matched text (models
`str.replace(/pat/g, cb)`). -/
def replaceAllCb (tryM : Str → Option Str) (cb : Str → Str) : Nat → Str → Str
  | 0, s => s
  | _ + 1, [] => []
  | fuel + 1, c :: rest =>
    match tryM (c :: rest) with
    | some after => cb (matchedText (c :: rest) after) ++ replaceAllCb tryM cb fuel after
    | none => c :: replaceAllCb tryM cb fuel rest

/-- First match with its surroundings: `(prefix, matched, rest)`. -/
def findFirstMatch (tryM : Str → Option Str) : Str → Option (Str × Str × Str)
  | [] => none
  | c :: rest =>
    match tryM (c :: rest) with
    | some after => some ([], matchedText (c :: rest) after, after)
    | none =>
      match findFirstMatch tryM rest with
      | some pta => some (c :: pta.1, pta.2.1, pta.2.2)
      | none => none

/-- Matcher for the font-import regex: `import` `\s+` brace `[^}]+` brace
`\s+` `from` `\s+` quote `next/font/google` quote `;?` `\n`. -/
def matchFontImportAfter (s : Str) : Option Str :=
  match dropLit "import".data s with
  | none => none
  | some r0 =>
    match matchWs1 r0 with
    | none => none
    | some r1 =>
      match r1 with
      | '\x7b' :: r2 =>
        let inner := r2.takeWhile (fun c => c ≠ '\x7d')
        if inner = [] then none
        else
          match r2.drop inner.length with
          | '\x7d' :: r4 =>
            match matchWs1 r4 with
            | none => none
            | some r5 =>
              match dropLit "from".data r5 with
              | none => none
              | some r6 =>
                match matchWs1 r6 with
                | none => none
                | some r7 =>
                  match r7 with
                  | q1 :: r8 =>
                    if isQuoteChar q1 then
                      match dropLit "next/font/google".data r8 with
                      | none => none
                      | some r9 =>
                        match r9 with
                        | q2 :: r10 =>
                          if isQuoteChar q2 then
                            let r11 := match r10 with
                              | ';' :: t => t
                              | _ => r10
                            match r11 with
                            | '\n' :: rest => some rest
                            | _ => none
                          else none
                        | _ => none
                    else none
                  | _ => none
          | _ => none
      | _ => none

/-- Matcher for the close of a font-factory declaration:
`)` `\s*` `;` `\s*` `\n` (the trailing `\s*` backtracks to the last
newline of the whitespace run, as the regex engine does). -/
def matchCloseAfter (s : Str) : Option Str :=
  match s with
  | ')' :: r1 =>
    let w1 := r1.takeWhile isJsSpace
    (match r1.drop w1.length with
     | ';' :: r2 =>
       let w2 := r2.takeWhile isJsSpace
       let afterNoNl := w2.reverse.takeWhile (fun c => c ≠ '\n')
       if w2.length = afterNoNl.length then none
       else some (r2.drop (w2.length - afterNoNl.length))
     | _ => none)
  | _ => none

/-- The lazy `[\s\S]*?` scan: earliest position where the close pattern
matches. -/
def findLazyClose : Str → Option Str
  | [] => none
  | c :: rest =>
    match matchCloseAfter (c :: rest) with
    | some after => some after
    | none => findLazyClose rest

/-- Matcher for `const` `\s+` `\w+` `\s*` `=` `\s*` `\w+` `(` `[\s\S]*?`
`)` `\s*` `;` `\s*` `\n` — a candidate font-factory declaration. -/
def matchConstDeclAfter (s : Str) : Option Str :=
  match dropLit "const".data s with
  | none => none
  | some r0 =>
    match matchWs1 r0 with
    | none => none
    | some r1 =>
      let w1 := r1.takeWhile isWordChar
      if w1 = [] then none
      else
        match (r1.drop w1.length).dropWhile isJsSpace with
        | '=' :: r3 =>
          let r4 := r3.dropWhile isJsSpace
          let w2 := r4.takeWhile isWordChar
          if w2 = [] then none
          else
            match r4.drop w2.length with
            | '(' :: r5 => findLazyClose r5
            | _ => none
        | _ => none

/-- `String.prototype.includes` — substring containment. -/
def containsSub (needle : Str) : Str → Bool
  | [] => (dropLit needle []).isSome
  | c :: rest =>
    if (dropLit needle (c :: rest)).isSome then true else containsSub needle rest

/-- Matcher for three-or-more consecutive newlines (greedy). -/
def matchNl3After (s : Str) : Option Str :=
  let run := s.takeWhile (fun c => c = '\n')
  if 3 ≤ run.length then some (s.drop run.length) else none

/-- Matcher for `import` `\s+` `type` `[^;]+` `;` `[\s\n]*`. -/
def matchTypeImportAfter (s : Str) : Option Str :=
  match dropLit "import".data s with
  | none => none
  | some r0 =>
    match matchWs1 r0 with
    | none => none
    | some r1 =>
      match dropLit "type".data r1 with
      | none => none
      | some r2 =>
        let inner := r2.takeWhile (fun c => c ≠ ';')
        if inner = [] then none
        else
          match r2.drop inner.length with
          | ';' :: r3 => some (r3.dropWhile isJsSpace)
          | _ => none

/-- Matcher for `import` `[^;]+` `;` `[\s\n]*`. -/
def matchImportAfter (s : Str) : Option Str :=
  match dropLit "import".data s with
  | none => none
  | some r0 =>
    let inner := r0.takeWhile (fun c => c ≠ ';')
    if inner = [] then none
    else
      match r0.drop inner.length with
      | ';' :: r3 => some (r3.dropWhile isJsSpace)
      | _ => none

/-- Matcher for `export` `\s+` `const` `\s+` `metadata`. -/
def matchMetadataAfter (s : Str) : Option Str :=
  match dropLit "export".data s with
  | none => none
  | some r0 =>
    match matchWs1 r0 with
    | none => none
    | some r1 =>
      match dropLit "const".data r1 with
      | none => none
      | some r2 =>
        match matchWs1 r2 with
        | none => none
        | some r3 => dropLit "metadata".data r3

/-- Matcher for `export` `\s+` `default` `\s+` `function` `\s+`
`RootLayout`. -/
def matchRootLayoutAfter (s : Str) : Option Str :=
  match dropLit "export".data s with
  | none => none
  | some r0 =>
    match matchWs1 r0 with
    | none => none
    | some r1 =>
      match dropLit "default".data r1 with
      | none => none
      | some r2 =>
        match matchWs1 r2 with
        | none => none
        | some r3 =>
          match dropLit "function".data r3 with
          | none => none
          | some r4 =>
            match matchWs1 r4 with
            | none => none
            | some r5 => dropLit "RootLayout".data r5

/-- Matcher for a template interpolation `${...}` plus trailing `\s*`. -/
def matchDollarRefAfter (s : Str) : Option Str :=
  match s with
  | '$' :: '\x7b' :: r =>
    let inner := r.takeWhile (fun c => c ≠ '\x7d')
    if inner = [] then none
    else
      match r.drop inner.length with
      | '\x7d' :: r2 => some (r2.dropWhile isJsSpace)
      | _ => none
  | _ => none

/-- Matcher for `\s*` LIT `\s*` (used for `font-sans` and `antialiased`). -/
def matchWsLitWsAfter (lit : Str) (s : Str) : Option Str :=
  let w1 := s.takeWhile isJsSpace
  match dropLit lit (s.drop w1.length) with
  | none => none
  | some r => some (r.dropWhile isJsSpace)

/-- Matcher for the `className={` backquote `...` backquote `}` attribute,
returning the captured class list and the rest. -/
def matchClassNameAfter (s : Str) : Option (Str × Str) :=
  match dropLit "className=\x7b".data s with
  | none => none
  | some r0 =>
    match r0 with
    | b :: r1 =>
      if b = backquoteChar then
        let inner := r1.takeWhile (fun c => c ≠ backquoteChar)
        match r1.drop inner.length with
        | b2 :: '\x7d' :: rest =>
          if b2 = backquoteChar then some (inner, rest) else none
        | _ => none
      else none
    | _ => none

/-- The className-callback of `updateLayout`: strip interpolations,
`font-sans` and `antialiased`, normalize whitespace, and rebuild in the
fixed order. -/
def rewriteClassName (fontVarName : Str) (inner : Str) : Str :=
  let cleaned := replaceAllWith matchDollarRefAfter [] inner.length inner
  let cleaned := replaceAllWith (matchWsLitWsAfter "font-sans".data) " ".data
    cleaned.length cleaned
  let cleaned := replaceAllWith (matchWsLitWsAfter "antialiased".data) " ".data
    cleaned.length cleaned
  let cleaned := jsTrim (collapseRuns isJsSpace ' ' cleaned)
  let parts := ["$\x7b".data ++ fontVarName ++ ".variable\x7d".data,
    "font-sans".data, cleaned, "antialiased".data].filter (fun p => p ≠ [])
  "className=\x7b".data ++ [backquoteChar] ++ List.intercalate " ".data parts ++
    [backquoteChar] ++ "\x7d".data

/-- First-occurrence className rewrite (`content.replace(regex, cb)`
without the `g` flag). -/
def rewriteClassNameIn (fontVarName : Str) : Str → Str
  | [] => []
  | c :: rest =>
    match matchClassNameAfter (c :: rest) with
    | some ia => rewriteClassName fontVarName ia.1 ++ ia.2
    | none => c :: rewriteClassNameIn fontVarName rest

/-- Matcher for `--font-sans:` `\s*` `var(--font-` `[^)]+` `);`. -/
def matchFontSansAfter (s : Str) : Option Str :=
  match dropLit "--font-sans:".data s with
  | none => none
  | some r0 =>
    let r1 := r0.dropWhile isJsSpace
    match dropLit "var(--font-".data r1 with
    | none => none
    | some r2 =>
      let inner := r2.takeWhile (fun c => c ≠ ')')
      if inner = [] then none
      else
        match r2.drop inner.length with
        | ')' :: ';' :: rest => some rest
        | _ => none

/-- `"Geist_Mono".split(/[_\s]+/)`-style splitting: empty leading/trailing
pieces are kept, as JS does. -/
def splitOnRuns (p : Char → Bool) : Str → List Str
  | [] => [[]]
  | c :: rest =>
    let r := splitOnRuns p rest
    if p c then
      match rest with
      | c2 :: _ => if p c2 then r else [] :: r
      | [] => [] :: r
    else
      match r with
      | h :: t => (c :: h) :: t
      | [] => [[c]]

/-- `updateLayout(fontName, ...)` as a content transform on the layout
source and the stylesheet (the stylesheet gets its `--font-sans`
declaration mirrored).  Returns `(layout', css')`. -/
def updateLayout (fontName : Str) (content cssContent : Str) : Str × Str :=
  let fontImportName := fontName
  -- kebab-case CSS variable: `replace(/_/g,"-").replace(/\s+/g,"-").toLowerCase()`
  let fontVariable :=
    (collapseRuns isJsSpace '-'
      (fontName.map (fun c => if c = '_' then '-' else c))).map jsToLower
  -- camelCase JS variable: `split(/[_\s]+/)` + lowercase + capitalize tail parts
  let fontVarName :=
    match splitOnRuns (fun c => c = '_' || isJsSpace c) fontName with
    | [] => []
    | h :: t =>
      (h.map jsToLower) ++
        (t.map (fun part => Repair.capitalize (part.map jsToLower))).flatten
  let c1 := replaceAllWith matchFontImportAfter [] content.length content
  let c2 := replaceAllCb matchConstDeclAfter
    (fun txt =>
      if containsSub "variable:".data txt &&
          (containsSub "subsets:".data txt || containsSub "display:".data txt) then []
      else txt) c1.length c1
  let c3 := replaceAllWith matchNl3After "\n\n".data c2.length c2
  let fontImport := "import \x7b ".data ++ fontImportName ++
    " \x7d from \"next/font/google\";\n".data
  let c4 :=
    match findFirstMatch matchTypeImportAfter c3 with
    | some pta => pta.1 ++ pta.2.1 ++ fontImport ++ pta.2.2
    | none =>
      match findFirstMatch matchImportAfter c3 with
      | some pta => pta.1 ++ pta.2.1 ++ fontImport ++ pta.2.2
      | none => fontImport ++ c3
  let fontVarDeclaration := "const ".data ++ fontVarName ++ " = ".data ++
    fontImportName ++
    "(\x7b\n  weight: \"400\",\n  variable: \"--font-".data ++ fontVariable ++
    "\",\n  subsets: [\"latin\"],\n  display: \"swap\",\n\x7d);\n\n".data
  let c5 :=
    match findFirstMatch matchMetadataAfter c4 with
    | some pta => pta.1 ++ fontVarDeclaration ++ pta.2.1 ++ pta.2.2
    | none =>
      match findFirstMatch matchRootLayoutAfter c4 with
      | some pta => pta.1 ++ fontVarDeclaration ++ pta.2.1 ++ pta.2.2
      | none => c4
  let c6 := rewriteClassNameIn fontVarName c5
  let css1 := replaceAllWith matchFontSansAfter
    ("--font-sans: var(--font-".data ++ fontVariable ++ ");".data)
    cssContent.length cssContent
  (c6, css1)

/-- `generate` of the theme generator: rewrite the stylesheet colors, then
rewrite the layout fonts (which also mirrors the font variable back into
the stylesheet). -/
noncomputable def generate (primaryColor font : Str) (css layout : Str) :
    Str × Str :=
  let css1 := updateGlobalsCss primaryColor css
  let lc := updateLayout font layout css1
  (lc.2, lc.1)

end ThemeGen

/-! ## Project orchestrator — `generate` of the project generator

One complete generation run as a pure function of the spec and the
environment (the immutable scaffold contents and the export-style oracle);
the run result is the list of `(path, bytes)` writes of the
non-timestamped output files. -/

namespace ProjectRun

/-- `project: { name, slug }` of the orchestrator input.  Empty strings
are falsy, exactly like absent fields on the `!project.slug` /
`!project.name` tests, so both are modelled as `[]`. -/
structure ProjectInfo where
  name : Str
  slug : Str

structure ProjSpec where
  project : Option ProjectInfo
  architecture : Option PageGen.ArchitecturePreset
  theme : Str × Str
  pages : List Repair.PageConfig

/-- The environment a run starts from: the immutable scaffold files and
the export-style detection oracle over template component paths. -/
structure Env where
  styleOf : Str → PageGen.ExportStyle
  scaffoldCss : Str
  scaffoldLayout : Str

inductive RunError where
  | missingProject
  | missingNameAndSlug
  | genErr (e : PageGen.GenError)

/-- One generation run: require a project, derive the slug when missing
(duplicated slugify chain), generate the page source, rewrite the theme
files, and emit every non-timestamped output byte string keyed by path.
Any throw aborts the run with no writes recorded. -/
noncomputable def projectRun (spec : ProjSpec) (env : Env) :
    Except RunError (List (Str × Str)) :=
  match spec.project with
  | none => .error .missingProject
  | some pr => do
    let slug ←
      if pr.slug ≠ [] then Except.ok pr.slug
      else if pr.name = [] then .error .missingNameAndSlug
      else Except.ok (Slug.projectGeneratorSlug pr.name)
    let dest := "output/".data ++ slug
    let pageOut ←
      (PageGen.generate { architecture := spec.architecture, pages := spec.pages }
        env.styleOf).mapError RunError.genErr
    let themed := ThemeGen.generate spec.theme.1 spec.theme.2
      env.scaffoldCss env.scaffoldLayout
    .ok [(dest ++ "/".data ++ pageOut.path, pageOut.source),
         (dest ++ "/app/globals.css".data, themed.1),
         (dest ++ "/app/layout.tsx".data, themed.2)]

end ProjectRun

/-! ## Shared helper lemmas -/

theorem except_bind_ok {E α β : Type} {x : Except E α} {f : α → Except E β} {b : β} :
    (x >>= f) = .ok b ↔ ∃ a, x = .ok a ∧ f a = .ok b := by
  cases x with
  | error e =>
    constructor
    · intro h; exact absurd h (by simp [Bind.bind, Except.bind])
    · rintro ⟨a, ha, -⟩; exact absurd ha (by simp)
  | ok a =>
    constructor
    · intro h; exact ⟨a, rfl, h⟩
    · rintro ⟨a2, ha, hf⟩
      obtain rfl : a = a2 := by simpa using ha
      simpa [Bind.bind, Except.bind] using hf

theorem collapseRunsAux_congr {p q : Char → Bool} (r : Char) :
    ∀ (s : Str) (b : Bool), (∀ c ∈ s, p c = q c) →
      JsStr.collapseRunsAux p r b s = JsStr.collapseRunsAux q r b s := by
  intro s
  induction s with
  | nil => intro b _; rfl
  | cons c rest ih =>
    intro b hagree
    have hc : p c = q c := hagree c (by simp)
    have hrest : ∀ x ∈ rest, p x = q x := fun x hx => hagree x (by simp [hx])
    simp only [JsStr.collapseRunsAux, hc]
    by_cases hq : q c = true
    · simp only [hq, if_true]
      by_cases hb : b = true <;> simp [hb, ih _ hrest]
    · simp only [Bool.not_eq_true] at hq
      simp [hq, ih _ hrest]

theorem slugSep_eq_amendedSep : Slug.isSlugSep = Slug.isAmendedSep := by
  funext c
  simp only [Slug.isSlugSep, Slug.isAmendedSep]
  cases JsStr.isJsSpace c <;> cases JsStr.isWordChar c <;> cases decide (c = '-') <;> rfl

/-- Inversion of a successful `repair`: the success path fixes every field
of the result from the input. -/
theorem repair_ok_inversion {v : Val} {sp : Repair.WebsiteSpec}
    (h : Repair.repair v = .ok sp) :
    ∃ nameRaw xs pages,
      Val.getProp v "name".data = some nameRaw ∧
      (!Val.truthy nameRaw || decide (Val.jsTypeof nameRaw ≠ "string".data)) = false ∧
      JsStr.jsTrim (Val.strOf nameRaw) ≠ [] ∧
      Val.getF v "pages".data = .arr xs ∧ 0 < xs.length ∧
      Repair.mapIdxM Repair.repairPage 0 xs = .ok pages ∧
      sp = { name := JsStr.jsTrim (Val.strOf nameRaw),
             slug :=
               if Repair.strMissing (Val.getF v "slug".data) = true then
                 Slug.generateSlug (JsStr.jsTrim (Val.strOf nameRaw))
               else JsStr.jsTrim (Val.strOf (Val.getF v "slug".data)),
             description :=
               if (Val.truthy (Val.getF v "description".data) &&
                   decide (Val.jsTypeof (Val.getF v "description".data) = "string".data)) = true then
                 some (JsStr.jsTrim (Val.strOf (Val.getF v "description".data)))
               else none,
             architecture :=
               if Val.truthy (Val.getF v "architecture".data) = true then
                 some (Val.getF v "architecture".data)
               else none,
             theme :=
               if (Val.truthy (Val.getF v "theme".data) &&
                   decide (Val.jsTypeof (Val.getF v "theme".data) = "object".data) &&
                   !Val.isNull (Val.getF v "theme".data) &&
                   Val.truthy (Val.getF (Val.getF v "theme".data) "primaryColor".data) &&
                   decide (Val.jsTypeof (Val.getF (Val.getF v "theme".data) "primaryColor".data) = "string".data) &&
                   Val.truthy (Val.getF (Val.getF v "theme".data) "font".data) &&
                   decide (Val.jsTypeof (Val.getF (Val.getF v "theme".data) "font".data) = "string".data)) = true then
                 some (JsStr.jsTrim (Val.strOf (Val.getF (Val.getF v "theme".data) "primaryColor".data)),
                       JsStr.jsTrim (Val.strOf (Val.getF (Val.getF v "theme".data) "font".data)))
               else none,
             pages := pages } := by
  cases hp : Val.getProp v "name".data with
  | none => rw [Repair.repair, hp] at h; exact absurd h (by simp)
  | some nameRaw =>
    rw [Repair.repair, hp] at h
    dsimp only at h
    by_cases h1 : (!Val.truthy nameRaw || decide (Val.jsTypeof nameRaw ≠ "string".data)) = true
    · rw [if_pos h1] at h; exact absurd h (by simp)
    · rw [if_neg h1] at h
      by_cases h2 : JsStr.jsTrim (Val.strOf nameRaw) = []
      · rw [if_pos h2] at h; exact absurd h (by simp)
      · rw [if_neg h2] at h
        cases hpgv : Val.getF v "pages".data with
        | arr xs =>
          rw [hpgv] at h
          dsimp only at h
          by_cases hlen : 0 < xs.length
          · rw [if_pos hlen] at h
            cases hmap : Repair.mapIdxM Repair.repairPage 0 xs with
            | error e => rw [hmap] at h; exact absurd h (by simp [Bind.bind, Except.bind])
            | ok pages =>
              rw [hmap] at h
              refine ⟨nameRaw, xs, pages, rfl, by simpa using h1, h2, rfl, hlen, hmap, ?_⟩
              have h' := h
              simp only [Bind.bind, Except.bind, Except.ok.injEq] at h'
              exact h'.symm
          · rw [if_neg hlen] at h
            exact absurd h (by simp [Bind.bind, Except.bind])
        | undef => rw [hpgv] at h; exact absurd h (by simp [Bind.bind, Except.bind])
        | null => rw [hpgv] at h; exact absurd h (by simp [Bind.bind, Except.bind])
        | bool b => rw [hpgv] at h; exact absurd h (by simp [Bind.bind, Except.bind])
        | num n => rw [hpgv] at h; exact absurd h (by simp [Bind.bind, Except.bind])
        | str s => rw [hpgv] at h; exact absurd h (by simp [Bind.bind, Except.bind])
        | obj fs => rw [hpgv] at h; exact absurd h (by simp [Bind.bind, Except.bind])

/-! ## Claim C3 — the slugify algorithm -/

/-- **C3 (counterexample).** The claim describes the separator class as
"any character outside a-z0-9", which would turn underscores into
hyphens; the code regex `[\s\W-]` keeps underscores (they are word
characters), so on the name `"a_b"` the code slug differs from the
claimed algorithm. -/
theorem c3_counterexample :
    Slug.generateSlug "a_b".data = "a_b".data ∧
    Slug.claimedSlugify "a_b".data = "a-b".data ∧
    Slug.generateSlug "a_b".data ≠ Slug.claimedSlugify "a_b".data :=
  ⟨by decide, by decide, by decide⟩

/-- **C3 (amended).** For every name string, the slug derived when `slug`
is absent equals: trim, lowercase, collapse every run of whitespace,
hyphens, or characters outside the word class `A-Za-z0-9_` to a single
hyphen (underscores are preserved), then strip leading and trailing
hyphens; in particular slugify("My Cool Site!") = "my-cool-site", and the
same function is computed by both the repair step and the orchestrator
step. -/
theorem c3_slug_canonical :
    (∀ s : Str, Slug.generateSlug s = Slug.amendedSlugify s) ∧
    (∀ s : Str, Slug.projectGeneratorSlug s = Slug.generateSlug s) ∧
    Slug.generateSlug "My Cool Site!".data = "my-cool-site".data ∧
    (∀ (v : Val) (sp : Repair.WebsiteSpec), Repair.repair v = .ok sp →
      Repair.strMissing (Val.getF v "slug".data) = true →
      sp.slug = Slug.generateSlug sp.name) := by
  refine ⟨?_, fun s => rfl, by decide, ?_⟩
  · intro s
    simp [Slug.generateSlug, Slug.amendedSlugify, slugSep_eq_amendedSep]
  · intro v sp h hm
    obtain ⟨nameRaw, xs, pages, hp, h1, h2, hpgv, hlen, hmap, hsp⟩ :=
      repair_ok_inversion h
    subst hsp
    simp [hm]

def c3WitnessVal : Val :=
  .obj [("name".data, .str "My Cool Site!".data), ("pages".data, .arr [.obj []])]

def c3WitnessSpec : Repair.WebsiteSpec :=
  { name := "My Cool Site!".data, slug := "my-cool-site".data,
    description := none, architecture := none, theme := none,
    pages := [{ id := "page_1".data, name := "Page 1".data, route := "/".data,
                sections := [] }] }

/-- Witness for C3: the amended theorem applied to a concrete spec with an
absent slug. -/
theorem c3_slug_canonical_witness :
    Repair.repair c3WitnessVal = .ok c3WitnessSpec ∧
    c3WitnessSpec.slug = Slug.generateSlug c3WitnessSpec.name :=
  ⟨by rfl, c3_slug_canonical.2.2.2 c3WitnessVal c3WitnessSpec (by rfl) (by rfl)⟩

/-! ## Claim C2 — color endpoints of `hexToOklch` -/

theorem toLinear_zero : ThemeGen.toLinear 0 = 0 := by
  rw [ThemeGen.toLinear, if_pos (by norm_num : (0 : ℝ) ≤ 0.04045)]
  norm_num

theorem toLinear_one : ThemeGen.toLinear 1 = 1 := by
  rw [ThemeGen.toLinear, if_neg (by norm_num : ¬ (1 : ℝ) ≤ 0.04045)]
  rw [show ((1 : ℝ) + 0.055) / 1.055 = 1 by norm_num, Real.one_rpow]

theorem labF_zero : ThemeGen.labF 0 = 16 / 116 := by
  rw [ThemeGen.labF, if_neg (by norm_num : ¬ (0 : ℝ) > 0.008856)]
  norm_num

theorem labF_one : ThemeGen.labF 1 = 1 := by
  rw [ThemeGen.labF, if_pos (by norm_num : (1 : ℝ) > 0.008856)]
  exact Real.one_rpow _

theorem black_lightness : ThemeGen.hexToOklchL "#000000".data = 4 / 29 := by
  have h1 : ThemeGen.hexToOklchL "#000000".data =
      (ThemeGen.oklchOfRgb 0 0 0).1 := rfl
  rw [h1]
  simp only [ThemeGen.oklchOfRgb]
  norm_num [toLinear_zero, labF_zero]

theorem white_lightness : ThemeGen.hexToOklchL "#ffffff".data = 1 := by
  have h1 : ThemeGen.hexToOklchL "#ffffff".data =
      (ThemeGen.oklchOfRgb 255 255 255).1 := rfl
  rw [h1]
  simp only [ThemeGen.oklchOfRgb]
  norm_num [toLinear_one]
  have hfy : ThemeGen.labF (10000001 / 10000000 : ℝ) =
      (10000001 / 10000000 : ℝ) ^ ((1 : ℝ) / 3) := by
    rw [ThemeGen.labF, if_pos (by norm_num : (10000001 / 10000000 : ℝ) > 0.008856)]
  have hge : (1 : ℝ) ≤ (10000001 / 10000000 : ℝ) ^ ((1 : ℝ) / 3) :=
    Real.one_le_rpow (by norm_num) (by norm_num)
  rw [hfy, min_eq_left hge, max_eq_right (by norm_num : (0 : ℝ) ≤ 1)]

/-- **C2 (counterexample).** `hexToOklch("#000000")` produces lightness
`4/29 ≈ 0.138` (the simplified Lab→OKLab step maps `L* = 0` to
`(0+16)/116`), which is not within `0.01` of `0` as the claim states. -/
theorem c2_counterexample :
    ThemeGen.hexToOklchL "#000000".data = 4 / 29 ∧
    ¬ |ThemeGen.hexToOklchL "#000000".data - 0| ≤ 1 / 100 := by
  refine ⟨black_lightness, ?_⟩
  rw [black_lightness]
  rw [abs_of_nonneg (by norm_num : (4 / 29 : ℝ) - 0 ≥ 0)]
  norm_num

/-- **C2 (amended).** `hexToOklch("#ffffff")` yields lightness exactly `1`
(within `0.01` of `1`); `hexToOklch("#000000")` yields lightness `4/29 ≈
0.138` — within `0.01` of `0.138`, not of `0`. -/
theorem c2_color_endpoints :
    ThemeGen.hexToOklchL "#ffffff".data = 1 ∧
    |ThemeGen.hexToOklchL "#ffffff".data - 1| ≤ 1 / 100 ∧
    ThemeGen.hexToOklchL "#000000".data = 4 / 29 ∧
    |ThemeGen.hexToOklchL "#000000".data - 4 / 29| ≤ 1 / 100 := by
  refine ⟨white_lightness, ?_, black_lightness, ?_⟩
  · rw [white_lightness]; norm_num
  · rw [black_lightness]; norm_num

/-! ## Claim C9 — determinism of a full generation run -/

/-- **C9.** For every fixed Spec, two independent complete generation runs
starting from the same scaffold state (same template contents, same
export-style detection results) produce byte-identical non-timestamped
output files: the embedded run is a pure function of the spec and that
state — it consults no clock, randomness, or other ambient state — so
equal inputs give equal `(path, bytes)` write sets (same page source,
same rewritten stylesheet and layout bytes, same import order, same
content serialization). -/
theorem c9_generation_deterministic (spec : ProjectRun.ProjSpec)
    (env₁ env₂ : ProjectRun.Env) (h : env₁ = env₂) :
    ProjectRun.projectRun spec env₁ = ProjectRun.projectRun spec env₂ := by
  rw [h]

def c9Spec : ProjectRun.ProjSpec :=
  { project := some { name := "Demo".data, slug := [] },
    architecture := none,
    theme := ("#6366f1".data, "Inter".data),
    pages := [{ id := "page_1".data, name := "Home".data, route := "/".data,
                sections := [{ id := "s1".data, kind := "hero".data,
                               variant := some "split".data,
                               content := some [("title".data, .str "T".data)] }] }] }

def c9Env : ProjectRun.Env :=
  { styleOf := fun _ => .named,
    scaffoldCss := ":root \x7b --primary: oklch(0.5 0.1 250); \x7d".data,
    scaffoldLayout := "export default function RootLayout() \x7b\x7d".data }

/-- Witness for C9 at a concrete spec and scaffold state. -/
theorem c9_generation_deterministic_witness :
    ProjectRun.projectRun c9Spec c9Env = ProjectRun.projectRun c9Spec c9Env :=
  c9_generation_deterministic c9Spec c9Env c9Env rfl

/-! ## Claim C6 — validator totality and accumulation -/

theorem strFieldInvalid_eq_not_strRuleOk (x : Val) :
    Validate.strFieldInvalid x = !Validate.strRuleOk x := by
  cases x with
  | str s =>
    simp only [Validate.strFieldInvalid, Validate.strRuleOk, Val.truthy,
      Val.jsTypeof, Val.strOf]
    by_cases h : s = []
    · subst h; simp [JsStr.jsTrim]
    · simp [h]
  | undef => rfl
  | null => rfl
  | bool b => cases b <;> rfl
  | num n => simp [Validate.strFieldInvalid, Validate.strRuleOk, Val.truthy,
      Val.jsTypeof]
  | arr xs => rfl
  | obj fs => rfl

theorem optStrInvalid_eq_not_optStrRuleOk (x : Val) :
    (!Val.isUndef x && decide (Val.jsTypeof x ≠ "string".data)) =
      !Validate.optStrRuleOk x := by
  cases x <;> simp [Val.isUndef, Val.jsTypeof, Validate.optStrRuleOk]

theorem optObjInvalid_eq_not_optObjRuleOk (x : Val) :
    (!Val.isUndef x && decide (Val.jsTypeof x ≠ "object".data)) =
      !Validate.optObjRuleOk x := by
  cases x <;> simp [Val.isUndef, Val.jsTypeof, Validate.optObjRuleOk]

theorem strLooseInvalid_eq_not_strRuleOkLoose (x : Val) :
    (!Val.truthy x || decide (Val.jsTypeof x ≠ "string".data)) =
      !Validate.strRuleOkLoose x := by
  cases x with
  | str s => by_cases h : s = [] <;>
      simp [Val.truthy, Val.jsTypeof, Validate.strRuleOkLoose, h]
  | bool b => cases b <;> rfl
  | num n => simp [Val.truthy, Val.jsTypeof, Validate.strRuleOkLoose]
  | _ => rfl

theorem validateSection_eq_sectionRules :
    Validate.validateSection = Validate.sectionRules := by
  funext i j sec
  unfold Validate.validateSection Validate.sectionRules
  by_cases h0 : (!Val.truthy sec || decide (Val.jsTypeof sec ≠ "object".data)) = true
  · rw [if_pos h0, if_pos h0]
  · simp only [h0, if_false, if_neg h0]
    rw [strFieldInvalid_eq_not_strRuleOk, strFieldInvalid_eq_not_strRuleOk,
      optStrInvalid_eq_not_optStrRuleOk, optObjInvalid_eq_not_optObjRuleOk]
    cases h1 : Validate.strRuleOk (Val.getF sec "id".data) <;>
      cases h2 : Validate.strRuleOk (Val.getF sec "kind".data) <;>
      cases h3 : Validate.optStrRuleOk (Val.getF sec "variant".data) <;>
      cases h4 : Validate.optObjRuleOk (Val.getF sec "content".data) <;>
      simp

theorem validatePage_eq_pageRules :
    Validate.validatePage = Validate.pageRules := by
  funext i page
  unfold Validate.validatePage Validate.pageRules
  by_cases h0 : (!Val.truthy page || decide (Val.jsTypeof page ≠ "object".data)) = true
  · rw [if_pos h0, if_pos h0]
  · simp only [h0, if_false, if_neg h0]
    rw [strFieldInvalid_eq_not_strRuleOk, strFieldInvalid_eq_not_strRuleOk,
      strFieldInvalid_eq_not_strRuleOk]
    have hsec : (if (!Val.truthy (Val.getF page "sections".data)) = true then
        ["Page at index " ++ toString i ++ " is missing sections field"]
      else
        match Val.getF page "sections".data with
        | .arr xs => (xs.enum.map (fun p => Validate.validateSection i p.1 p.2)).flatten
        | _ => ["Page at index " ++ toString i ++ " sections must be an array"]) =
        (match Val.getF page "sections".data with
        | .arr xs => (xs.enum.map (fun p => Validate.sectionRules i p.1 p.2)).flatten
        | sv =>
          if (!Val.truthy sv) = true then
            ["Page at index " ++ toString i ++ " is missing sections field"]
          else ["Page at index " ++ toString i ++ " sections must be an array"]) := by
      cases hs : Val.getF page "sections".data <;>
        simp [Val.truthy, validateSection_eq_sectionRules]
    rw [hsec]
    cases h1 : Validate.strRuleOk (Val.getF page "id".data) <;>
      cases h2 : Validate.strRuleOk (Val.getF page "name".data) <;>
      cases h3 : Validate.strRuleOk (Val.getF page "route".data) <;>
      simp

theorem validate_errors_eq (v : Val) :
    (Validate.validate v).errors = Validate.ruleViolations v := by
  unfold Validate.validate Validate.ruleViolations
  by_cases h0 : (!Val.truthy v || decide (Val.jsTypeof v ≠ "object".data)) = true
  · rw [if_pos h0, if_pos h0]
  · rw [if_neg h0, if_neg h0]
    dsimp only
    rw [strFieldInvalid_eq_not_strRuleOk, strFieldInvalid_eq_not_strRuleOk]
    have hth : (if (!Val.isUndef (Val.getF v "theme".data)) = true then
        if (decide (Val.jsTypeof (Val.getF v "theme".data) ≠ "object".data) ||
            Val.isNull (Val.getF v "theme".data)) = true then
          ["theme must be an object if provided"]
        else
          (if (!Val.truthy (Val.getF (Val.getF v "theme".data) "primaryColor".data) ||
              decide (Val.jsTypeof (Val.getF (Val.getF v "theme".data) "primaryColor".data) ≠
                "string".data)) = true then
            ["theme.primaryColor is required and must be a string"] else []) ++
          (if (!Val.truthy (Val.getF (Val.getF v "theme".data) "font".data) ||
              decide (Val.jsTypeof (Val.getF (Val.getF v "theme".data) "font".data) ≠
                "string".data)) = true then
            ["theme.font is required and must be a string"] else [])
      else []) =
        (match Val.getF v "theme".data with
        | .undef => []
        | .arr t =>
          (if Validate.strRuleOkLoose (Val.getF (.arr t) "primaryColor".data) then [] else
            ["theme.primaryColor is required and must be a string"]) ++
          (if Validate.strRuleOkLoose (Val.getF (.arr t) "font".data) then [] else
            ["theme.font is required and must be a string"])
        | .obj t =>
          (if Validate.strRuleOkLoose (Val.getF (.obj t) "primaryColor".data) then [] else
            ["theme.primaryColor is required and must be a string"]) ++
          (if Validate.strRuleOkLoose (Val.getF (.obj t) "font".data) then [] else
            ["theme.font is required and must be a string"])
        | _ => ["theme must be an object if provided"]) := by
      cases ht : Val.getF v "theme".data with
      | arr t =>
        rw [strLooseInvalid_eq_not_strRuleOkLoose, strLooseInvalid_eq_not_strRuleOkLoose]
        cases hpc : Validate.strRuleOkLoose (Val.getF (.arr t) "primaryColor".data) <;>
          cases hf : Validate.strRuleOkLoose (Val.getF (.arr t) "font".data) <;>
          simp [Val.isUndef, Val.isNull, Val.jsTypeof, hpc, hf]
      | obj t =>
        rw [strLooseInvalid_eq_not_strRuleOkLoose, strLooseInvalid_eq_not_strRuleOkLoose]
        cases hpc : Validate.strRuleOkLoose (Val.getF (.obj t) "primaryColor".data) <;>
          cases hf : Validate.strRuleOkLoose (Val.getF (.obj t) "font".data) <;>
          simp [Val.isUndef, Val.isNull, Val.jsTypeof, hpc, hf]
      | _ => simp [Val.isUndef, Val.isNull, Val.jsTypeof]
    have hpg : (if (!Val.truthy (Val.getF v "pages".data)) = true then
        ["Missing required pages field"]
      else
        match Val.getF v "pages".data with
        | .arr xs =>
          if xs.length = 0 then ["pages array must not be empty"]
          else (xs.enum.map (fun p => Validate.validatePage p.1 p.2)).flatten
        | _ => ["pages must be an array"]) =
        (match Val.getF v "pages".data with
        | .arr [] => ["pages array must not be empty"]
        | .arr xs => (xs.enum.map (fun p => Validate.pageRules p.1 p.2)).flatten
        | pv =>
          if (!Val.truthy pv) = true then ["Missing required pages field"]
          else ["pages must be an array"]) := by
      cases hs : Val.getF v "pages".data with
      | arr xs =>
        cases xs with
        | nil => simp [Val.truthy]
        | cons x rest => simp [Val.truthy, validatePage_eq_pageRules]
      | _ => simp [Val.truthy]
    rw [hth, hpg, optStrInvalid_eq_not_optStrRuleOk]
    cases hn : Validate.strRuleOk (Val.getF v "name".data) <;>
      cases hs : Validate.strRuleOk (Val.getF v "slug".data) <;>
      cases hd : Validate.optStrRuleOk (Val.getF v "description".data) <;>
      cases hu : Val.isUndef (Val.getF v "architecture".data) <;>
      cases hi : Validate.archIncluded (Val.getF v "architecture".data)
    all_goals simp [hn, hs, hd, hu, hi]

theorem validate_valid_iff_errors_nil (v : Val) :
    (Validate.validate v).valid = true ↔ (Validate.validate v).errors = [] := by
  unfold Validate.validate
  by_cases h0 : (!Val.truthy v || decide (Val.jsTypeof v ≠ "object".data)) = true
  · rw [if_pos h0]; simp
  · rw [if_neg h0]
    dsimp only
    rw [decide_eq_true_eq]
    exact List.length_eq_zero

/-- **C6.** For every input value whatsoever, `validate` returns a result
object (it is a total function of the value model); its error list equals
the declarative enumeration `ruleViolations` — one entry per violated
schema rule for every page and every section, accumulated rather than
stopping at the first violation — and `valid = true` exactly when that
list is empty. -/
theorem c6_validator_total_and_accumulating (v : Val) :
    (Validate.validate v).errors = Validate.ruleViolations v ∧
    ((Validate.validate v).valid = true ↔ (Validate.validate v).errors = []) :=
  ⟨validate_errors_eq v, validate_valid_iff_errors_nil v⟩

/-! ## Claim C5 — when `repair` throws -/

namespace Repair

open Val JsStr

/-- The claim-side throw condition: missing/empty name, missing/empty
pages array, or some section with missing/empty kind (derived from the
claim wording, for the counterexample). -/
def claimThrowCond (v : Val) : Bool :=
  strMissing (getF v "name".data) ||
  (match getF v "pages".data with
   | .arr xs => xs.length = 0
   | _ => true) ||
  (match getF v "pages".data with
   | .arr xs =>
     xs.any (fun pv =>
       match getF pv "sections".data with
       | .arr ss => ss.any (fun sv => strMissing (getF sv "kind".data))
       | _ => false)
   | _ => false)

/-- A section entry the section callback survives: not `null`/`undefined`
(no `TypeError` on `section.id`) and with a usable `kind`. -/
def sectionOk (sv : Val) : Bool :=
  match sv with
  | .undef => false
  | .null => false
  | _ => !strMissing (getF sv "kind".data)

/-- A page entry the page callback survives. -/
def pageOk (pv : Val) : Bool :=
  match pv with
  | .undef => false
  | .null => false
  | _ =>
    match getF pv "sections".data with
    | .arr xs => xs.all sectionOk
    | _ => true

/-- The full success condition of `repair`. -/
def amendedOk (v : Val) : Bool :=
  match v with
  | .undef => false
  | .null => false
  | _ =>
    !strMissing (getF v "name".data) &&
    (match getF v "pages".data with
     | .arr xs => decide (0 < xs.length) && xs.all pageOk
     | _ => false)

end Repair

theorem exists_ok_ite {E α : Type} (c : Prop) [Decidable c] (e : E) (a : α) :
    (∃ y, (if c then (Except.error e : Except E α) else .ok a) = .ok y) ↔ ¬c := by
  by_cases h : c <;> simp [h]

theorem repairSection_ok_iff (i : Nat) (pid : Str) (j : Nat) (sv : Val) :
    (∃ y, Repair.repairSection i pid j sv = .ok y) ↔ Repair.sectionOk sv = true := by
  cases sv with
  | undef => simp [Repair.repairSection, Val.getProp, Repair.sectionOk]
  | null => simp [Repair.repairSection, Val.getProp, Repair.sectionOk]
  | bool b =>
    dsimp only [Repair.repairSection, Val.getProp]
    rw [exists_ok_ite]
    simp [Repair.sectionOk]
  | num n =>
    dsimp only [Repair.repairSection, Val.getProp]
    rw [exists_ok_ite]
    simp [Repair.sectionOk]
  | str s =>
    dsimp only [Repair.repairSection, Val.getProp]
    rw [exists_ok_ite]
    simp [Repair.sectionOk]
  | arr xs =>
    dsimp only [Repair.repairSection, Val.getProp]
    rw [exists_ok_ite]
    simp [Repair.sectionOk]
  | obj fs =>
    dsimp only [Repair.repairSection, Val.getProp]
    rw [exists_ok_ite]
    simp [Repair.sectionOk]

theorem mapIdxM_ok_iff {E α : Type} {f : Nat → Val → Except E α} {p : Val → Bool}
    (hf : ∀ k x, (∃ y, f k x = .ok y) ↔ p x = true) :
    ∀ (xs : List Val) (k : Nat),
      (∃ ys, Repair.mapIdxM f k xs = .ok ys) ↔ xs.all p = true := by
  intro xs
  induction xs with
  | nil => intro k; simp [Repair.mapIdxM]
  | cons x rest ih =>
    intro k
    simp only [List.all_cons, Bool.and_eq_true]
    constructor
    · rintro ⟨ys, hys⟩
      unfold Repair.mapIdxM at hys
      rw [except_bind_ok] at hys
      obtain ⟨y, hy, hrest⟩ := hys
      rw [except_bind_ok] at hrest
      obtain ⟨ys', hys', -⟩ := hrest
      exact ⟨(hf k x).mp ⟨y, hy⟩, (ih (k + 1)).mp ⟨ys', hys'⟩⟩
    · rintro ⟨hx, hrest⟩
      obtain ⟨y, hy⟩ := (hf k x).mpr hx
      obtain ⟨ys, hys⟩ := (ih (k + 1)).mpr hrest
      exact ⟨y :: ys, by unfold Repair.mapIdxM; rw [hy, hys]; rfl⟩

theorem exists_ok_bind_pure {E α β : Type} (X : Except E α) (g : α → β) :
    (∃ y, (X >>= fun a => Except.ok (g a)) = .ok y) ↔ ∃ a, X = .ok a := by
  cases X <;> simp [Bind.bind, Except.bind]

theorem repairPage_ok_iff (i : Nat) (pv : Val) :
    (∃ y, Repair.repairPage i pv = .ok y) ↔ Repair.pageOk pv = true := by
  cases pv with
  | undef => simp [Repair.repairPage, Val.getProp, Repair.pageOk]
  | null => simp [Repair.repairPage, Val.getProp, Repair.pageOk]
  | bool b =>
    simp [Repair.repairPage, Val.getProp, Val.getF, Repair.pageOk, Bind.bind, Except.bind]
  | num n =>
    simp [Repair.repairPage, Val.getProp, Val.getF, Repair.pageOk, Bind.bind, Except.bind]
  | str s =>
    simp [Repair.repairPage, Val.getProp, Val.getF, Repair.pageOk, Bind.bind, Except.bind]
  | arr ys =>
    simp [Repair.repairPage, Val.getProp, Val.getF, Repair.pageOk, Bind.bind, Except.bind]
  | obj fs =>
    dsimp only [Repair.repairPage, Val.getProp]
    cases hs : Val.getF (.obj fs) "sections".data with
    | arr xs =>
      rw [exists_ok_bind_pure]
      rw [mapIdxM_ok_iff (fun k x => repairSection_ok_iff i _ k x) xs 0]
      simp [Repair.pageOk, hs]
    | undef => simp [Repair.pageOk, hs, Bind.bind, Except.bind]
    | null => simp [Repair.pageOk, hs, Bind.bind, Except.bind]
    | bool b => simp [Repair.pageOk, hs, Bind.bind, Except.bind]
    | num n => simp [Repair.pageOk, hs, Bind.bind, Except.bind]
    | str s => simp [Repair.pageOk, hs, Bind.bind, Except.bind]
    | obj gs => simp [Repair.pageOk, hs, Bind.bind, Except.bind]

/-- **C5 (counterexample).** On the input
`{ name: "A", pages: [null] }` — name present and non-empty, pages a
non-empty array, and no section missing a kind — `repair` still throws:
the page callback reads `page.id` on `null` and raises a `TypeError`, a
case outside the three conditions the claim enumerates. -/
theorem c5_counterexample :
    Repair.repair (.obj [("name".data, .str "A".data),
      ("pages".data, .arr [.null])]) = .error .typeError ∧
    Repair.claimThrowCond (.obj [("name".data, .str "A".data),
      ("pages".data, .arr [.null])]) = false :=
  ⟨rfl, rfl⟩

theorem repair_ok_iff_amendedOk (v : Val) :
    (∃ sp, Repair.repair v = .ok sp) ↔ Repair.amendedOk v = true := by
  cases v with
  | undef => simp [Repair.repair, Val.getProp, Repair.amendedOk]
  | null => simp [Repair.repair, Val.getProp, Repair.amendedOk]
  | bool b =>
    simp [Repair.repair, Val.getProp, Val.getF, Repair.amendedOk,
      Repair.strMissing, Val.truthy, Bind.bind, Except.bind]
  | num n =>
    simp [Repair.repair, Val.getProp, Val.getF, Repair.amendedOk,
      Repair.strMissing, Val.truthy, Bind.bind, Except.bind]
  | str s =>
    simp [Repair.repair, Val.getProp, Val.getF, Repair.amendedOk,
      Repair.strMissing, Val.truthy, Bind.bind, Except.bind]
  | arr ys =>
    simp [Repair.repair, Val.getProp, Val.getF, Repair.amendedOk,
      Repair.strMissing, Val.truthy, Bind.bind, Except.bind]
  | obj fs =>
    dsimp only [Repair.repair, Val.getProp]
    by_cases h1 : (!Val.truthy (Val.getF (.obj fs) "name".data) ||
        decide (Val.jsTypeof (Val.getF (.obj fs) "name".data) ≠ "string".data)) = true
    · rw [if_pos h1]
      have hm : Repair.strMissing (Val.getF (.obj fs) "name".data) = true := by
        rcases Bool.or_eq_true_iff.mp h1 with h | h <;>
          simp [Repair.strMissing, h]
      simp [Repair.amendedOk, hm]
    · rw [if_neg h1]
      by_cases h2 : JsStr.jsTrim (Val.strOf (Val.getF (.obj fs) "name".data)) = []
      · rw [if_pos h2]
        have hm : Repair.strMissing (Val.getF (.obj fs) "name".data) = true := by
          simp [Repair.strMissing, h2]
        simp [Repair.amendedOk, hm]
      · rw [if_neg h2]
        have hm : Repair.strMissing (Val.getF (.obj fs) "name".data) = false := by
          have h1' : Val.truthy (Val.getF (.obj fs) "name".data) = true ∧
              Val.jsTypeof (Val.getF (.obj fs) "name".data) = "string".data := by
            simpa [not_or] using h1
          simp [Repair.strMissing, h1'.1, h1'.2, h2]
        cases hp : Val.getF (.obj fs) "pages".data with
        | arr xs =>
          dsimp only
          by_cases hlen : xs.length > 0
          · rw [if_pos hlen]
            rw [exists_ok_bind_pure]
            rw [mapIdxM_ok_iff repairPage_ok_iff xs 0]
            simp [Repair.amendedOk, hm, hp, hlen]
          · rw [if_neg hlen]
            simp only [List.length_pos, ne_eq, not_not] at hlen
            subst hlen
            simp [Repair.amendedOk, hm, hp, Bind.bind, Except.bind]
        | undef => simp [Repair.amendedOk, hm, hp, Bind.bind, Except.bind]
        | null => simp [Repair.amendedOk, hm, hp, Bind.bind, Except.bind]
        | bool b => simp [Repair.amendedOk, hm, hp, Bind.bind, Except.bind]
        | num n => simp [Repair.amendedOk, hm, hp, Bind.bind, Except.bind]
        | str s => simp [Repair.amendedOk, hm, hp, Bind.bind, Except.bind]
        | obj gs => simp [Repair.amendedOk, hm, hp, Bind.bind, Except.bind]

/-- **C5 (amended).** `repair` returns a Spec exactly when: the name is a
usable non-empty string, `pages` is a non-empty array, every page entry is
non-`null`/`undefined`, and within every array-valued `sections` field
every section entry is non-`null`/`undefined` and carries a usable
non-empty `kind`; in every other case it throws (an unrecoverable error
for the name/pages/kind conditions, a `TypeError` for the `null` entries),
and when it throws nothing is returned (`Except` has no partial-success
value). -/
theorem c5_repair_throw_characterization (v : Val) :
    (∃ sp, Repair.repair v = .ok sp) ↔ Repair.amendedOk v = true :=
  repair_ok_iff_amendedOk v

/-! ## Claim C7 — deterministic backfill of missing ids/names/routes -/

theorem mapIdxM_ok_get {E α : Type} {f : Nat → Val → Except E α} :
    ∀ (xs : List Val) (k : Nat) (ys : List α),
      Repair.mapIdxM f k xs = .ok ys →
      ys.length = xs.length ∧
      ∀ i x, xs[i]? = some x → ∃ y, f (k + i) x = .ok y ∧ ys[i]? = some y := by
  intro xs
  induction xs with
  | nil =>
    intro k ys h
    obtain rfl : ys = [] := by simpa [Repair.mapIdxM] using h.symm
    exact ⟨rfl, by simp⟩
  | cons x rest ih =>
    intro k ys h
    unfold Repair.mapIdxM at h
    rw [except_bind_ok] at h
    obtain ⟨y, hy, hrest⟩ := h
    rw [except_bind_ok] at hrest
    obtain ⟨ys', hys', hpure⟩ := hrest
    obtain rfl : ys = y :: ys' := by simpa using hpure.symm
    obtain ⟨hlen, hget⟩ := ih (k + 1) ys' hys'
    refine ⟨by simp [hlen], ?_⟩
    intro i z hz
    cases i with
    | zero =>
      have hzx : z = x := by simpa using hz.symm
      subst hzx
      exact ⟨y, by simpa using hy, by simp⟩
    | succ i =>
      simp only [List.getElem?_cons_succ] at hz ⊢
      obtain ⟨w, hw, hw'⟩ := hget i z hz
      refine ⟨w, ?_, hw'⟩
      rw [show k + (i + 1) = k + 1 + i by omega]
      exact hw

theorem repairSection_ok_inversion {i : Nat} {pid : Str} {j : Nat} {sv : Val}
    {sc : Repair.SectionConfig} (h : Repair.repairSection i pid j sv = .ok sc) :
    sc.id = (if Repair.strMissing (Val.getF sv "id".data) = true then
        Repair.generateId ("sec_".data ++ pid) j
      else JsStr.jsTrim (Val.strOf (Val.getF sv "id".data))) := by
  cases sv with
  | undef => exact absurd h (by simp [Repair.repairSection, Val.getProp])
  | null => exact absurd h (by simp [Repair.repairSection, Val.getProp])
  | bool b =>
    dsimp only [Repair.repairSection, Val.getProp] at h
    by_cases hk : Repair.strMissing (Val.getF (.bool b) "kind".data) = true
    · rw [if_pos hk] at h; exact absurd h (by simp)
    · rw [if_neg hk] at h
      simp only [Except.ok.injEq] at h
      rw [← h]
  | num n =>
    dsimp only [Repair.repairSection, Val.getProp] at h
    by_cases hk : Repair.strMissing (Val.getF (.num n) "kind".data) = true
    · rw [if_pos hk] at h; exact absurd h (by simp)
    · rw [if_neg hk] at h
      simp only [Except.ok.injEq] at h
      rw [← h]
  | str s =>
    dsimp only [Repair.repairSection, Val.getProp] at h
    by_cases hk : Repair.strMissing (Val.getF (.str s) "kind".data) = true
    · rw [if_pos hk] at h; exact absurd h (by simp)
    · rw [if_neg hk] at h
      simp only [Except.ok.injEq] at h
      rw [← h]
  | arr xs =>
    dsimp only [Repair.repairSection, Val.getProp] at h
    by_cases hk : Repair.strMissing (Val.getF (.arr xs) "kind".data) = true
    · rw [if_pos hk] at h; exact absurd h (by simp)
    · rw [if_neg hk] at h
      simp only [Except.ok.injEq] at h
      rw [← h]
  | obj fs =>
    dsimp only [Repair.repairSection, Val.getProp] at h
    by_cases hk : Repair.strMissing (Val.getF (.obj fs) "kind".data) = true
    · rw [if_pos hk] at h; exact absurd h (by simp)
    · rw [if_neg hk] at h
      simp only [Except.ok.injEq] at h
      rw [← h]

theorem repairPage_ok_inversion {i : Nat} {pv : Val} {pc : Repair.PageConfig}
    (h : Repair.repairPage i pv = .ok pc) :
    pc.id = (if Repair.strMissing (Val.getF pv "id".data) = true then
        Repair.generateId "page".data i
      else JsStr.jsTrim (Val.strOf (Val.getF pv "id".data))) ∧
    pc.name = (if Repair.strMissing (Val.getF pv "name".data) = true then
        List.intercalate " ".data ((pc.id.splitOn '_').map Repair.capitalize)
      else JsStr.jsTrim (Val.strOf (Val.getF pv "name".data))) ∧
    pc.route = (if Repair.strMissing (Val.getF pv "route".data) = true then
        (if i = 0 then "/".data else "/".data ++ pc.id)
      else JsStr.jsTrim (Val.strOf (Val.getF pv "route".data))) ∧
    (∀ ss, Val.getF pv "sections".data = .arr ss →
      Repair.mapIdxM (fun j sv => Repair.repairSection i pc.id j sv) 0 ss =
        .ok pc.sections) := by
  cases pv with
  | undef => exact absurd h (by simp [Repair.repairPage, Val.getProp])
  | null => exact absurd h (by simp [Repair.repairPage, Val.getProp])
  | bool b =>
    simp only [Repair.repairPage, Val.getProp, Val.getF, Bind.bind, Except.bind,
      Except.ok.injEq] at h
    subst h
    refine ⟨rfl, rfl, rfl, ?_⟩
    intro ss hss
    exact absurd hss (by simp [Val.getF])
  | num n =>
    simp only [Repair.repairPage, Val.getProp, Val.getF, Bind.bind, Except.bind,
      Except.ok.injEq] at h
    subst h
    refine ⟨rfl, rfl, rfl, ?_⟩
    intro ss hss
    exact absurd hss (by simp [Val.getF])
  | str s =>
    simp only [Repair.repairPage, Val.getProp, Val.getF, Bind.bind, Except.bind,
      Except.ok.injEq] at h
    subst h
    refine ⟨rfl, rfl, rfl, ?_⟩
    intro ss hss
    exact absurd hss (by simp [Val.getF])
  | arr ys =>
    simp only [Repair.repairPage, Val.getProp, Val.getF, Bind.bind, Except.bind,
      Except.ok.injEq] at h
    subst h
    refine ⟨rfl, rfl, rfl, ?_⟩
    intro ss hss
    exact absurd hss (by simp [Val.getF])
  | obj fs =>
    dsimp only [Repair.repairPage, Val.getProp] at h
    cases hs : Val.getF (.obj fs) "sections".data with
    | arr ss =>
      rw [hs] at h
      dsimp only at h
      rw [except_bind_ok] at h
      obtain ⟨scs, hmap, hpure⟩ := h
      simp only [Except.ok.injEq] at hpure
      subst hpure
      refine ⟨rfl, rfl, rfl, ?_⟩
      intro ss' hss'
      obtain rfl : ss = ss' := by simpa using hss'
      exact hmap
    | undef =>
      rw [hs] at h
      simp only [Bind.bind, Except.bind, Except.ok.injEq] at h
      subst h
      refine ⟨rfl, rfl, rfl, ?_⟩
      intro ss' hss'
      exact absurd hss' (by simp)
    | null =>
      rw [hs] at h
      simp only [Bind.bind, Except.bind, Except.ok.injEq] at h
      subst h
      refine ⟨rfl, rfl, rfl, ?_⟩
      intro ss' hss'
      exact absurd hss' (by simp)
    | bool b =>
      rw [hs] at h
      simp only [Bind.bind, Except.bind, Except.ok.injEq] at h
      subst h
      refine ⟨rfl, rfl, rfl, ?_⟩
      intro ss' hss'
      exact absurd hss' (by simp)
    | num n =>
      rw [hs] at h
      simp only [Bind.bind, Except.bind, Except.ok.injEq] at h
      subst h
      refine ⟨rfl, rfl, rfl, ?_⟩
      intro ss' hss'
      exact absurd hss' (by simp)
    | str s =>
      rw [hs] at h
      simp only [Bind.bind, Except.bind, Except.ok.injEq] at h
      subst h
      refine ⟨rfl, rfl, rfl, ?_⟩
      intro ss' hss'
      exact absurd hss' (by simp)
    | obj gs =>
      rw [hs] at h
      simp only [Bind.bind, Except.bind, Except.ok.injEq] at h
      subst h
      refine ⟨rfl, rfl, rfl, ?_⟩
      intro ss' hss'
      exact absurd hss' (by simp)

/-- **C7.** For every Spec on which `repair` succeeds: a page at 0-based
index `i` with missing/empty id gets id `page_{i+1}`; a page with
missing/empty name gets the title-casing of its (final) id's
underscore-delimited segments joined by spaces; a page with missing/empty
route gets `/` for index 0 and `/{pageId}` otherwise; and a section at
0-based index `j` with missing/empty id gets `sec_{pageId}_{j+1}`. -/
theorem c7_backfill_rules (v : Val) (sp : Repair.WebsiteSpec) (xs : List Val)
    (h : Repair.repair v = .ok sp) (hpages : Val.getF v "pages".data = .arr xs) :
    sp.pages.length = xs.length ∧
    ∀ i pv, xs[i]? = some pv → ∃ pc, sp.pages[i]? = some pc ∧
      (Repair.strMissing (Val.getF pv "id".data) = true →
        pc.id = "page_".data ++ (toString (i + 1)).data) ∧
      (Repair.strMissing (Val.getF pv "name".data) = true →
        pc.name = List.intercalate " ".data
          ((pc.id.splitOn '_').map Repair.capitalize)) ∧
      (Repair.strMissing (Val.getF pv "route".data) = true →
        pc.route = (if i = 0 then "/".data else "/".data ++ pc.id)) ∧
      (∀ ss, Val.getF pv "sections".data = .arr ss →
        pc.sections.length = ss.length ∧
        ∀ j sv, ss[j]? = some sv → ∃ sc, pc.sections[j]? = some sc ∧
          (Repair.strMissing (Val.getF sv "id".data) = true →
            sc.id = "sec_".data ++ pc.id ++ "_".data ++ (toString (j + 1)).data)) := by
  obtain ⟨nameRaw, xs', pages, hp, h1, h2, hpgv, hlen, hmap, hsp⟩ :=
    repair_ok_inversion h
  obtain rfl : xs = xs' := by
    have := hpages.symm.trans hpgv
    simpa using this
  have hspages : sp.pages = pages := by rw [hsp]
  obtain ⟨hplen, hpget⟩ := mapIdxM_ok_get xs 0 pages hmap
  refine ⟨by rw [hspages, hplen], ?_⟩
  intro i pv hpv
  obtain ⟨pc, hpc, hpcget⟩ := hpget i pv hpv
  have hpc' : Repair.repairPage i pv = .ok pc := by simpa using hpc
  obtain ⟨hid, hname, hroute, hsecs⟩ := repairPage_ok_inversion hpc'
  refine ⟨pc, by rw [hspages]; exact hpcget, ?_, ?_, ?_, ?_⟩
  · intro hmiss; rw [hid, if_pos hmiss]; rfl
  · intro hmiss; rw [hname, if_pos hmiss]
  · intro hmiss; rw [hroute, if_pos hmiss]
  · intro ss hss
    have hm := hsecs ss hss
    obtain ⟨hslen, hsget⟩ := mapIdxM_ok_get ss 0 pc.sections hm
    refine ⟨hslen.symm ▸ rfl, ?_⟩
    intro j sv hsv
    obtain ⟨sc, hsc, hscget⟩ := hsget j sv hsv
    have hsc' : Repair.repairSection i pc.id j sv = .ok sc := by simpa using hsc
    have hscid := repairSection_ok_inversion hsc'
    refine ⟨sc, hscget, ?_⟩
    intro hmiss
    rw [hscid, if_pos hmiss]
    rfl

def c7V : Val :=
  .obj [("name".data, .str "A".data),
        ("pages".data, .arr [.obj [],
          .obj [("id".data, .str "about".data),
                ("sections".data, .arr [.obj [("kind".data, .str "hero".data)]])]])]

def c7Pages : List Val :=
  [.obj [],
   .obj [("id".data, .str "about".data),
         ("sections".data, .arr [.obj [("kind".data, .str "hero".data)]])]]

def c7Spec : Repair.WebsiteSpec :=
  { name := "A".data, slug := "a".data, description := none, architecture := none,
    theme := none,
    pages := [{ id := "page_1".data, name := "Page 1".data, route := "/".data,
                sections := [] },
              { id := "about".data, name := "About".data, route := "/about".data,
                sections := [{ id := "sec_about_1".data, kind := "hero".data,
                               variant := none, content := none }] }] }

/-- Witness for C7 at a concrete partially-specified spec. -/
theorem c7_backfill_rules_witness :
    Repair.repair c7V = .ok c7Spec ∧
    Val.getF c7V "pages".data = .arr c7Pages ∧
    (c7Spec.pages.length = c7Pages.length ∧
      ∀ i pv, c7Pages[i]? = some pv → ∃ pc, c7Spec.pages[i]? = some pc ∧
        (Repair.strMissing (Val.getF pv "id".data) = true →
          pc.id = "page_".data ++ (toString (i + 1)).data) ∧
        (Repair.strMissing (Val.getF pv "name".data) = true →
          pc.name = List.intercalate " ".data
            ((pc.id.splitOn '_').map Repair.capitalize)) ∧
        (Repair.strMissing (Val.getF pv "route".data) = true →
          pc.route = (if i = 0 then "/".data else "/".data ++ pc.id)) ∧
        (∀ ss, Val.getF pv "sections".data = .arr ss →
          pc.sections.length = ss.length ∧
          ∀ j sv, ss[j]? = some sv → ∃ sc, pc.sections[j]? = some sc ∧
            (Repair.strMissing (Val.getF sv "id".data) = true →
              sc.id = "sec_".data ++ pc.id ++ "_".data ++ (toString (j + 1)).data))) :=
  ⟨by rfl, by rfl, c7_backfill_rules c7V c7Spec c7Pages (by rfl) (by rfl)⟩

/-! ## Claim C4 — repair preserves already-valid content -/

namespace Repair

open Val JsStr

/-- A provided string field that is already trimmed and non-empty. -/
def trimmedStr (x : Val) : Bool :=
  match x with
  | .str s => jsTrim s = s && s ≠ []
  | _ => false

/-- Section whose provided values survive repair verbatim. -/
def trimmedSection (sv : Val) : Bool :=
  match sv with
  | .obj _ =>
    trimmedStr (getF sv "id".data) && trimmedStr (getF sv "kind".data) &&
    (match getF sv "variant".data with
     | .undef => true
     | x => trimmedStr x) &&
    (match getF sv "content".data with
     | .undef => true
     | .obj _ => true
     | _ => false)
  | _ => false

/-- Page whose provided values survive repair verbatim. -/
def trimmedPage (pv : Val) : Bool :=
  match pv with
  | .obj _ =>
    trimmedStr (getF pv "id".data) && trimmedStr (getF pv "name".data) &&
    trimmedStr (getF pv "route".data) &&
    (match getF pv "sections".data with
     | .arr ss => ss.all trimmedSection
     | _ => false)
  | _ => false

/-- The amended side condition of C4: every provided string field is
already trimmed and non-empty, variants are non-empty strings, contents
are plain objects, the optional architecture is truthy, and pages is a
non-empty array of such pages. -/
def trimmedSpecInput (v : Val) : Bool :=
  match v with
  | .obj _ =>
    trimmedStr (getF v "name".data) && trimmedStr (getF v "slug".data) &&
    (match getF v "description".data with
     | .undef => true
     | x => trimmedStr x) &&
    (match getF v "architecture".data with
     | .undef => true
     | x => truthy x) &&
    (match getF v "theme".data with
     | .undef => true
     | .obj t =>
       trimmedStr (getF (.obj t) "primaryColor".data) &&
       trimmedStr (getF (.obj t) "font".data)
     | _ => false) &&
    (match getF v "pages".data with
     | .arr (p :: ps) => (p :: ps).all trimmedPage
     | _ => false)
  | _ => false

/-- Content equivalence at section level: every provided value is returned
unaltered; absent variant/content stay absent. -/
def SectionEquiv (sv : Val) (sc : SectionConfig) : Prop :=
  getF sv "id".data = .str sc.id ∧
  getF sv "kind".data = .str sc.kind ∧
  (∀ vs, getF sv "variant".data = .str vs → sc.variant = some vs) ∧
  (getF sv "variant".data = .undef → sc.variant = none) ∧
  (∀ cf, getF sv "content".data = .obj cf → sc.content = some cf) ∧
  (getF sv "content".data = .undef → sc.content = none)

def PageEquiv (pv : Val) (pc : PageConfig) : Prop :=
  getF pv "id".data = .str pc.id ∧
  getF pv "name".data = .str pc.name ∧
  getF pv "route".data = .str pc.route ∧
  ∀ ss, getF pv "sections".data = .arr ss →
    pc.sections.length = ss.length ∧
    ∀ (j : Nat) (sv : Val), ss[j]? = some sv →
      ∃ sc, pc.sections[j]? = some sc ∧ SectionEquiv sv sc

/-- Content equivalence at spec level. -/
def SpecEquiv (v : Val) (sp : WebsiteSpec) : Prop :=
  getF v "name".data = .str sp.name ∧
  getF v "slug".data = .str sp.slug ∧
  (∀ d, getF v "description".data = .str d → sp.description = some d) ∧
  (getF v "description".data = .undef → sp.description = none) ∧
  (getF v "architecture".data ≠ .undef → sp.architecture = some (getF v "architecture".data)) ∧
  (getF v "architecture".data = .undef → sp.architecture = none) ∧
  (∀ t, getF v "theme".data = .obj t →
    sp.theme = some (strOf (getF (.obj t) "primaryColor".data),
                     strOf (getF (.obj t) "font".data))) ∧
  (getF v "theme".data = .undef → sp.theme = none) ∧
  (∀ xs, getF v "pages".data = .arr xs →
    sp.pages.length = xs.length ∧
    ∀ (i : Nat) (pv : Val), xs[i]? = some pv →
      ∃ pc, sp.pages[i]? = some pc ∧ PageEquiv pv pc)

end Repair

theorem trimmedStr_facts {x : Val} (h : Repair.trimmedStr x = true) :
    ∃ s : Str, x = .str s ∧ JsStr.jsTrim s = s ∧ s ≠ [] := by
  cases x <;> simp [Repair.trimmedStr] at h ⊢
  exact h

theorem trimmedStr_strMissing {x : Val} (h : Repair.trimmedStr x = true) :
    Repair.strMissing x = false ∧ JsStr.jsTrim (Val.strOf x) = Val.strOf x := by
  obtain ⟨s, rfl, htrim, hne⟩ := trimmedStr_facts h
  simp [Repair.strMissing, Val.truthy, Val.jsTypeof, Val.strOf, htrim, hne]

theorem repairSection_ok_record {i : Nat} {pid : Str} {j : Nat} {sv : Val}
    {sc : Repair.SectionConfig} (h : Repair.repairSection i pid j sv = .ok sc) :
    sc.id = (if Repair.strMissing (Val.getF sv "id".data) = true then
        Repair.generateId ("sec_".data ++ pid) j
      else JsStr.jsTrim (Val.strOf (Val.getF sv "id".data))) ∧
    sc.kind = JsStr.jsTrim (Val.strOf (Val.getF sv "kind".data)) ∧
    sc.variant = (match (if (Val.truthy (Val.getF sv "variant".data) &&
        decide (Val.jsTypeof (Val.getF sv "variant".data) = "string".data)) = true then
          some (JsStr.jsTrim (Val.strOf (Val.getF sv "variant".data)))
        else none : Option Str) with
      | some t => if t = [] then none else some t
      | none => none) ∧
    sc.content = (match Val.getF sv "content".data with
      | .obj cf => some cf
      | _ => none) := by
  cases sv with
  | undef => exact absurd h (by simp [Repair.repairSection, Val.getProp])
  | null => exact absurd h (by simp [Repair.repairSection, Val.getProp])
  | bool b =>
    dsimp only [Repair.repairSection, Val.getProp] at h
    by_cases hk : Repair.strMissing (Val.getF (.bool b) "kind".data) = true
    · rw [if_pos hk] at h; exact absurd h (by simp)
    · rw [if_neg hk] at h
      simp only [Except.ok.injEq] at h
      rw [← h]
      exact ⟨rfl, rfl, rfl, rfl⟩
  | num n =>
    dsimp only [Repair.repairSection, Val.getProp] at h
    by_cases hk : Repair.strMissing (Val.getF (.num n) "kind".data) = true
    · rw [if_pos hk] at h; exact absurd h (by simp)
    · rw [if_neg hk] at h
      simp only [Except.ok.injEq] at h
      rw [← h]
      exact ⟨rfl, rfl, rfl, rfl⟩
  | str s =>
    dsimp only [Repair.repairSection, Val.getProp] at h
    by_cases hk : Repair.strMissing (Val.getF (.str s) "kind".data) = true
    · rw [if_pos hk] at h; exact absurd h (by simp)
    · rw [if_neg hk] at h
      simp only [Except.ok.injEq] at h
      rw [← h]
      exact ⟨rfl, rfl, rfl, rfl⟩
  | arr xs =>
    dsimp only [Repair.repairSection, Val.getProp] at h
    by_cases hk : Repair.strMissing (Val.getF (.arr xs) "kind".data) = true
    · rw [if_pos hk] at h; exact absurd h (by simp)
    · rw [if_neg hk] at h
      simp only [Except.ok.injEq] at h
      rw [← h]
      exact ⟨rfl, rfl, rfl, rfl⟩
  | obj fss =>
    dsimp only [Repair.repairSection, Val.getProp] at h
    by_cases hk : Repair.strMissing (Val.getF (.obj fss) "kind".data) = true
    · rw [if_pos hk] at h; exact absurd h (by simp)
    · rw [if_neg hk] at h
      simp only [Except.ok.injEq] at h
      rw [← h]
      exact ⟨rfl, rfl, rfl, rfl⟩

theorem repairSection_preserves {i : Nat} {pid : Str} {j : Nat} {sv : Val}
    {sc : Repair.SectionConfig} (ht : Repair.trimmedSection sv = true)
    (h : Repair.repairSection i pid j sv = .ok sc) :
    Repair.SectionEquiv sv sc := by
  obtain ⟨hid, hkind, hvar, hcont⟩ := repairSection_ok_record h
  cases sv with
  | obj fss =>
    simp only [Repair.trimmedSection, Bool.and_eq_true] at ht
    obtain ⟨⟨⟨htid, htkind⟩, htvar⟩, htcont⟩ := ht
    have hmid := trimmedStr_strMissing htid
    have hmkind := trimmedStr_strMissing htkind
    obtain ⟨sid, hgid, hidtrim, hidne⟩ := trimmedStr_facts htid
    obtain ⟨skind, hgkind, hkindtrim, hkindne⟩ := trimmedStr_facts htkind
    have hscid : sc.id = sid := by
      rw [hid, if_neg (by simp [hmid.1]), hmid.2, hgid]
      rfl
    have hsckind : sc.kind = skind := by
      rw [hkind, hmkind.2, hgkind]
      rfl
    refine ⟨by rw [hgid, hscid], by rw [hgkind, hsckind], ?_, ?_, ?_, ?_⟩
    · intro vs hvs
      rw [hvs] at htvar hvar
      simp only [Repair.trimmedStr, Bool.and_eq_true, decide_eq_true_eq] at htvar
      obtain ⟨hvtrim, hvne⟩ := htvar
      simp only [Val.truthy, Val.jsTypeof, Val.strOf] at hvar
      rw [hvar]
      simp [hvtrim, hvne]
    · intro hvs
      rw [hvs] at hvar
      simp only [Val.truthy, Val.jsTypeof] at hvar
      simpa using hvar
    · intro cf hcf
      rw [hcf] at hcont
      exact hcont
    · intro hcf
      rw [hcf] at hcont
      exact hcont
  | undef => exact absurd ht (by simp [Repair.trimmedSection])
  | null => exact absurd ht (by simp [Repair.trimmedSection])
  | bool b => exact absurd ht (by simp [Repair.trimmedSection])
  | num n => exact absurd ht (by simp [Repair.trimmedSection])
  | str s => exact absurd ht (by simp [Repair.trimmedSection])
  | arr ys => exact absurd ht (by simp [Repair.trimmedSection])

theorem repairPage_preserves {i : Nat} {pv : Val} {pc : Repair.PageConfig}
    (ht : Repair.trimmedPage pv = true)
    (h : Repair.repairPage i pv = .ok pc) :
    Repair.PageEquiv pv pc := by
  obtain ⟨hid, hname, hroute, hsecs⟩ := repairPage_ok_inversion h
  cases pv with
  | obj fs =>
    simp only [Repair.trimmedPage, Bool.and_eq_true] at ht
    obtain ⟨⟨⟨htid, htname⟩, htroute⟩, htsecs⟩ := ht
    have hmid := trimmedStr_strMissing htid
    have hmname := trimmedStr_strMissing htname
    have hmroute := trimmedStr_strMissing htroute
    obtain ⟨sid, hgid, hidtrim, hidne⟩ := trimmedStr_facts htid
    obtain ⟨sname, hgname, hnametrim, hnamene⟩ := trimmedStr_facts htname
    obtain ⟨sroute, hgroute, hroutetrim, hroutene⟩ := trimmedStr_facts htroute
    have hscid : pc.id = sid := by
      rw [hid, if_neg (by simp [hmid.1]), hmid.2, hgid]
      rfl
    have hscname : pc.name = sname := by
      rw [hname, if_neg (by simp [hmname.1]), hmname.2, hgname]
      rfl
    have hscroute : pc.route = sroute := by
      rw [hroute, if_neg (by simp [hmroute.1]), hmroute.2, hgroute]
      rfl
    refine ⟨by rw [hgid, hscid], by rw [hgname, hscname], by rw [hgroute, hscroute], ?_⟩
    intro ss hss
    cases hgs : Val.getF (.obj fs) "sections".data with
    | arr ss0 =>
      rw [hgs] at hss htsecs
      obtain rfl : ss = ss0 := by simpa using hss.symm
      have hmap := hsecs ss hgs
      obtain ⟨hslen, hsget⟩ := mapIdxM_ok_get ss 0 pc.sections hmap
      refine ⟨hslen.symm ▸ rfl, ?_⟩
      intro j sv hsv
      obtain ⟨sc, hsc, hscget⟩ := hsget j sv hsv
      have hsc' : Repair.repairSection i pc.id j sv = .ok sc := by simpa using hsc
      have htsv : Repair.trimmedSection sv = true := by
        have hmem : sv ∈ ss := List.getElem?_mem hsv
        exact List.all_eq_true.mp htsecs sv hmem
      exact ⟨sc, hscget, repairSection_preserves htsv hsc'⟩
    | undef => rw [hgs] at htsecs; exact absurd htsecs (by simp)
    | null => rw [hgs] at htsecs; exact absurd htsecs (by simp)
    | bool b => rw [hgs] at htsecs; exact absurd htsecs (by simp)
    | num n => rw [hgs] at htsecs; exact absurd htsecs (by simp)
    | str s => rw [hgs] at htsecs; exact absurd htsecs (by simp)
    | obj gs => rw [hgs] at htsecs; exact absurd htsecs (by simp)
  | undef => exact absurd ht (by simp [Repair.trimmedPage])
  | null => exact absurd ht (by simp [Repair.trimmedPage])
  | bool b => exact absurd ht (by simp [Repair.trimmedPage])
  | num n => exact absurd ht (by simp [Repair.trimmedPage])
  | str s => exact absurd ht (by simp [Repair.trimmedPage])
  | arr ys => exact absurd ht (by simp [Repair.trimmedPage])

theorem trimmedSection_sectionOk {sv : Val} (h : Repair.trimmedSection sv = true) :
    Repair.sectionOk sv = true := by
  cases sv with
  | obj fss =>
    simp only [Repair.trimmedSection, Bool.and_eq_true] at h
    obtain ⟨⟨⟨-, htkind⟩, -⟩, -⟩ := h
    have := (trimmedStr_strMissing htkind).1
    simp [Repair.sectionOk, this]
  | undef => exact absurd h (by simp [Repair.trimmedSection])
  | null => exact absurd h (by simp [Repair.trimmedSection])
  | bool b => exact absurd h (by simp [Repair.trimmedSection])
  | num n => exact absurd h (by simp [Repair.trimmedSection])
  | str s => exact absurd h (by simp [Repair.trimmedSection])
  | arr ys => exact absurd h (by simp [Repair.trimmedSection])

theorem trimmedPage_pageOk {pv : Val} (h : Repair.trimmedPage pv = true) :
    Repair.pageOk pv = true := by
  cases pv with
  | obj fs =>
    simp only [Repair.trimmedPage, Bool.and_eq_true] at h
    obtain ⟨⟨⟨-, -⟩, -⟩, htsecs⟩ := h
    cases hgs : Val.getF (.obj fs) "sections".data with
    | arr ss =>
      rw [hgs] at htsecs
      have : ss.all Repair.sectionOk = true :=
        List.all_eq_true.mpr fun x hx =>
          trimmedSection_sectionOk (List.all_eq_true.mp htsecs x hx)
      simp [Repair.pageOk, hgs, this]
    | undef => rw [hgs] at htsecs; exact absurd htsecs (by simp)
    | null => rw [hgs] at htsecs; exact absurd htsecs (by simp)
    | bool b => rw [hgs] at htsecs; exact absurd htsecs (by simp)
    | num n => rw [hgs] at htsecs; exact absurd htsecs (by simp)
    | str s => rw [hgs] at htsecs; exact absurd htsecs (by simp)
    | obj gs => rw [hgs] at htsecs; exact absurd htsecs (by simp)
  | undef => exact absurd h (by simp [Repair.trimmedPage])
  | null => exact absurd h (by simp [Repair.trimmedPage])
  | bool b => exact absurd h (by simp [Repair.trimmedPage])
  | num n => exact absurd h (by simp [Repair.trimmedPage])
  | str s => exact absurd h (by simp [Repair.trimmedPage])
  | arr ys => exact absurd h (by simp [Repair.trimmedPage])

theorem trimmedSpecInput_amendedOk {v : Val} (h : Repair.trimmedSpecInput v = true) :
    Repair.amendedOk v = true := by
  cases v with
  | obj fs =>
    simp only [Repair.trimmedSpecInput, Bool.and_eq_true] at h
    obtain ⟨⟨⟨⟨⟨htname, -⟩, -⟩, -⟩, -⟩, htpages⟩ := h
    have hmname := (trimmedStr_strMissing htname).1
    cases hgp : Val.getF (.obj fs) "pages".data with
    | arr xs =>
      rw [hgp] at htpages
      cases xs with
      | nil => exact absurd htpages (by simp)
      | cons p ps =>
        have : (p :: ps).all Repair.pageOk = true :=
          List.all_eq_true.mpr fun x hx =>
            trimmedPage_pageOk (List.all_eq_true.mp htpages x hx)
        simp [Repair.amendedOk, hmname, hgp, this]
    | undef => rw [hgp] at htpages; exact absurd htpages (by simp)
    | null => rw [hgp] at htpages; exact absurd htpages (by simp)
    | bool b => rw [hgp] at htpages; exact absurd htpages (by simp)
    | num n => rw [hgp] at htpages; exact absurd htpages (by simp)
    | str s => rw [hgp] at htpages; exact absurd htpages (by simp)
    | obj gs => rw [hgp] at htpages; exact absurd htpages (by simp)
  | undef => exact absurd h (by simp [Repair.trimmedSpecInput])
  | null => exact absurd h (by simp [Repair.trimmedSpecInput])
  | bool b => exact absurd h (by simp [Repair.trimmedSpecInput])
  | num n => exact absurd h (by simp [Repair.trimmedSpecInput])
  | str s => exact absurd h (by simp [Repair.trimmedSpecInput])
  | arr ys => exact absurd h (by simp [Repair.trimmedSpecInput])


/-- **C4 (amended).** For every spec value that `validate` accepts AND
whose provided string fields are already trimmed (trim-idempotent and
non-empty, with variants well-typed strings, contents plain objects, and
a truthy architecture when present), `repair` succeeds and returns a spec
content-equivalent to its input: name, slug, description, theme, page
ids/names/routes and section ids/kinds/variants/contents all come back
verbatim, and absent optional fields stay absent (nothing fabricated).
The trimming hypothesis is necessary: the original claim, quantified over
all validate-accepted inputs, is refuted by the separate counterexample
(validate accepts untrimmed strings, repair trims them). -/
theorem c4_repair_preserves (v : Val)
    (hvalid : (Validate.validate v).valid = true)
    (htrim : Repair.trimmedSpecInput v = true) :
    ∃ sp, Repair.repair v = .ok sp ∧ Repair.SpecEquiv v sp := by
  obtain ⟨sp, hsp⟩ := (repair_ok_iff_amendedOk v).mpr (trimmedSpecInput_amendedOk htrim)
  refine ⟨sp, hsp, ?_⟩
  obtain ⟨nameRaw, xs, pages, hpName, h1, h2, hpgv, hlen, hmap, hspr⟩ :=
    repair_ok_inversion hsp
  cases v with
  | obj fs =>
    simp only [Repair.trimmedSpecInput, Bool.and_eq_true] at htrim
    obtain ⟨⟨⟨⟨⟨htname, htslug⟩, htdesc⟩, htarch⟩, httheme⟩, htpages⟩ := htrim
    obtain ⟨sname, hgname0, hnametrim, hnamene⟩ := trimmedStr_facts htname
    obtain ⟨sslug, hgslug0, hslugtrim, hslugne⟩ := trimmedStr_facts htslug
    have hgname : Val.getF (.obj fs) "name".data = .str sname := hgname0
    have hgslug : Val.getF (.obj fs) "slug".data = .str sslug := hgslug0
    have htdesc' : (match Val.getF (.obj fs) "description".data with
        | .undef => true | x => Repair.trimmedStr x) = true := htdesc
    have htarch' : (match Val.getF (.obj fs) "architecture".data with
        | .undef => true | x => Val.truthy x) = true := htarch
    have httheme' : (match Val.getF (.obj fs) "theme".data with
        | .undef => true
        | .obj t => Repair.trimmedStr (Val.getF (.obj t) "primaryColor".data) &&
            Repair.trimmedStr (Val.getF (.obj t) "font".data)
        | _ => false) = true := httheme
    have htpages' : (match Val.getF (.obj fs) "pages".data with
        | .arr (p :: ps) => (p :: ps).all Repair.trimmedPage
        | _ => false) = true := htpages
    have hnr : nameRaw = .str sname := by
      have hgp : Val.getProp (.obj fs) "name".data
          = some (Val.getF (.obj fs) "name".data) := rfl
      rw [hgp, hgname] at hpName
      simpa using hpName.symm
    subst hnr
    subst hspr
    have hms : Repair.strMissing (Val.str sslug) = false := by
      simp [Repair.strMissing, Val.truthy, Val.jsTypeof, Val.strOf, hslugtrim, hslugne]
    refine ⟨?_, ?_, ?_, ?_, ?_, ?_, ?_, ?_, ?_⟩
    · rw [hgname]
      simp [Val.strOf, hnametrim]
    · rw [hgslug]
      simp [hms, Val.strOf, hslugtrim]
    · intro d hd
      have hd' : Val.getF (.obj fs) "description".data = .str d := hd
      rw [hd'] at htdesc'
      simp only [Repair.trimmedStr, Bool.and_eq_true, decide_eq_true_eq] at htdesc'
      obtain ⟨hdtrim, hdne⟩ := htdesc'
      simp only [hd']
      simp [Val.truthy, Val.jsTypeof, Val.strOf, hdne, hdtrim]
    · intro hd
      have hd' : Val.getF (.obj fs) "description".data = .undef := hd
      simp only [hd']
      simp [Val.truthy]
    · intro hne
      have hne' : Val.getF (.obj fs) "architecture".data ≠ .undef := hne
      cases harchv : Val.getF (.obj fs) "architecture".data with
      | undef => exact absurd harchv hne'
      | null => rw [harchv] at htarch'; exact absurd htarch' (by simp [Val.truthy])
      | bool b =>
        rw [harchv] at htarch'
        simp only [harchv]
        simp [Val.truthy] at htarch'
        simp [Val.truthy, htarch']
      | num n =>
        rw [harchv] at htarch'
        simp only [harchv]
        simp [Val.truthy] at htarch'
        simp [Val.truthy, htarch']
      | str s =>
        rw [harchv] at htarch'
        simp only [harchv]
        simp [Val.truthy] at htarch'
        simp [Val.truthy, htarch']
      | arr ys =>
        simp only [harchv]
        simp [Val.truthy]
      | obj gs =>
        simp only [harchv]
        simp [Val.truthy]
    · intro hd
      have hd' : Val.getF (.obj fs) "architecture".data = .undef := hd
      simp only [hd']
      simp [Val.truthy]
    · intro t ht
      have ht' : Val.getF (.obj fs) "theme".data = .obj t := ht
      rw [ht'] at httheme'
      simp only [Bool.and_eq_true] at httheme'
      obtain ⟨htpc, htfont⟩ := httheme'
      obtain ⟨spc, hgpc0, hpctrim, hpcne⟩ := trimmedStr_facts htpc
      obtain ⟨sfont, hgfont0, hfonttrim, hfontne⟩ := trimmedStr_facts htfont
      have hgpc : Val.getF (.obj t) "primaryColor".data = .str spc := hgpc0
      have hgfont : Val.getF (.obj t) "font".data = .str sfont := hgfont0
      simp only [ht']
      rw [if_pos (by rw [hgpc, hgfont]
                     simp [Val.truthy, Val.jsTypeof, Val.isNull, Val.strOf, hpcne, hfontne])]
      rw [hgpc, hgfont]
      simp [Val.strOf, hpctrim, hfonttrim]
    · intro hd
      have hd' : Val.getF (.obj fs) "theme".data = .undef := hd
      simp only [hd']
      simp [Val.truthy]
    · intro xs' hx
      have hx' : Val.getF (.obj fs) "pages".data = .arr xs' := hx
      rw [hpgv] at hx'
      obtain rfl : xs = xs' := by simpa using hx'
      rw [hpgv] at htpages'
      cases xs with
      | nil => exact absurd hlen (by simp)
      | cons p ps =>
        obtain ⟨hplen, hpget⟩ := mapIdxM_ok_get (p :: ps) 0 pages hmap
        refine ⟨hplen, ?_⟩
        intro i pv hpv
        obtain ⟨pc, hpc, hpcget⟩ := hpget i pv hpv
        have hpc' : Repair.repairPage i pv = .ok pc := by simpa using hpc
        have htpv : Repair.trimmedPage pv = true :=
          List.all_eq_true.mp htpages' pv (List.getElem?_mem hpv)
        exact ⟨pc, hpcget, repairPage_preserves htpv hpc'⟩
  | undef => exact absurd htrim (by simp [Repair.trimmedSpecInput])
  | null => exact absurd htrim (by simp [Repair.trimmedSpecInput])
  | bool b => exact absurd htrim (by simp [Repair.trimmedSpecInput])
  | num n => exact absurd htrim (by simp [Repair.trimmedSpecInput])
  | str s => exact absurd htrim (by simp [Repair.trimmedSpecInput])
  | arr ys => exact absurd htrim (by simp [Repair.trimmedSpecInput])

def c4V : Val :=
  .obj [("name".data, .str "A ".data),
        ("slug".data, .str "a".data),
        ("pages".data, .arr [.obj [("id".data, .str "p1".data),
                                   ("name".data, .str "Home".data),
                                   ("route".data, .str "/".data),
                                   ("sections".data, .arr [])]])]

def c4Spec : Repair.WebsiteSpec :=
  { name := "A".data, slug := "a".data, description := none, architecture := none,
    theme := none,
    pages := [{ id := "p1".data, name := "Home".data, route := "/".data,
                sections := [] }] }

/-- **C4 (counterexample).** The spec value with name `"A "` passes
`validate` (valid = true) yet `repair` does not return it
content-equivalent: the provided name comes back trimmed to `"A"`, an
alteration of a provided value that is not the addition of a default. -/
theorem c4_counterexample :
    (Validate.validate c4V).valid = true ∧
    Val.getF c4V "name".data = .str "A ".data ∧
    Repair.repair c4V = .ok c4Spec ∧ c4Spec.name ≠ "A ".data :=
  ⟨by decide, by rfl, by rfl, by decide⟩

def c4W : Val :=
  .obj [("name".data, .str "A".data),
        ("slug".data, .str "a".data),
        ("pages".data, .arr [.obj [("id".data, .str "p1".data),
                                   ("name".data, .str "Home".data),
                                   ("route".data, .str "/".data),
                                   ("sections".data, .arr [])]])]

/-- Witness for C4 at a concrete fully-trimmed valid spec. -/
theorem c4_repair_preserves_witness :
    (Validate.validate c4W).valid = true ∧ Repair.trimmedSpecInput c4W = true ∧
    ∃ sp, Repair.repair c4W = .ok sp ∧ Repair.SpecEquiv c4W sp :=
  ⟨by decide, by decide, c4_repair_preserves c4W (by decide) (by decide)⟩

/-! ## Claim C10 — repair output passes validate -/

theorem dropWhile_eq_self_of_head {p : Char → Bool} {s : Str}
    (h : ∀ c, s.head? = some c → p c = false) : s.dropWhile p = s := by
  cases s with
  | nil => rfl
  | cons a rest => rw [List.dropWhile_cons, if_neg (by simp [h a rfl])]

theorem dropWhile_head_not {p : Char → Bool} :
    ∀ (s : Str) (c : Char), (s.dropWhile p).head? = some c → p c = false := by
  intro s
  induction s with
  | nil => intro c h; simp at h
  | cons a rest ih =>
    intro c h
    by_cases hp : p a = true
    · rw [List.dropWhile_cons, if_pos hp] at h
      exact ih c h
    · rw [List.dropWhile_cons, if_neg hp] at h
      obtain rfl : a = c := by simpa using h
      simpa using hp

theorem dropWhile_getLast_eq {p : Char → Bool} :
    ∀ (s : Str), s.dropWhile p ≠ [] → (s.dropWhile p).getLast? = s.getLast? := by
  intro s
  induction s with
  | nil => intro h; exact absurd rfl h
  | cons a rest ih =>
    intro h
    by_cases hp : p a = true
    · rw [List.dropWhile_cons, if_pos hp] at h ⊢
      rw [ih h]
      cases rest with
      | nil => exact absurd rfl h
      | cons b t => exact (List.getLast?_cons_cons).symm
    · rw [List.dropWhile_cons, if_neg hp]

theorem mem_dropWhile_of_not {p : Char → Bool} {c : Char} :
    ∀ {s : Str}, c ∈ s → p c = false → c ∈ s.dropWhile p := by
  intro s
  induction s with
  | nil => intro h _; simp at h
  | cons a rest ih =>
    intro h hp
    by_cases ha : p a = true
    · rw [List.dropWhile_cons, if_pos ha]
      have : c ≠ a := fun hca => by rw [hca] at hp; rw [hp] at ha; cases ha
      exact ih (by simpa [this] using h) hp
    · rw [List.dropWhile_cons, if_neg ha]
      exact h

theorem dropWhile_eq_nil_all {p : Char → Bool} :
    ∀ {s : Str}, s.dropWhile p = [] → ∀ c ∈ s, p c = true := by
  intro s
  induction s with
  | nil => intro _ c h; simp at h
  | cons a rest ih =>
    intro h c hc
    by_cases ha : p a = true
    · rw [List.dropWhile_cons, if_pos ha] at h
      rcases (by simpa using hc : c = a ∨ c ∈ rest) with rfl | hr
      · exact ha
      · exact ih h c hr
    · rw [List.dropWhile_cons, if_neg ha] at h
      cases h

theorem jsTrim_ne_nil {s : Str} {c : Char} (hc : c ∈ s)
    (hp : JsStr.isJsSpace c = false) : JsStr.jsTrim s ≠ [] := by
  intro h
  unfold JsStr.jsTrim at h
  rw [List.reverse_eq_nil_iff] at h
  have h1 : c ∈ s.dropWhile JsStr.isJsSpace := mem_dropWhile_of_not hc hp
  have h2 : c ∈ (s.dropWhile JsStr.isJsSpace).reverse := by simpa using h1
  have := dropWhile_eq_nil_all h c h2
  rw [this] at hp
  cases hp

theorem jsTrim_eq_self_of_ends {t : Str}
    (h1 : ∀ c, t.head? = some c → JsStr.isJsSpace c = false)
    (h2 : ∀ c, t.getLast? = some c → JsStr.isJsSpace c = false) :
    JsStr.jsTrim t = t := by
  unfold JsStr.jsTrim
  rw [dropWhile_eq_self_of_head h1]
  rw [dropWhile_eq_self_of_head (fun c hc => h2 c (by simpa using hc))]
  exact List.reverse_reverse t

theorem jsTrim_idem (s : Str) : JsStr.jsTrim (JsStr.jsTrim s) = JsStr.jsTrim s := by
  apply jsTrim_eq_self_of_ends
  · intro c hc
    rw [show JsStr.jsTrim s =
        (((s.dropWhile JsStr.isJsSpace).reverse.dropWhile JsStr.isJsSpace).reverse)
      from rfl] at hc
    rw [List.head?_reverse] at hc
    have hne : (s.dropWhile JsStr.isJsSpace).reverse.dropWhile JsStr.isJsSpace ≠ [] := by
      intro h0
      rw [h0] at hc
      simp at hc
    rw [dropWhile_getLast_eq _ hne] at hc
    rw [List.getLast?_reverse] at hc
    exact dropWhile_head_not s c hc
  · intro c hc
    rw [show JsStr.jsTrim s =
        (((s.dropWhile JsStr.isJsSpace).reverse.dropWhile JsStr.isJsSpace).reverse)
      from rfl] at hc
    rw [List.getLast?_reverse] at hc
    exact dropWhile_head_not _ c hc

theorem jsTrim_ne_nil_of_ne {s : Str} (h : JsStr.jsTrim s ≠ []) : s ≠ [] := by
  intro h0
  rw [h0] at h
  exact h rfl

theorem strMissing_false_trim {x : Val} (h : Repair.strMissing x = false) :
    JsStr.jsTrim (Val.strOf x) ≠ [] := by
  simp only [Repair.strMissing, Bool.or_eq_false_iff] at h
  simpa using h.2

theorem validateSection_toVal (i j : Nat) (sc : Repair.SectionConfig)
    (hid : JsStr.jsTrim sc.id ≠ []) (hkind : JsStr.jsTrim sc.kind ≠ []) :
    Validate.validateSection i j (Repair.sectionToVal sc) = [] := by
  have hid0 : sc.id ≠ [] := jsTrim_ne_nil_of_ne hid
  have hkind0 : sc.kind ≠ [] := jsTrim_ne_nil_of_ne hkind
  have hgid : Val.getF (Repair.sectionToVal sc) "id".data = .str sc.id := rfl
  have hgkind : Val.getF (Repair.sectionToVal sc) "kind".data = .str sc.kind := rfl
  have htr : Val.truthy (Repair.sectionToVal sc) = true := rfl
  have hty : Val.jsTypeof (Repair.sectionToVal sc) = "object".data := rfl
  cases hv : sc.variant with
  | some t =>
    cases hc : sc.content with
    | some cf =>
      have hgv : Val.getF (Repair.sectionToVal sc) "variant".data = .str t := by
        simp [Repair.sectionToVal, hv, hc, Val.getF]
      have hgc : Val.getF (Repair.sectionToVal sc) "content".data = .obj cf := by
        simp [Repair.sectionToVal, hv, hc, Val.getF]
      simp [Validate.validateSection, Repair.sectionToVal, hv, hc, Val.getF,
        Validate.strFieldInvalid, Val.truthy, Val.jsTypeof, Val.strOf, Val.isUndef,
        hid0, hkind0, hid, hkind]
    | none =>
      have hgv : Val.getF (Repair.sectionToVal sc) "variant".data = .str t := by
        simp [Repair.sectionToVal, hv, hc, Val.getF]
      have hgc : Val.getF (Repair.sectionToVal sc) "content".data = .undef := by
        simp [Repair.sectionToVal, hv, hc, Val.getF]
      simp [Validate.validateSection, Repair.sectionToVal, hv, hc, Val.getF,
        Validate.strFieldInvalid, Val.truthy, Val.jsTypeof, Val.strOf, Val.isUndef,
        hid0, hkind0, hid, hkind]
  | none =>
    cases hc : sc.content with
    | some cf =>
      have hgv : Val.getF (Repair.sectionToVal sc) "variant".data = .undef := by
        simp [Repair.sectionToVal, hv, hc, Val.getF]
      have hgc : Val.getF (Repair.sectionToVal sc) "content".data = .obj cf := by
        simp [Repair.sectionToVal, hv, hc, Val.getF]
      simp [Validate.validateSection, Repair.sectionToVal, hv, hc, Val.getF,
        Validate.strFieldInvalid, Val.truthy, Val.jsTypeof, Val.strOf, Val.isUndef,
        hid0, hkind0, hid, hkind]
    | none =>
      have hgv : Val.getF (Repair.sectionToVal sc) "variant".data = .undef := by
        simp [Repair.sectionToVal, hv, hc, Val.getF]
      have hgc : Val.getF (Repair.sectionToVal sc) "content".data = .undef := by
        simp [Repair.sectionToVal, hv, hc, Val.getF]
      simp [Validate.validateSection, Repair.sectionToVal, hv, hc, Val.getF,
        Validate.strFieldInvalid, Val.truthy, Val.jsTypeof, Val.strOf, Val.isUndef,
        hid0, hkind0, hid, hkind]

theorem enumFrom_map_flatten_nil {α : Type} (g : Nat → α → List String) :
    ∀ (l : List α) (k : Nat), (∀ x ∈ l, ∀ i, g i x = []) →
      ((l.enumFrom k).map (fun p => g p.1 p.2)).flatten = [] := by
  intro l
  induction l with
  | nil => intro k _; rfl
  | cons a rest ih =>
    intro k h
    simp only [List.enumFrom, List.map, List.flatten]
    rw [h a (by simp) k]
    rw [ih (k + 1) (fun x hx i => h x (by simp [hx]) i)]
    rfl

theorem validatePage_toVal (i : Nat) (pc : Repair.PageConfig)
    (hid : JsStr.jsTrim pc.id ≠ []) (hname : JsStr.jsTrim pc.name ≠ [])
    (hroute : JsStr.jsTrim pc.route ≠ [])
    (hsecs : ∀ sc ∈ pc.sections, JsStr.jsTrim sc.id ≠ [] ∧ JsStr.jsTrim sc.kind ≠ []) :
    Validate.validatePage i (Repair.pageToVal pc) = [] := by
  have hid0 : pc.id ≠ [] := jsTrim_ne_nil_of_ne hid
  have hname0 : pc.name ≠ [] := jsTrim_ne_nil_of_ne hname
  have hroute0 : pc.route ≠ [] := jsTrim_ne_nil_of_ne hroute
  have hsrest : (((pc.sections.map Repair.sectionToVal).enum.map
      (fun p => Validate.validateSection i p.1 p.2)).flatten) = [] := by
    rw [show (pc.sections.map Repair.sectionToVal).enum
        = (pc.sections.map Repair.sectionToVal).enumFrom 0 from rfl]
    apply enumFrom_map_flatten_nil
    intro x hx j
    obtain ⟨sc, hsc, rfl⟩ := List.mem_map.mp hx
    exact validateSection_toVal i j sc (hsecs sc hsc).1 (hsecs sc hsc).2
  simp [Validate.validatePage, Repair.pageToVal, Val.getF,
    Validate.strFieldInvalid, Val.truthy, Val.jsTypeof, Val.strOf, Val.isUndef,
    hid0, hname0, hroute0, hid, hname, hroute, hsrest]

theorem validate_specToVal (sp : Repair.WebsiteSpec)
    (hname : JsStr.jsTrim sp.name ≠ []) (hslug : JsStr.jsTrim sp.slug ≠ [])
    (harch : ∀ a, sp.architecture = some a → Validate.archIncluded a = true)
    (htheme : ∀ pf, sp.theme = some pf → pf.1 ≠ [] ∧ pf.2 ≠ [])
    (hpages : sp.pages ≠ [])
    (hpage : ∀ pc ∈ sp.pages, JsStr.jsTrim pc.id ≠ [] ∧ JsStr.jsTrim pc.name ≠ [] ∧
      JsStr.jsTrim pc.route ≠ [] ∧
      ∀ sc ∈ pc.sections, JsStr.jsTrim sc.id ≠ [] ∧ JsStr.jsTrim sc.kind ≠ []) :
    Validate.validate (Repair.specToVal sp) = { valid := true, errors := [] } := by
  have hname0 : sp.name ≠ [] := jsTrim_ne_nil_of_ne hname
  have hslug0 : sp.slug ≠ [] := jsTrim_ne_nil_of_ne hslug
  have hprest : (((sp.pages.map Repair.pageToVal).enum.map
      (fun p => Validate.validatePage p.1 p.2)).flatten) = [] := by
    rw [show (sp.pages.map Repair.pageToVal).enum
        = (sp.pages.map Repair.pageToVal).enumFrom 0 from rfl]
    apply enumFrom_map_flatten_nil
    intro x hx j
    obtain ⟨pc, hpc, rfl⟩ := List.mem_map.mp hx
    obtain ⟨q1, q2, q3, q4⟩ := hpage pc hpc
    exact validatePage_toVal j pc q1 q2 q3 q4
  cases hd : sp.description <;> cases ha : sp.architecture <;> cases hth : sp.theme <;>
    simp [Validate.validate, Repair.specToVal, hd, ha, hth, Val.getF,
      Validate.strFieldInvalid, Val.truthy, Val.jsTypeof, Val.strOf, Val.isUndef,
      Val.isNull, hname0, hslug0, hname, hslug, hpages, hprest, harch, htheme,
      List.length_eq_zero]

theorem repairPage_ok_sections_nil {i : Nat} {pv : Val} {pc : Repair.PageConfig}
    (h : Repair.repairPage i pv = .ok pc)
    (hna : ∀ ss, Val.getF pv "sections".data ≠ .arr ss) :
    pc.sections = [] := by
  cases pv with
  | undef => exact absurd h (by simp [Repair.repairPage, Val.getProp])
  | null => exact absurd h (by simp [Repair.repairPage, Val.getProp])
  | bool b =>
    simp only [Repair.repairPage, Val.getProp, Val.getF, Bind.bind, Except.bind,
      Except.ok.injEq] at h
    rw [← h]
  | num n =>
    simp only [Repair.repairPage, Val.getProp, Val.getF, Bind.bind, Except.bind,
      Except.ok.injEq] at h
    rw [← h]
  | str s =>
    simp only [Repair.repairPage, Val.getProp, Val.getF, Bind.bind, Except.bind,
      Except.ok.injEq] at h
    rw [← h]
  | arr ys =>
    simp only [Repair.repairPage, Val.getProp, Val.getF, Bind.bind, Except.bind,
      Except.ok.injEq] at h
    rw [← h]
  | obj fs =>
    rw [Repair.repairPage] at h
    dsimp only [Val.getProp] at h
    cases hgs : Val.getF (.obj fs) "sections".data with
    | arr ss => exact absurd hgs (hna ss)
    | undef =>
      rw [hgs] at h
      simp only [Bind.bind, Except.bind, Except.ok.injEq] at h
      rw [← h]
    | null =>
      rw [hgs] at h
      simp only [Bind.bind, Except.bind, Except.ok.injEq] at h
      rw [← h]
    | bool b =>
      rw [hgs] at h
      simp only [Bind.bind, Except.bind, Except.ok.injEq] at h
      rw [← h]
    | num n =>
      rw [hgs] at h
      simp only [Bind.bind, Except.bind, Except.ok.injEq] at h
      rw [← h]
    | str s =>
      rw [hgs] at h
      simp only [Bind.bind, Except.bind, Except.ok.injEq] at h
      rw [← h]
    | obj gs =>
      rw [hgs] at h
      simp only [Bind.bind, Except.bind, Except.ok.injEq] at h
      rw [← h]

theorem sectionOk_kind {sv : Val} (h : Repair.sectionOk sv = true) :
    Repair.strMissing (Val.getF sv "kind".data) = false := by
  cases sv <;> simp [Repair.sectionOk] at h <;> exact h

theorem repairSection_ok_facts {i : Nat} {pid : Str} {j : Nat} {sv : Val}
    {sc : Repair.SectionConfig} (h : Repair.repairSection i pid j sv = .ok sc) :
    JsStr.jsTrim sc.id ≠ [] ∧ JsStr.jsTrim sc.kind ≠ [] := by
  obtain ⟨hid, hkind, -, -⟩ := repairSection_ok_record h
  have hok : Repair.sectionOk sv = true := (repairSection_ok_iff i pid j sv).mp ⟨sc, h⟩
  have hkm : Repair.strMissing (Val.getF sv "kind".data) = false := sectionOk_kind hok
  constructor
  · rw [hid]
    by_cases hm : Repair.strMissing (Val.getF sv "id".data) = true
    · rw [if_pos hm]
      exact jsTrim_ne_nil (c := 's') (by simp [Repair.generateId]) (by decide)
    · rw [if_neg hm]
      rw [jsTrim_idem]
      exact strMissing_false_trim (by simpa using hm)
  · rw [hkind, jsTrim_idem]
    exact strMissing_false_trim hkm

theorem repairPage_ok_facts {i : Nat} {pv : Val} {pc : Repair.PageConfig}
    (h : Repair.repairPage i pv = .ok pc) :
    JsStr.jsTrim pc.id ≠ [] ∧ JsStr.jsTrim pc.route ≠ [] ∧
    (∀ sc ∈ pc.sections, JsStr.jsTrim sc.id ≠ [] ∧ JsStr.jsTrim sc.kind ≠ []) := by
  obtain ⟨hid, hname, hroute, hsecs⟩ := repairPage_ok_inversion h
  refine ⟨?_, ?_, ?_⟩
  · rw [hid]
    by_cases hm : Repair.strMissing (Val.getF pv "id".data) = true
    · rw [if_pos hm]
      exact jsTrim_ne_nil (c := 'p') (by simp [Repair.generateId]) (by decide)
    · rw [if_neg hm]
      rw [jsTrim_idem]
      exact strMissing_false_trim (by simpa using hm)
  · rw [hroute]
    by_cases hm : Repair.strMissing (Val.getF pv "route".data) = true
    · rw [if_pos hm]
      by_cases hi : i = 0
      · rw [if_pos hi]
        decide
      · rw [if_neg hi]
        exact jsTrim_ne_nil (c := '/') (by simp) (by decide)
    · rw [if_neg hm]
      rw [jsTrim_idem]
      exact strMissing_false_trim (by simpa using hm)
  · intro sc hsc
    cases hgs : Val.getF pv "sections".data with
    | arr ss =>
      have hmap := hsecs ss hgs
      obtain ⟨j, hj⟩ := List.mem_iff_getElem?.mp hsc
      obtain ⟨hlen, hget⟩ := mapIdxM_ok_get ss 0 pc.sections hmap
      have hjlt : j < ss.length := by
        rw [← hlen]
        exact (List.getElem?_eq_some.mp hj).1
      obtain ⟨y, hy, hyget⟩ := hget j ss[j] (List.getElem?_eq_getElem hjlt)
      obtain rfl : y = sc := by
        rw [hyget] at hj
        simpa using hj
      exact repairSection_ok_facts hy
    | undef =>
      have hnil : pc.sections = [] :=
        repairPage_ok_sections_nil h (fun ss h' => by rw [hgs] at h'; cases h')
      rw [hnil] at hsc
      simp at hsc
    | null =>
      have hnil : pc.sections = [] :=
        repairPage_ok_sections_nil h (fun ss h' => by rw [hgs] at h'; cases h')
      rw [hnil] at hsc
      simp at hsc
    | bool b =>
      have hnil : pc.sections = [] :=
        repairPage_ok_sections_nil h (fun ss h' => by rw [hgs] at h'; cases h')
      rw [hnil] at hsc
      simp at hsc
    | num n =>
      have hnil : pc.sections = [] :=
        repairPage_ok_sections_nil h (fun ss h' => by rw [hgs] at h'; cases h')
      rw [hnil] at hsc
      simp at hsc
    | str s =>
      have hnil : pc.sections = [] :=
        repairPage_ok_sections_nil h (fun ss h' => by rw [hgs] at h'; cases h')
      rw [hnil] at hsc
      simp at hsc
    | obj gs =>
      have hnil : pc.sections = [] :=
        repairPage_ok_sections_nil h (fun ss h' => by rw [hgs] at h'; cases h')
      rw [hnil] at hsc
      simp at hsc

/-- **C10 (amended).** For every input on which `repair` returns without
throwing, the returned spec passes `validate` (valid = true, empty error
list) PROVIDED the four aspects `repair` does not actually guarantee hold:
the returned slug is non-blank after trimming, any carried-over
architecture value is one of the registered presets, the carried-over
theme strings are non-empty, and every page name is non-blank after
trimming.  Each proviso is necessary — the separate counterexample shows
a repair output that validate rejects (a bogus architecture is spread
through untouched); an all-separator name gives an empty derived slug, a
whitespace theme string trims to empty, and an underscore-only page id
title-cases to a blank page name, failing validate the same way. -/
theorem c10_repair_validate_roundtrip (v : Val) (sp : Repair.WebsiteSpec)
    (h : Repair.repair v = .ok sp)
    (hslug : JsStr.jsTrim sp.slug ≠ [])
    (harch : ∀ a, sp.architecture = some a → Validate.archIncluded a = true)
    (htheme : ∀ pf, sp.theme = some pf → pf.1 ≠ [] ∧ pf.2 ≠ [])
    (hnames : ∀ pc ∈ sp.pages, JsStr.jsTrim pc.name ≠ []) :
    Validate.validate (Repair.specToVal sp) = { valid := true, errors := [] } := by
  obtain ⟨nameRaw, xs, pages, hpName, h1, h2, hpgv, hlen, hmap, hspr⟩ :=
    repair_ok_inversion h
  have hspname : sp.name = JsStr.jsTrim (Val.strOf nameRaw) := by rw [hspr]
  have hsppages : sp.pages = pages := by rw [hspr]
  obtain ⟨hplen, hget⟩ := mapIdxM_ok_get xs 0 pages hmap
  apply validate_specToVal sp _ hslug harch htheme
  · rw [hsppages]
    intro h0
    rw [h0] at hplen
    simp only [List.length_nil] at hplen
    rw [← hplen] at hlen
    exact absurd hlen (by simp)
  · intro pc hpc
    have hpc' : pc ∈ pages := hsppages ▸ hpc
    obtain ⟨j, hj⟩ := List.mem_iff_getElem?.mp hpc'
    have hjlt : j < xs.length := by
      rw [← hplen]
      exact (List.getElem?_eq_some.mp hj).1
    obtain ⟨y, hy, hyget⟩ := hget j xs[j] (List.getElem?_eq_getElem hjlt)
    obtain rfl : pc = y := by
      rw [hyget] at hj
      simpa using hj.symm
    obtain ⟨f1, f2, f3⟩ := repairPage_ok_facts hy
    exact ⟨f1, hnames pc hpc, f2, f3⟩
  · rw [hspname, jsTrim_idem]
    exact h2

def c10V : Val :=
  .obj [("name".data, .str "A".data),
        ("architecture".data, .str "bogus".data),
        ("pages".data, .arr [.obj []])]

def c10VSpec : Repair.WebsiteSpec :=
  { name := "A".data, slug := "a".data, description := none,
    architecture := some (.str "bogus".data), theme := none,
    pages := [{ id := "page_1".data, name := "Page 1".data, route := "/".data,
                sections := [] }] }

/-- **C10 (counterexample).** `repair` succeeds on a spec whose
architecture is the unregistered string `"bogus"` — the architecture is
spread through untouched — and `validate` rejects the returned spec with
a non-empty error list, refuting the unconditional round-trip claim. -/
theorem c10_counterexample :
    Repair.repair c10V = .ok c10VSpec ∧
    (Validate.validate (Repair.specToVal c10VSpec)).valid = false ∧
    (Validate.validate (Repair.specToVal c10VSpec)).errors ≠ [] :=
  ⟨by rfl, by decide, by decide⟩

def c10W : Val :=
  .obj [("name".data, .str "My Site".data),
        ("architecture".data, .str "landing".data),
        ("pages".data, .arr [.obj [("sections".data,
          .arr [.obj [("kind".data, .str "hero".data)]])]])]

def c10WPage : Repair.PageConfig :=
  { id := "page_1".data, name := "Page 1".data, route := "/".data,
    sections := [{ id := "sec_page_1_1".data, kind := "hero".data,
                   variant := none, content := none }] }

def c10WSpec : Repair.WebsiteSpec :=
  { name := "My Site".data, slug := "my-site".data, description := none,
    architecture := some (.str "landing".data), theme := none,
    pages := [c10WPage] }

/-- Witness for C10 at a concrete input whose repaired spec satisfies the
four provisos. -/
theorem c10_roundtrip_witness :
    Repair.repair c10W = .ok c10WSpec ∧
    Validate.validate (Repair.specToVal c10WSpec) = { valid := true, errors := [] } :=
  ⟨by rfl,
   c10_repair_validate_roundtrip c10W c10WSpec (by rfl)
     (by decide)
     (by intro a ha
         obtain rfl : Val.str "landing".data = a := by simpa [c10WSpec] using ha
         decide)
     (by intro pf hpf
         simp [c10WSpec] at hpf)
     (by intro pc hpc
         obtain rfl : pc = c10WPage := by simpa [c10WSpec] using hpc
         decide)⟩

/-! ## Claim C1 — unknown component kinds and variants -/

theorem importsFold_ok_all (styleOf : Str → PageGen.ExportStyle)
    (arch : PageGen.ArchitecturePreset) :
    ∀ (secs : List Repair.SectionConfig) (acc : List (Str × Str)),
      (∀ sec ∈ secs, ∃ nm,
        PageGen.getSectionComponentName sec.kind sec.variant = .ok nm) →
      ∃ r, PageGen.importsFold styleOf arch secs acc = .ok r := by
  intro secs
  induction secs with
  | nil => intro acc _; exact ⟨acc, rfl⟩
  | cons sec rest ih =>
    intro acc hall
    obtain ⟨nm, hnm⟩ := hall sec (by simp)
    have hrest : ∀ s ∈ rest, ∃ n,
        PageGen.getSectionComponentName s.kind s.variant = .ok n :=
      fun s hs => hall s (by simp [hs])
    rw [PageGen.importsFold, hnm]
    simp only [Bind.bind, Except.bind]
    by_cases hl : (PageGen.lookupStr acc nm).isSome = true
    · rw [if_pos hl]
      exact ih acc hrest
    · rw [if_neg hl]
      exact ih _ hrest

theorem importsFold_error (styleOf : Str → PageGen.ExportStyle)
    (arch : PageGen.ArchitecturePreset) :
    ∀ (secs : List Repair.SectionConfig) (acc : List (Str × Str)) (e : PageGen.GenError),
      PageGen.importsFold styleOf arch secs acc = .error e →
      ∃ sec ∈ secs, PageGen.getSectionComponentName sec.kind sec.variant = .error e := by
  intro secs
  induction secs with
  | nil => intro acc e h; exact absurd h (by simp [PageGen.importsFold])
  | cons sec rest ih =>
    intro acc e h
    rw [PageGen.importsFold] at h
    cases hnm : PageGen.getSectionComponentName sec.kind sec.variant with
    | error e0 =>
      rw [hnm] at h
      simp only [Bind.bind, Except.bind, Except.error.injEq] at h
      exact ⟨sec, by simp, by rw [hnm, h]⟩
    | ok nm =>
      rw [hnm] at h
      simp only [Bind.bind, Except.bind] at h
      by_cases hl : (PageGen.lookupStr acc nm).isSome = true
      · rw [if_pos hl] at h
        obtain ⟨s, hs, hse⟩ := ih acc e h
        exact ⟨s, by simp [hs], hse⟩
      · rw [if_neg hl] at h
        obtain ⟨s, hs, hse⟩ := ih _ e h
        exact ⟨s, by simp [hs], hse⟩

theorem mapExceptM_ok_all {E α β : Type} (f : α → Except E β) :
    ∀ (xs : List α), (∀ x ∈ xs, ∃ y, f x = .ok y) →
      ∃ ys, PageGen.mapExceptM f xs = .ok ys := by
  intro xs
  induction xs with
  | nil => intro _; exact ⟨[], rfl⟩
  | cons x rest ih =>
    intro hall
    obtain ⟨y, hy⟩ := hall x (by simp)
    obtain ⟨ys, hys⟩ := ih (fun z hz => hall z (by simp [hz]))
    refine ⟨y :: ys, ?_⟩
    rw [PageGen.mapExceptM, hy]
    simp [Bind.bind, Except.bind, hys]

theorem mapExceptM_error {E α β : Type} (f : α → Except E β) :
    ∀ (xs : List α) (e : E), PageGen.mapExceptM f xs = .error e →
      ∃ x ∈ xs, f x = .error e := by
  intro xs
  induction xs with
  | nil => intro e h; exact absurd h (by simp [PageGen.mapExceptM])
  | cons x rest ih =>
    intro e h
    rw [PageGen.mapExceptM] at h
    cases hx : f x with
    | error e0 =>
      rw [hx] at h
      simp only [Bind.bind, Except.bind, Except.error.injEq] at h
      exact ⟨x, by simp, by rw [hx, h]⟩
    | ok y =>
      rw [hx] at h
      simp only [Bind.bind, Except.bind] at h
      cases hr : PageGen.mapExceptM f rest with
      | error e1 =>
        rw [hr] at h
        simp only [Except.error.injEq] at h
        obtain ⟨z, hz, hze⟩ := ih e1 hr
        exact ⟨z, by simp [hz], by rw [hze, h]⟩
      | ok ys =>
        rw [hr] at h
        exact absurd h (by simp)

theorem lookup_variant_branch {kind vkey : Str} {comp : List (Str × Str)}
    {k vk : Str} {sup : List Str}
    (h : (match PageGen.lookupStr comp vkey with
          | none => Except.error
              (PageGen.GenError.unknownVariant kind vkey (comp.map Prod.fst))
          | some componentName => (.ok componentName : Except PageGen.GenError Str)) =
      .error (.unknownVariant k vk sup)) :
    k = kind ∧ sup = comp.map Prod.fst := by
  cases hv : PageGen.lookupStr comp vkey with
  | none =>
    rw [hv] at h
    simp only [Except.error.injEq, PageGen.GenError.unknownVariant.injEq] at h
    exact ⟨h.1.symm, h.2.2.symm⟩
  | some nm =>
    rw [hv] at h
    exact absurd h (by simp)

theorem getSectionComponentName_unknownVariant {kind : Str} {var : Option Str}
    {k vk : Str} {sup : List Str}
    (h : PageGen.getSectionComponentName kind var =
      .error (.unknownVariant k vk sup)) :
    k = kind ∧ ∃ comp, PageGen.lookupStr PageGen.SECTION_COMPONENTS kind = some comp ∧
      sup = comp.map Prod.fst := by
  unfold PageGen.getSectionComponentName at h
  cases hl : PageGen.lookupStr PageGen.SECTION_COMPONENTS kind with
  | none => rw [hl] at h; simp at h
  | some comp =>
    rw [hl] at h
    dsimp only at h
    cases var with
    | none =>
      obtain ⟨h1, h2⟩ := lookup_variant_branch h
      exact ⟨h1, comp, rfl, h2⟩
    | some v =>
      obtain ⟨h1, h2⟩ := lookup_variant_branch h
      exact ⟨h1, comp, rfl, h2⟩

theorem except_ok_bind {E α β : Type} (a : α) (f : α → Except E β) :
    ((Except.ok a : Except E α) >>= f) = f a := rfl

theorem except_error_bind {E α β : Type} (e : E) (f : α → Except E β) :
    ((Except.error e : Except E α) >>= f) = Except.error e := rfl

/-- **C1 (amended).** With the first page in hand: if every section of the
first page resolves in the component registry, page generation succeeds
(it never throws for this reason); if generation throws, the error is the
resolution error of some section of the first page — so the thrown error
names the offending kind (and, for an unknown variant, the offending
variant key together with the full list of variant keys registered for
that kind, the valid alternatives) — and no page output is produced.  The
correction: only the unknown-variant message lists valid alternatives;
the unknown-kind message names the kind but lists no alternatives (see
the counterexample). -/
theorem c1_unknown_component (spec : PageGen.GenSpec)
    (styleOf : Str → PageGen.ExportStyle) (page : Repair.PageConfig)
    (rest : List Repair.PageConfig) (hp : spec.pages = page :: rest) :
    ((∀ sec ∈ page.sections, ∃ nm,
        PageGen.getSectionComponentName sec.kind sec.variant = .ok nm) →
      ∃ out, PageGen.generate spec styleOf = .ok out) ∧
    (∀ e, PageGen.generate spec styleOf = .error e →
      (∃ sec ∈ page.sections,
        PageGen.getSectionComponentName sec.kind sec.variant = .error e) ∧
      ∀ out, PageGen.generate spec styleOf ≠ .ok out) ∧
    (∀ kind vk sup,
      PageGen.generate spec styleOf = .error (.unknownVariant kind vk sup) →
      ∃ comp, PageGen.lookupStr PageGen.SECTION_COMPONENTS kind = some comp ∧
        sup = comp.map Prod.fst) := by
  have hgen : ∀ e, PageGen.generate spec styleOf = .error e →
      ∃ sec ∈ page.sections,
        PageGen.getSectionComponentName sec.kind sec.variant = .error e := by
    intro e he
    rw [PageGen.generate, hp] at he
    dsimp only at he
    cases himp : PageGen.importsFold styleOf (spec.architecture.getD .landing)
        page.sections [] with
    | error e0 =>
      rw [himp, except_error_bind] at he
      simp only [Except.error.injEq] at he
      exact he ▸ importsFold_error styleOf _ page.sections [] e0 himp
    | ok pairs =>
      rw [himp, except_ok_bind] at he
      cases hbody : PageGen.mapExceptM (fun sec => do
          let componentName ← PageGen.getSectionComponentName sec.kind sec.variant
          .ok (PageGen.renderSection componentName sec.content)) page.sections with
      | error e1 =>
        rw [hbody, except_error_bind] at he
        simp only [Except.error.injEq] at he
        obtain ⟨sec, hsec, hse⟩ := mapExceptM_error _ page.sections e1 hbody
        refine ⟨sec, hsec, ?_⟩
        cases hg : PageGen.getSectionComponentName sec.kind sec.variant with
        | error e2 =>
          rw [hg, except_error_bind] at hse
          simp only [Except.error.injEq] at hse
          rw [hse, he]
        | ok nm =>
          rw [hg, except_ok_bind] at hse
          exact absurd hse (by simp)
      | ok body =>
        rw [hbody, except_ok_bind] at he
        exact absurd he (by simp)
  refine ⟨?_, ?_, ?_⟩
  · intro hall
    obtain ⟨pairs, hpairs⟩ :=
      importsFold_ok_all styleOf (spec.architecture.getD .landing) page.sections [] hall
    obtain ⟨body, hbody⟩ := mapExceptM_ok_all (fun sec => do
        let componentName ← PageGen.getSectionComponentName sec.kind sec.variant
        .ok (PageGen.renderSection componentName sec.content)) page.sections
      (by intro sec hsec
          obtain ⟨nm, hnm⟩ := hall sec hsec
          refine ⟨PageGen.renderSection nm sec.content, ?_⟩
          dsimp only
          rw [hnm, except_ok_bind])
    exact ⟨_, by
      rw [PageGen.generate, hp]
      dsimp only
      rw [hpairs, except_ok_bind]
      rw [hbody, except_ok_bind]⟩
  · intro e he
    refine ⟨hgen e he, ?_⟩
    intro out hout
    rw [he] at hout
    cases hout
  · intro kind vk sup he
    obtain ⟨sec, -, hse⟩ := hgen _ he
    obtain ⟨h1, comp, hl, h2⟩ := getSectionComponentName_unknownVariant hse
    exact ⟨comp, h1 ▸ hl, h2⟩

def c1Page : Repair.PageConfig :=
  { id := "home".data, name := "Home".data, route := "/".data,
    sections := [{ id := "s1".data, kind := "carousel".data,
                   variant := none, content := none }] }

def c1Spec : PageGen.GenSpec :=
  { architecture := none, pages := [c1Page] }

/-- **C1 (counterexample).** A first-page section of the unregistered
kind `"carousel"` makes generation throw the unknown-kind error, whose
message names the offending kind — but, contrary to the claim, lists no
valid alternatives: none of the registered kinds (hero, features,
pricing, footer) appears in the message.  (Only the unknown-variant
message lists alternatives.) -/
theorem c1_counterexample :
    PageGen.generate c1Spec (fun _ => .default) =
      .error (.unknownKind "carousel".data) ∧
    ThemeGen.containsSub "carousel".data
      (PageGen.renderGenError (.unknownKind "carousel".data)) = true ∧
    ThemeGen.containsSub "hero".data
      (PageGen.renderGenError (.unknownKind "carousel".data)) = false ∧
    ThemeGen.containsSub "features".data
      (PageGen.renderGenError (.unknownKind "carousel".data)) = false ∧
    ThemeGen.containsSub "pricing".data
      (PageGen.renderGenError (.unknownKind "carousel".data)) = false ∧
    ThemeGen.containsSub "footer".data
      (PageGen.renderGenError (.unknownKind "carousel".data)) = false :=
  ⟨by rfl, by decide, by decide, by decide, by decide, by decide⟩

def c1OkSec : Repair.SectionConfig :=
  { id := "s1".data, kind := "hero".data, variant := some "split".data,
    content := none }

def c1OkPage : Repair.PageConfig :=
  { id := "home".data, name := "Home".data, route := "/".data,
    sections := [c1OkSec] }

def c1OkSpec : PageGen.GenSpec :=
  { architecture := none, pages := [c1OkPage] }

/-- Witness for C1: a fully-resolvable spec generates successfully. -/
theorem c1_unknown_component_witness :
    ∃ out, PageGen.generate c1OkSpec (fun _ => .default) = .ok out :=
  (c1_unknown_component c1OkSpec (fun _ => .default) c1OkPage [] rfl).1
    (by intro sec hsec
        obtain rfl : sec = c1OkSec := by simpa [c1OkPage] using hsec
        exact ⟨"HeroSplit".data, by rfl⟩)

/-! ## Claim C8 — imports deduplicated and sorted, body in spec order -/

theorem lexLe_total : ∀ (a b : Str),
    PageGen.lexLe a b = true ∨ PageGen.lexLe b a = true := by
  intro a
  induction a with
  | nil => intro b; exact Or.inl rfl
  | cons x xs ih =>
    intro b
    cases b with
    | nil => exact Or.inr rfl
    | cons y ys =>
      rcases lt_trichotomy x y with hlt | heq | hgt
      · exact Or.inl (by simp [PageGen.lexLe, hlt])
      · subst heq
        rcases ih ys with h | h
        · exact Or.inl (by simp [PageGen.lexLe, h])
        · exact Or.inr (by simp [PageGen.lexLe, h])
      · exact Or.inr (by simp [PageGen.lexLe, hgt])

theorem lexLe_trans : ∀ {a b c : Str}, PageGen.lexLe a b = true →
    PageGen.lexLe b c = true → PageGen.lexLe a c = true := by
  intro a
  induction a with
  | nil => intro b c _ _; rfl
  | cons x xs ih =>
    intro b c hab hbc
    cases b with
    | nil => exact absurd hab (by simp [PageGen.lexLe])
    | cons y ys =>
      cases c with
      | nil => exact absurd hbc (by simp [PageGen.lexLe])
      | cons z zs =>
        rw [PageGen.lexLe] at hab hbc ⊢
        by_cases hxy : x < y
        · rw [if_pos hxy] at hab
          by_cases hyz : y < z
          · rw [if_pos (lt_trans hxy hyz)]
          · rw [if_neg hyz] at hbc
            by_cases heq : y = z
            · subst heq
              rw [if_pos hxy]
            · rw [if_neg heq] at hbc
              cases hbc
        · rw [if_neg hxy] at hab
          by_cases heq : x = y
          · subst heq
            rw [if_pos rfl] at hab
            by_cases hyz : x < z
            · rw [if_pos hyz]
            · rw [if_neg hyz] at hbc ⊢
              by_cases heq2 : x = z
              · rw [if_pos heq2] at hbc ⊢
                exact ih hab hbc
              · rw [if_neg heq2] at hbc
                cases hbc
          · rw [if_neg heq] at hab
            cases hab

theorem insertSorted_perm {α : Type} (le : α → α → Bool) (x : α) :
    ∀ (l : List α), (PageGen.insertSorted le x l).Perm (x :: l) := by
  intro l
  induction l with
  | nil => exact List.Perm.refl _
  | cons y ys ih =>
    rw [PageGen.insertSorted]
    by_cases h : le x y = true
    · rw [if_pos h]
    · rw [if_neg h]
      exact List.Perm.trans (List.Perm.cons y ih) (List.Perm.swap x y ys)

theorem sortBy_perm {α : Type} (le : α → α → Bool) (xs : List α) :
    (PageGen.sortBy le xs).Perm xs := by
  induction xs with
  | nil => exact List.Perm.refl _
  | cons x rest ih =>
    exact List.Perm.trans (insertSorted_perm le x (PageGen.sortBy le rest))
      (List.Perm.cons x ih)

theorem mem_insertSorted {α : Type} (le : α → α → Bool) (x a : α) (l : List α) :
    a ∈ PageGen.insertSorted le x l ↔ a = x ∨ a ∈ l := by
  rw [(insertSorted_perm le x l).mem_iff]
  simp

theorem insertSorted_pairwise {α : Type} {le : α → α → Bool}
    (htot : ∀ a b, le a b = true ∨ le b a = true)
    (htrans : ∀ {a b c}, le a b = true → le b c = true → le a c = true)
    (x : α) : ∀ {l : List α}, l.Pairwise (fun a b => le a b = true) →
      (PageGen.insertSorted le x l).Pairwise (fun a b => le a b = true) := by
  intro l
  induction l with
  | nil => intro _; simp [PageGen.insertSorted]
  | cons y ys ih =>
    intro hp
    obtain ⟨hy, hys⟩ := List.pairwise_cons.mp hp
    rw [PageGen.insertSorted]
    by_cases h : le x y = true
    · rw [if_pos h]
      refine List.pairwise_cons.mpr ⟨?_, hp⟩
      intro b hb
      rcases (by simpa using hb : b = y ∨ b ∈ ys) with rfl | hbys
      · exact h
      · exact htrans h (hy b hbys)
    · rw [if_neg h]
      refine List.pairwise_cons.mpr ⟨?_, ih hys⟩
      intro b hb
      rcases (mem_insertSorted le x b ys).mp hb with rfl | hbys
      · rcases htot b y with h2 | h2
        · exact absurd h2 h
        · exact h2
      · exact hy b hbys

theorem sortBy_pairwise {α : Type} {le : α → α → Bool}
    (htot : ∀ a b, le a b = true ∨ le b a = true)
    (htrans : ∀ {a b c}, le a b = true → le b c = true → le a c = true)
    (xs : List α) :
    (PageGen.sortBy le xs).Pairwise (fun a b => le a b = true) := by
  induction xs with
  | nil => simp [PageGen.sortBy]
  | cons x rest ih => exact insertSorted_pairwise htot htrans x ih

theorem lookupStr_mem {α : Type} {xs : List (Str × α)} {k : Str} {v : α}
    (h : PageGen.lookupStr xs k = some v) : v ∈ xs.map Prod.snd := by
  unfold PageGen.lookupStr at h
  cases hf : xs.find? (fun p => p.1 = k) with
  | none => rw [hf] at h; cases h
  | some pr =>
    rw [hf] at h
    obtain rfl : pr.2 = v := by simpa using h
    exact List.mem_map_of_mem Prod.snd (List.mem_of_find?_eq_some hf)

theorem lookupStr_isSome_iff {α : Type} (xs : List (Str × α)) (k : Str) :
    (PageGen.lookupStr xs k).isSome = true ↔ k ∈ xs.map Prod.fst := by
  unfold PageGen.lookupStr
  induction xs with
  | nil => simp [List.find?]
  | cons pr rest ih =>
    by_cases hk : pr.1 = k
    · rw [List.find?_cons_of_pos _ (by simpa using hk)]
      constructor
      · intro _
        rw [List.map_cons]
        exact List.mem_cons.mpr (Or.inl hk.symm)
      · intro _
        rfl
    · rw [List.find?_cons_of_neg _ (by simpa using hk)]
      rw [List.map_cons]
      constructor
      · intro h
        exact List.mem_cons_of_mem _ (ih.mp h)
      · intro h
        rcases List.mem_cons.mp h with h1 | h1
        · exact absurd h1.symm hk
        · exact ih.mpr h1

theorem lookup_variant_branch_ok {kind vkey : Str} {comp : List (Str × Str)}
    {nm : Str}
    (h : (match PageGen.lookupStr comp vkey with
          | none => Except.error
              (PageGen.GenError.unknownVariant kind vkey (comp.map Prod.fst))
          | some componentName => (.ok componentName : Except PageGen.GenError Str)) =
      .ok nm) :
    PageGen.lookupStr comp vkey = some nm := by
  cases hv : PageGen.lookupStr comp vkey with
  | none => rw [hv] at h; cases h
  | some nm2 =>
    rw [hv] at h
    obtain rfl : nm = nm2 := by simpa using h.symm
    rfl

theorem getSectionComponentName_ok_shape {kind : Str} {var : Option Str} {nm : Str}
    (h : PageGen.getSectionComponentName kind var = .ok nm) :
    nm = "HeroDefault".data ∨ nm = "HeroSplit".data ∨ nm = "Features".data ∨
    nm = "Pricing".data ∨ nm = "Footer".data := by
  unfold PageGen.getSectionComponentName at h
  cases hl : PageGen.lookupStr PageGen.SECTION_COMPONENTS kind with
  | none => rw [hl] at h; cases h
  | some comp =>
    rw [hl] at h
    dsimp only at h
    have hcm := lookupStr_mem hl
    have hnmem : nm ∈ comp.map Prod.snd := by
      cases var with
      | none => exact lookupStr_mem (lookup_variant_branch_ok h)
      | some v => exact lookupStr_mem (lookup_variant_branch_ok h)
    simp only [PageGen.SECTION_COMPONENTS, List.map, List.mem_cons,
      List.mem_singleton, List.mem_nil_iff, or_false] at hcm
    rcases hcm with rfl | rfl | rfl | rfl
    · rcases (by simpa using hnmem : _ ∨ _) with h1 | h1
      · exact Or.inl h1
      · exact Or.inr (Or.inl h1)
    · exact Or.inr (Or.inr (Or.inl (by simpa using hnmem)))
    · exact Or.inr (Or.inr (Or.inr (Or.inl (by simpa using hnmem))))
    · exact Or.inr (Or.inr (Or.inr (Or.inr (by simpa using hnmem))))

theorem component_name_word {nm : Str}
    (h : nm = "HeroDefault".data ∨ nm = "HeroSplit".data ∨ nm = "Features".data ∨
      nm = "Pricing".data ∨ nm = "Footer".data) :
    nm ≠ [] ∧ nm.all JsStr.isWordChar = true := by
  rcases h with rfl | rfl | rfl | rfl | rfl <;> exact ⟨by decide, by decide⟩

/-- The import statement `importsFold` stores for a component name. -/
def mkImport (styleOf : Str → PageGen.ExportStyle)
    (arch : PageGen.ArchitecturePreset) (nm : Str) : Str :=
  PageGen.generateComponentImportStatement nm (PageGen.importPathOf arch nm)
    (styleOf ("templates/next-js/components/".data ++ PageGen.folderOf arch ++
      "/".data ++ nm ++ ".tsx".data))

theorem dropLit_append : ∀ (l s : Str), PageGen.dropLit l (l ++ s) = some s := by
  intro l
  induction l with
  | nil => intro s; rfl
  | cons c cs ih => intro s; simp [PageGen.dropLit, ih]

theorem takeWhile_append_all {p : Char → Bool} :
    ∀ (l t : Str), (∀ c ∈ l, p c = true) →
      (l ++ t).takeWhile p = l ++ t.takeWhile p := by
  intro l
  induction l with
  | nil => intro t _; rfl
  | cons c cs ih =>
    intro t h
    rw [List.cons_append, List.takeWhile_cons, h c (by simp)]
    simp [ih t (fun x hx => h x (by simp [hx]))]

theorem wordChar_not_space {c : Char} (h : JsStr.isWordChar c = true) :
    JsStr.isJsSpace c = false := by
  by_contra hc
  simp only [Bool.not_eq_false] at hc
  simp only [JsStr.isJsSpace, Bool.or_eq_true, decide_eq_true_eq] at hc
  rcases hc with ((((h1 | h1) | h1) | h1) | h1) | h1 <;>
    rw [h1] at h <;> exact absurd h (by decide)

theorem wordChar_not_brace {c : Char} (h : JsStr.isWordChar c = true) :
    c ≠ '\x7b' := by
  intro h1
  rw [h1] at h
  exact absurd h (by decide)


theorem takeWhile_concrete_space : ∀ (X : Str) (c : Char) (t : Str),
    JsStr.isWordChar c = false →
    ((c :: t) ++ X).takeWhile JsStr.isWordChar = [] := by
  intro X c t hc
  rw [List.cons_append, List.takeWhile_cons, hc]
  rfl

theorem extract_stmt (nm path : Str) (st : PageGen.ExportStyle) (h1 : nm ≠ [])
    (h2 : nm.all JsStr.isWordChar = true) :
    PageGen.extractImportName
      (PageGen.generateComponentImportStatement nm path st) = nm := by
  obtain ⟨c0, nm0, rfl⟩ : ∃ c0 nm0, nm = c0 :: nm0 := by
    cases nm with
    | nil => exact absurd rfl h1
    | cons c0 nm0 => exact ⟨c0, nm0, rfl⟩
  have hword : ∀ x ∈ c0 :: nm0, JsStr.isWordChar x = true := List.all_eq_true.mp h2
  have hc0s : JsStr.isJsSpace c0 = false := wordChar_not_space (hword c0 (by simp))
  have hc0b : c0 ≠ '\x7b' := wordChar_not_brace (hword c0 (by simp))
  have hdw : ∀ R : Str,
      List.dropWhile JsStr.isJsSpace ((c0 :: nm0) ++ R) = c0 :: (nm0 ++ R) := by
    intro R
    rw [List.cons_append, List.dropWhile_cons, hc0s]
    rfl
  have htk : ∀ R : Str, R.takeWhile JsStr.isWordChar = [] →
      ((c0 :: nm0) ++ R).takeWhile JsStr.isWordChar = c0 :: nm0 := by
    intro R hR
    rw [takeWhile_append_all (c0 :: nm0) R hword, hR, List.append_nil]
  cases st with
  | default =>
    unfold PageGen.generateComponentImportStatement PageGen.extractImportName
    simp only [List.append_assoc]
    rw [show ∀ X : Str, ("import ".data : Str) ++ ((c0 :: nm0) ++ X)
        = "import".data ++ (' ' :: ((c0 :: nm0) ++ X)) from fun X => rfl]
    rw [dropLit_append]
    dsimp only
    rw [show ∀ X : Str, List.dropWhile JsStr.isJsSpace (' ' :: X)
        = List.dropWhile JsStr.isJsSpace X from fun X => rfl]
    rw [hdw]
    rw [if_neg (by simp [Nat.succ_ne_self])]
    split
    · rename_i t ht
      injection ht with hA hB
      exact absurd hA hc0b
    · exact htk _ (takeWhile_concrete_space _ ' ' "from \"".data (by decide))
  | named =>
    unfold PageGen.generateComponentImportStatement PageGen.extractImportName
    simp only [List.append_assoc]
    rw [show ∀ X : Str, ("import \x7b ".data : Str) ++ ((c0 :: nm0) ++ X)
        = "import".data ++ (' ' :: '\x7b' :: ' ' :: ((c0 :: nm0) ++ X))
      from fun X => rfl]
    rw [dropLit_append]
    dsimp only
    rw [show ∀ X : Str, List.dropWhile JsStr.isJsSpace (' ' :: '\x7b' :: X)
        = '\x7b' :: X from fun X => rfl]
    rw [if_neg (by simp [Nat.succ_ne_self])]
    split
    · rename_i t ht
      injection ht with hA hB
      subst hB
      rw [show ∀ X : Str, List.dropWhile JsStr.isJsSpace (' ' :: X)
          = List.dropWhile JsStr.isJsSpace X from fun X => rfl]
      rw [hdw]
      exact htk _ (takeWhile_concrete_space _ ' ' "\x7d from \"".data (by decide))
    · rename_i hno
      exact absurd rfl (hno _)

theorem extract_mkImport (styleOf : Str → PageGen.ExportStyle)
    (arch : PageGen.ArchitecturePreset) (nm : Str) (h1 : nm ≠ [])
    (h2 : nm.all JsStr.isWordChar = true) :
    PageGen.extractImportName (mkImport styleOf arch nm) = nm :=
  extract_stmt nm (PageGen.importPathOf arch nm) _ h1 h2

theorem importsFold_ok_facts (styleOf : Str → PageGen.ExportStyle)
    (arch : PageGen.ArchitecturePreset) :
    ∀ (secs : List Repair.SectionConfig) (acc pairs : List (Str × Str)),
      PageGen.importsFold styleOf arch secs acc = .ok pairs →
      (∀ pr ∈ pairs, pr ∈ acc ∨ pr.2 = mkImport styleOf arch pr.1) ∧
      ((acc.map Prod.fst).Nodup → (pairs.map Prod.fst).Nodup) ∧
      (∀ k, k ∈ pairs.map Prod.fst ↔ k ∈ acc.map Prod.fst ∨
        ∃ sec ∈ secs, PageGen.getSectionComponentName sec.kind sec.variant = .ok k) := by
  intro secs
  induction secs with
  | nil =>
    intro acc pairs h
    obtain rfl : acc = pairs := by simpa [PageGen.importsFold] using h
    exact ⟨fun pr hpr => Or.inl hpr, fun h => h, fun k => by simp⟩
  | cons sec rest ih =>
    intro acc pairs h
    rw [PageGen.importsFold] at h
    cases hnm : PageGen.getSectionComponentName sec.kind sec.variant with
    | error e =>
      rw [hnm, except_error_bind] at h
      cases h
    | ok nm =>
      rw [hnm, except_ok_bind] at h
      by_cases hl : (PageGen.lookupStr acc nm).isSome = true
      · rw [if_pos hl] at h
        obtain ⟨f1, f2, f3⟩ := ih acc pairs h
        refine ⟨f1, f2, ?_⟩
        intro k
        rw [f3 k]
        constructor
        · rintro (hk | ⟨s, hs, hsk⟩)
          · exact Or.inl hk
          · exact Or.inr ⟨s, by simp [hs], hsk⟩
        · rintro (hk | ⟨s, hs, hsk⟩)
          · exact Or.inl hk
          · rcases (by simpa using hs : s = sec ∨ s ∈ rest) with rfl | hsr
            · obtain rfl : nm = k := by
                rw [hnm] at hsk
                simpa using hsk
              exact Or.inl ((lookupStr_isSome_iff acc nm).mp hl)
            · exact Or.inr ⟨s, hsr, hsk⟩
      · rw [if_neg hl] at h
        obtain ⟨f1, f2, f3⟩ := ih _ pairs h
        have hknot : nm ∉ acc.map Prod.fst := by
          intro hk
          exact hl ((lookupStr_isSome_iff acc nm).mpr hk)
        refine ⟨?_, ?_, ?_⟩
        · intro pr hpr
          rcases f1 pr hpr with hin | hmk
          · rcases List.mem_append.mp hin with hin2 | hin3
            · exact Or.inl hin2
            · rw [List.mem_singleton] at hin3
              rw [hin3]
              exact Or.inr rfl
          · exact Or.inr hmk
        · intro hnd
          apply f2
          rw [List.map_append]
          simp only [List.map_cons, List.map_nil]
          exact List.nodup_append.mpr ⟨hnd, by simp, by
            simp only [List.disjoint_singleton]
            simpa using hknot⟩
        · intro k
          rw [f3 k]
          rw [List.map_append]
          simp only [List.map_cons, List.map_nil, List.mem_append,
            List.mem_singleton]
          constructor
          · rintro ((hk | rfl) | ⟨s, hs, hsk⟩)
            · exact Or.inl hk
            · exact Or.inr ⟨sec, by simp, by rw [hnm]⟩
            · exact Or.inr ⟨s, by simp [hs], hsk⟩
          · rintro (hk | ⟨s, hs, hsk⟩)
            · exact Or.inl (Or.inl hk)
            · rcases (by simpa using hs : s = sec ∨ s ∈ rest) with rfl | hsr
              · refine Or.inl (Or.inr ?_)
                rw [hnm] at hsk
                simpa using hsk.symm
              · exact Or.inr ⟨s, hsr, hsk⟩

theorem mapExceptM_ok_get {E α β : Type} (f : α → Except E β) :
    ∀ (xs : List α) (ys : List β), PageGen.mapExceptM f xs = .ok ys →
      ys.length = xs.length ∧
      ∀ (j : Nat) (x : α), xs[j]? = some x → ∃ y, f x = .ok y ∧ ys[j]? = some y := by
  intro xs
  induction xs with
  | nil =>
    intro ys h
    obtain rfl : ys = [] := by simpa [PageGen.mapExceptM] using h.symm
    exact ⟨rfl, by simp⟩
  | cons x rest ih =>
    intro ys h
    rw [PageGen.mapExceptM] at h
    cases hx : f x with
    | error e => rw [hx, except_error_bind] at h; cases h
    | ok y =>
      rw [hx, except_ok_bind] at h
      cases hr : PageGen.mapExceptM f rest with
      | error e => rw [hr, except_error_bind] at h; cases h
      | ok ys0 =>
        rw [hr, except_ok_bind] at h
        obtain rfl : ys = y :: ys0 := by simpa using h.symm
        obtain ⟨hlen, hget⟩ := ih ys0 hr
        refine ⟨by simp [hlen], ?_⟩
        intro j z hz
        cases j with
        | zero =>
          obtain rfl : z = x := by simpa using hz.symm
          exact ⟨y, hx, by simp⟩
        | succ j =>
          obtain ⟨y2, hy2, hy2g⟩ := hget j z (by simpa using hz)
          exact ⟨y2, hy2, by simpa using hy2g⟩

/-- **C8.** For every spec whose first page's sections all resolve (i.e.
page generation succeeds): the emitted import list contains exactly
one import statement per distinct resolved component identifier (the list of
extracted component identifiers has no duplicates and a name appears iff
some section resolves to it), the import statements are sorted by
component identifier, and the page body renders one element per section
in the original order of the sections sequence (duplicate kinds render
repeatedly in place but import only once); the page source is assembled
from exactly these imports and body lines. -/
theorem c8_imports_and_body (spec : PageGen.GenSpec)
    (styleOf : Str → PageGen.ExportStyle) (page : Repair.PageConfig)
    (rest : List Repair.PageConfig) (out : PageGen.PageOutput)
    (hp : spec.pages = page :: rest)
    (h : PageGen.generate spec styleOf = .ok out) :
    ((out.imports.map PageGen.extractImportName).Nodup ∧
     (out.imports.map PageGen.extractImportName).Pairwise
       (fun a b => PageGen.lexLe a b = true)) ∧
    (∀ nm, nm ∈ out.imports.map PageGen.extractImportName ↔
      ∃ sec ∈ page.sections,
        PageGen.getSectionComponentName sec.kind sec.variant = .ok nm) ∧
    (out.body.length = page.sections.length ∧
     ∀ (j : Nat) (sec : Repair.SectionConfig), page.sections[j]? = some sec →
       ∃ nm, PageGen.getSectionComponentName sec.kind sec.variant = .ok nm ∧
         out.body[j]? = some (PageGen.renderSection nm sec.content)) ∧
    out.source = PageGen.pageSourceHeader ++
      List.intercalate "\n".data out.imports ++ PageGen.pageSourceMid ++
      List.intercalate "\n      ".data out.body ++ PageGen.pageSourceTail := by
  rw [PageGen.generate, hp] at h
  dsimp only at h
  cases himp : PageGen.importsFold styleOf (spec.architecture.getD .landing)
      page.sections [] with
  | error e => rw [himp, except_error_bind] at h; cases h
  | ok pairs =>
    rw [himp, except_ok_bind] at h
    cases hbody : PageGen.mapExceptM (fun sec => do
        let componentName ← PageGen.getSectionComponentName sec.kind sec.variant
        .ok (PageGen.renderSection componentName sec.content)) page.sections with
    | error e => rw [hbody, except_error_bind] at h; cases h
    | ok body =>
      rw [hbody, except_ok_bind] at h
      rw [Except.ok.injEq] at h
      subst h
      obtain ⟨f1, f2, f3⟩ := importsFold_ok_facts styleOf
        (spec.architecture.getD .landing) page.sections [] pairs himp
      have hkeys : ∀ k, k ∈ pairs.map Prod.fst ↔
          ∃ sec ∈ page.sections,
            PageGen.getSectionComponentName sec.kind sec.variant = .ok k := by
        intro k
        rw [f3 k]
        simp
      have hextract : ∀ pr ∈ pairs, PageGen.extractImportName pr.2 = pr.1 := by
        intro pr hpr
        rcases f1 pr hpr with hin | hmk
        · simp at hin
        · rw [hmk]
          obtain ⟨sec, -, hres⟩ := (hkeys pr.1).mp (List.mem_map_of_mem Prod.fst hpr)
          obtain ⟨hne, hword⟩ := component_name_word (getSectionComponentName_ok_shape hres)
          exact extract_mkImport styleOf _ pr.1 hne hword
      have hmapeq : (pairs.map Prod.snd).map PageGen.extractImportName
          = pairs.map Prod.fst := by
        rw [List.map_map]
        exact List.map_congr_left hextract
      have hperm : ((PageGen.sortBy PageGen.importLe (pairs.map Prod.snd)).map
          PageGen.extractImportName).Perm (pairs.map Prod.fst) := by
        rw [← hmapeq]
        exact (sortBy_perm PageGen.importLe (pairs.map Prod.snd)).map _
      refine ⟨⟨?_, ?_⟩, ?_, ⟨?_, ?_⟩, rfl⟩
      · exact hperm.nodup_iff.mpr (f2 (by simp))
      · have htot : ∀ a b : Str,
            PageGen.importLe a b = true ∨ PageGen.importLe b a = true :=
          fun a b => lexLe_total (PageGen.extractImportName a)
            (PageGen.extractImportName b)
        have htr : ∀ {a b c : Str}, PageGen.importLe a b = true →
            PageGen.importLe b c = true → PageGen.importLe a c = true :=
          fun h1 h2 => lexLe_trans h1 h2
        have hpw : (PageGen.sortBy PageGen.importLe (pairs.map Prod.snd)).Pairwise
            (fun a b => PageGen.importLe a b = true) :=
          sortBy_pairwise htot htr _
        exact List.pairwise_map.mpr hpw
      · intro nm
        rw [hperm.mem_iff]
        exact hkeys nm
      · obtain ⟨hlen, -⟩ := mapExceptM_ok_get _ page.sections body hbody
        exact hlen
      · intro j sec hsec
        obtain ⟨-, hget⟩ := mapExceptM_ok_get _ page.sections body hbody
        obtain ⟨y, hy, hyg⟩ := hget j sec hsec
        cases hg : PageGen.getSectionComponentName sec.kind sec.variant with
        | error e =>
          rw [hg, except_error_bind] at hy
          cases hy
        | ok nm =>
          rw [hg, except_ok_bind] at hy
          obtain rfl : y = PageGen.renderSection nm sec.content := by simpa using hy.symm
          exact ⟨nm, rfl, hyg⟩

def c8Page : Repair.PageConfig :=
  { id := "home".data, name := "Home".data, route := "/".data,
    sections := [{ id := "s1".data, kind := "hero".data,
                   variant := some "split".data, content := none },
                 { id := "s2".data, kind := "footer".data,
                   variant := none, content := none },
                 { id := "s3".data, kind := "hero".data,
                   variant := some "split".data, content := none }] }

def c8Spec : PageGen.GenSpec :=
  { architecture := none, pages := [c8Page] }

/-- Witness for C8 at a spec with a duplicated section kind. -/
theorem c8_imports_and_body_witness :
    ∃ out, PageGen.generate c8Spec (fun _ => .default) = .ok out ∧
      (((out.imports.map PageGen.extractImportName).Nodup ∧
        (out.imports.map PageGen.extractImportName).Pairwise
          (fun a b => PageGen.lexLe a b = true)) ∧
       (∀ nm, nm ∈ out.imports.map PageGen.extractImportName ↔
         ∃ sec ∈ c8Page.sections,
           PageGen.getSectionComponentName sec.kind sec.variant = .ok nm) ∧
       (out.body.length = c8Page.sections.length ∧
        ∀ (j : Nat) (sec : Repair.SectionConfig), c8Page.sections[j]? = some sec →
          ∃ nm, PageGen.getSectionComponentName sec.kind sec.variant = .ok nm ∧
            out.body[j]? = some (PageGen.renderSection nm sec.content)) ∧
       out.source = PageGen.pageSourceHeader ++
         List.intercalate "\n".data out.imports ++ PageGen.pageSourceMid ++
         List.intercalate "\n      ".data out.body ++ PageGen.pageSourceTail) :=
  ⟨_, rfl, c8_imports_and_body c8Spec (fun _ => .default) c8Page [] _ rfl rfl⟩
